import Mathlib

/-!
KubeEye inspection orchestration: rule engine and job allocator.

A shallow embedding of `pkg/rules/rules.go` and of the controllers
`pkg/controllers/inspecttask_controller.go`,
`pkg/controllers/inspectresult_controller.go` and
`controllers/inspecttask_controller.go`, together with the properties the design
document states about them.

Conventions of the embedding.

* A Go slice is a Lean `List`; the nil slice and the empty slice are both `[]`.
* A Go `map[string]V` is an association list `List (String × V)`; the order of
  the list is the order in which a `range` loop visits the entries.  Go leaves
  that order unspecified, so every statement below is made for an arbitrary
  list.  A list whose keys are pairwise distinct is a well-formed map.
* `json.Marshal` is injective on the values used here, so a serialized payload
  is represented by the value that was serialized.
* `rand.String(5)` is an oracle `rnd : Nat → String`: `rnd c` is the value of
  the `c`-th call, and the functions thread the call counter.
* Times and durations are integers (seconds); a reading of `time.Now()` is an
  input.  Requests to the cluster are answered by an environment record that
  says which of them fail.
* The goroutines of `createJobsInspect` share the slice `jobNames`; they are run
  under a schedule that is an input, and an append to the slice is a read
  followed by a store, so that appends made without the mutex can overlap.  The
  units of work that `Reconcile` starts per cluster are taken one after the
  other, in the order in which they are started.
-/

namespace KubeEye

/-! ## Helpers of `pkg/utils` -/

namespace utils

/-- Modelled from the spec: `utils.ArrayFinds` is declared outside `src/`; it is the
"inner linear search" of the design document.  It returns the index and the value
of the first element satisfying `f`; `none` stands for the Go result
`(-1, false, zero)`. -/
def ArrayFindsFrom {α : Type} (f : α → Bool) : Nat → List α → Option (Nat × α)
  | _, [] => none
  | i, v :: vs => if f v then some (i, v) else ArrayFindsFrom f (i + 1) vs

/-- Modelled from the spec: `utils.ArrayFinds(s, f)`, the search started at index 0. -/
def ArrayFinds {α : Type} (s : List α) (f : α → Bool) : Option (Nat × α) :=
  ArrayFindsFrom f 0 s

/-- Modelled from the spec: `utils.ArrayFind(s, sub)` is declared outside `src/`; it
reports whether the string `s` occurs in `sub` (the index is never used by the
callers embedded here). -/
def ArrayFind (s : String) (sub : List String) : Bool :=
  sub.any (fun v => s == v)

/-- Modelled from the spec: `utils.ArrayFilter` is declared outside `src/`; it splits a
slice into the elements satisfying the predicate and the remaining ones, both in
their original order. -/
def ArrayFilter {α : Type} (s : List α) (f : α → Bool) : List α × List α :=
  (s.filter f, s.filter (fun v => !f v))

/-- Modelled from the spec: `utils.IsEmptyValue` is declared outside `src/`; on an
optional string it holds for nil and for the empty string. -/
def IsEmptyValue : Option String → Bool
  | none => true
  | some s => s == ""

end utils

/-! ## Data model -/

/-- Modelled from the spec: the rule item types of `apis/kubeeye/v1alpha2` are declared
outside `src/`.  A rule item, in the `map[string]interface{}` form the rule engine
works on, "carries a name, an optional explicit node name, an optional node-label
selector, and category-specific payload".  An optional field is `none` exactly
when its key is absent from the map, so `m["k"] != nil` and `_, ok := m["k"]` are
both `isSome`.  The selector is a Go map, given in iteration order. -/
structure Item where
  name : Option String
  nodeName : Option String
  nodeSelector : Option (List (String × String))
  endpoint : String
  payload : List (String × String)
deriving DecidableEq, Repr

/-- The value of `m["name"]`. -/
def Item.key (m : Item) : Option String := m.name

/-- Modelled from the spec: `utils.ArrayStructToArrayMap` is declared outside `src/`; it
re-reads a slice as a slice of `map[string]interface{}` through its serialized
form and fails when an element is not an object.  Every `Item` is an object. -/
def utils.ArrayStructToArrayMap (obj : List Item) : Except String (List Item) :=
  .ok obj

/-- Modelled from the spec: `utils.MapToStruct` is declared outside `src/`; it reads the
maps back as values of the target type through their serialized form. -/
def utils.MapToStruct (maps : List Item) : List Item := maps

/-- The loop of `RuleArrayDeduplication`: `newMaps` is the list collected so
far, the second argument is the part of `maps` still to be visited. -/
def dedupLoop : List Item → List Item → List Item
  | newMaps, [] => newMaps
  | newMaps, m :: rest =>
    match utils.ArrayFinds newMaps (fun m1 => decide (m.key = m1.key)) with
    | some _ => dedupLoop newMaps rest
    | none => dedupLoop (newMaps ++ [m]) rest

/-- `RuleArrayDeduplication` of `rules.go`.  `none` is the nil slice returned when
the conversion fails. -/
def RuleArrayDeduplication (obj : List Item) : Option (List Item) :=
  match utils.ArrayStructToArrayMap obj with
  | .error _ => none
  | .ok maps => some (utils.MapToStruct (dedupLoop [] maps))

/-! ## Constants, nodes and job specifications -/

namespace constant

/-- Modelled from the spec: package `constant` is declared outside `src/`.  The design
document lists ten categories (policy, metrics, sysctl, systemd, file-change,
file-filter, custom-command, node-info, service-connectivity, component); the
strings below stand for the ten constants, and only the fact that they are
pairwise distinct is used. -/
def Opa : String := "opa"

/-- Modelled from the spec: the metrics category constant (see `constant.Opa`). -/
def Prometheus : String := "prometheus"

/-- Modelled from the spec: the service-connectivity category constant. -/
def ServiceConnect : String := "serviceconnect"

/-- Modelled from the spec: the file-change category constant. -/
def FileChange : String := "filechange"

/-- Modelled from the spec: the sysctl category constant. -/
def Sysctl : String := "sysctl"

/-- Modelled from the spec: the systemd category constant. -/
def Systemd : String := "systemd"

/-- Modelled from the spec: the file-filter category constant. -/
def FileFilter : String := "filefilter"

/-- Modelled from the spec: the custom-command category constant. -/
def CustomCommand : String := "customcommand"

/-- Modelled from the spec: the node-info category constant. -/
def NodeInfo : String := "nodeinfo"

/-- Modelled from the spec: the pseudo-category "component". -/
def Component : String := "component"

end constant

/-- The part of `corev1.Node` the allocator reads: the node name and its labels. -/
structure Node where
  Name : String
  Labels : List (String × String)
deriving DecidableEq, Repr

/-- The Go expression `m.Labels[k]`: the zero value `""` for an absent key. -/
def Node.label (m : Node) (k : String) : String :=
  (m.Labels.lookup k).getD ""

/-- `kubeeyev1alpha2.JobRule`: the job specification.  `RunRule` is the value whose
serialization the Go field holds. -/
structure JobRule where
  JobName : String
  RuleType : String
  RunRule : List Item
deriving DecidableEq, Repr

/-- The Go expression `fmt.Sprintf("%s-%s-%s", taskName, ruleType, suffix)`. -/
def jobName (taskName ruleType suffix : String) : String :=
  taskName ++ "-" ++ ruleType ++ "-" ++ suffix

/-- The Go expression `m[k]` on a map of slices: the nil slice for an absent key. -/
def mapGet {V : Type} (m : List (String × List V)) (k : String) : List V :=
  (m.lookup k).getD []

/-- The Go statement `m[k] = v`: the entry of `k` is replaced where it stands, a new
key is added at the end. -/
def mapSet {V : Type} : List (String × V) → String → V → List (String × V)
  | [], k, v => [(k, v)]
  | (k1, v1) :: rest, k, v =>
    if k1 = k then (k1, v) :: rest else (k1, v1) :: mapSet rest k v

/-- `Allocation` of `rules.go`.  The parameter `rule` is a Go `interface{}`: `none` is
the nil interface, `some v` an interface holding the slice `v`.  An interface that
holds a slice is not nil, also when the slice is nil or empty. -/
def Allocation (rnd : Nat → String) (c : Nat) (rule : Option (List Item))
    (taskName ruleType : String) : Except String JobRule × Nat :=
  if rule.isNone && ruleType != constant.Component then
    (.error "failed to Allocation rule for empty", c)
  else
    (.ok { JobName := jobName taskName ruleType (rnd c), RuleType := ruleType,
           RunRule := rule.getD [] }, c + 1)

/-- The Go statement `mergeMap[k] = append(mergeMap[k], m)`. -/
def mergeMapAppend (mergeMap : List (String × List Item)) (k : String) (m : Item) :
    List (String × List Item) :=
  mapSet mergeMap k (mapGet mergeMap k ++ [m])

/-- The predicate `mergeNodeRule` hands to `utils.ArrayFilter`: `isExist` starts as
false and every visited pair of the selector assigns it anew.  The pairs are
visited in the order of the list `convertMap`, which stands for the order that
`range convertMap` takes; Go chooses that order anew at every call, the list
fixes one order for the calls on all nodes. -/
def selectorFilter (convertMap : List (String × String)) (m : Node) : Bool :=
  convertMap.foldl (fun _ kv => m.label kv.1 == kv.2) false

/-- The body of the loop of `mergeNodeRule` for one item `m`. -/
def mergeNodeRuleStep (allNode : List Node) (mergeMap : List (String × List Item))
    (m : Item) : List (String × List Item) :=
  if m.nodeName.isSome && !utils.IsEmptyValue m.nodeName then
    mergeMapAppend mergeMap (m.nodeName.getD "") m
  else
    match m.nodeSelector with
    | some convertMap =>
      let filterData := (utils.ArrayFilter allNode (selectorFilter convertMap)).1
      filterData.foldl
        (fun acc data => mergeMapAppend acc data.Name { m with nodeName := some data.Name })
        mergeMap
    | none => mergeMap

/-- `mergeNodeRule` of `rules.go`. -/
def mergeNodeRule (rule : List Item) (allNode : List Node) : List (String × List Item) :=
  rule.foldl (mergeNodeRuleStep allNode) []

/-- One job specification per payload, each with a fresh suffix; `c` is the number of
suffixes drawn before. -/
def emitJobs (rnd : Nat → String) (taskName ctlOrTem : String) :
    Nat → List (List Item) → List JobRule
  | _, [] => []
  | c, v :: rest =>
    { JobName := jobName taskName ctlOrTem (rnd c), RuleType := ctlOrTem, RunRule := v }
      :: emitJobs rnd taskName ctlOrTem (c + 1) rest

/-- The payload of the broadcast job of node `item`: every entry of `filterData`
with `nodeName` set to the node's name. -/
def broadcastPayload (filterData : List Item) (item : Node) : List Item :=
  filterData.map (fun f => { f with nodeName := some item.Name })

/-- `AllocationRule` of `rules.go`.  Serializing the payloads cannot fail, so the
result is always `.ok`. -/
def AllocationRule (rnd : Nat → String) (c : Nat) (rule : List Item) (taskName : String)
    (allNode : List Node) (ctlOrTem : String) : Except String (List JobRule) × Nat :=
  let split := utils.ArrayFilter rule (fun v => v.nodeName.isSome || v.nodeSelector.isSome)
  let nodeData := split.1
  let filterData := split.2
  let nodeNameMergeMap := mergeNodeRule nodeData allNode
  let jobRules := emitJobs rnd taskName ctlOrTem c (nodeNameMergeMap.map Prod.snd)
  let c1 := c + nodeNameMergeMap.length
  if filterData.length > 0 then
    (.ok (jobRules ++ emitJobs rnd taskName ctlOrTem c1 (allNode.map (broadcastPayload filterData))),
      c1 + allNode.length)
  else
    (.ok jobRules, c1)

/-! ## Rules, tasks and the rule engine -/

/-- Modelled from the spec: `kubeeyev1alpha2.InspectRuleSpec` is declared outside `src/`.
A rule is "a named bundle of rule items grouped by category".  `Lists` holds the
list-valued fields under their keys, as `utils.StructToMap` presents them. -/
structure InspectRuleSpec where
  PrometheusEndpoint : String
  Lists : List (String × List Item)
deriving DecidableEq, Repr

/-- Modelled from the spec: `kubeeyev1alpha2.InspectRule`, declared outside `src/`. -/
structure InspectRule where
  Name : String
  Spec : InspectRuleSpec
deriving DecidableEq, Repr

/-- Modelled from the spec: an entry of the task's requested rule names, "each
optionally carrying a node-name or node-selector override". -/
structure InspectRuleNames where
  Name : String
  NodeName : Option String
  NodeSelector : Option (List (String × String))
deriving DecidableEq, Repr

/-- Modelled from the spec: `kubeeyev1alpha2.Phase` is declared outside `src/`.  The
task states are "Pending → Running → {Succeeded, Failed}"; `Pending` is the zero
value of the type. -/
inductive Phase where
  | Pending
  | Running
  | Succeeded
  | Failed
deriving DecidableEq, Repr

/-- Modelled from the spec: `kubeeyev1alpha2.JobPhase`, the job outcome: "JobSpec name +
terminal phase". -/
structure JobPhase where
  JobName : String
  Phase : Phase
deriving DecidableEq, Repr

/-- Modelled from the spec: `kubeeyev1alpha2.AuditResult`, the recorded outcome of one
requested category (auditor), of which the task controller reads the phase. -/
structure AuditResult where
  Name : String
  Phase : Phase
deriving DecidableEq, Repr

/-- Modelled from the spec: `kubeeyev1alpha2.InspectTask` is declared outside `src/`.  The
fields are those the source files read or write: "requested rule names", "target
cluster names", "timeout duration", "creation time", and the mutable status
("phase, start/end timestamps, per-job phase list, completed-category count").
Times are integers (seconds); a zero `metav1.Time` or a nil pointer to one is
`none`; a nil slice that the code compares with `nil` is `none`.  `Auditors`,
`Phase`, `AuditResults` and `CompleteItemCount` are the fields of the type as
`controllers/inspecttask_controller.go` uses it. -/
structure InspectTask where
  Name : String
  RuleNames : List InspectRuleNames
  CreationTimestamp : Int := 0
  DeletionTimestamp : Option Int := none
  Finalizers : List String := []
  Timeout : String := ""
  ClusterName : Option (List String) := none
  Auditors : List String := []
  StartTimestamp : Option Int := none
  EndTimestamp : Option Int := none
  JobPhase : Option (List JobPhase) := none
  Phase : Phase := Phase.Pending
  AuditResults : List AuditResult := []
  CompleteItemCount : Nat := 0
deriving DecidableEq, Repr

/-- `ExecuteRule` of `rules.go`, without the cluster client. -/
structure ExecuteRule where
  Task : InspectTask
  clusterInspectRuleMap : List (String × String)
  clusterInspectRuleNames : List String
  ruleTotal : List (String × Nat)
deriving DecidableEq, Repr

/-- `NewExecuteRuleOptions` of `rules.go`. -/
def NewExecuteRuleOptions (Task : InspectTask) : ExecuteRule :=
  { Task := Task
    clusterInspectRuleNames := [constant.Opa, constant.Prometheus, constant.ServiceConnect]
    clusterInspectRuleMap :=
      [("opas", constant.Opa), ("prometheus", constant.Prometheus),
       ("serviceConnect", constant.ServiceConnect), ("fileChange", constant.FileChange),
       ("sysctl", constant.Sysctl), ("systemd", constant.Systemd),
       ("fileFilter", constant.FileFilter), ("customCommand", constant.CustomCommand),
       ("nodeInfo", constant.NodeInfo)]
    ruleTotal := [] }

/-- Modelled from the spec: `utils.StructToMap` is declared outside `src/`.  Of the map
it builds from a rule spec, the callers only use the entries whose value is a
slice (`case []interface{}`); these are the `Lists`. -/
def utils.StructToMap (spec : InspectRuleSpec) : List (String × List Item) :=
  spec.Lists

/-- The inner loop body of `SetRuleSchedule` for one item `m` of a rule requested by
`r`. -/
def setItemSchedule (r : InspectRuleNames) (m : Item) : Item :=
  if !m.nodeName.isSome && !m.nodeSelector.isSome then
    { m with nodeName := r.NodeName, nodeSelector := r.NodeSelector }
  else m

/-- The body of the loop of `SetRuleSchedule` for one requested name `r`. -/
def SetRuleScheduleStep (rules : List InspectRule) (newRules : List InspectRule)
    (r : InspectRuleNames) : List InspectRule :=
  match utils.ArrayFinds rules (fun m => r.Name == m.Name) with
  | some (_, rule) =>
    if !utils.IsEmptyValue r.NodeName || r.NodeSelector.isSome then
      let toMap := (utils.StructToMap rule.Spec).map
        (fun kv => (kv.1, kv.2.map (setItemSchedule r)))
      newRules ++ [{ rule with Spec := { rule.Spec with Lists := toMap } }]
    else newRules ++ [rule]
  | none => newRules

/-- `SetRuleSchedule` of `rules.go`. -/
def SetRuleSchedule (e : ExecuteRule) (rules : List InspectRule) : List InspectRule :=
  e.Task.RuleNames.foldl (SetRuleScheduleStep rules) []

/-- `SetPrometheusEndpoint` of `rules.go`. -/
def SetPrometheusEndpoint (allRule : List InspectRule) : List InspectRule :=
  allRule.map (fun rule =>
    if !utils.IsEmptyValue (some rule.Spec.PrometheusEndpoint)
        && (rule.Spec.Lists.lookup "prometheus").isSome then
      { rule with Spec := { rule.Spec with Lists := rule.Spec.Lists.map (fun kv =>
          if kv.1 = "prometheus" then
            (kv.1, kv.2.map (fun p =>
              if utils.IsEmptyValue (some p.endpoint) then
                { p with endpoint := rule.Spec.PrometheusEndpoint }
              else p))
          else kv) } }
    else rule)

/-- The body of the inner loop of `MergeRule` for one entry `k, val` of `toMap`; the
state is `newSpecMap` and `ruleTotal`.  `e.clusterInspectRuleMap[k]` is `""` for a
key the map does not hold. -/
def MergeRuleEntry (e : ExecuteRule)
    (st : List (String × List Item) × List (String × Nat)) (kv : String × List Item) :
    List (String × List Item) × List (String × Nat) :=
  match RuleArrayDeduplication (mapGet st.1 kv.1 ++ kv.2) with
  | some dedupMap =>
    (mapSet st.1 kv.1 dedupMap,
      mapSet st.2 ((e.clusterInspectRuleMap.lookup kv.1).getD "") dedupMap.length)
  | none => (mapSet st.1 kv.1 (mapGet st.1 kv.1 ++ kv.2), st.2)

/-- The loops of `MergeRule` over an already selected rule list. -/
def MergeRuleLoop (e : ExecuteRule) (selected : List InspectRule) :
    List (String × List Item) × List (String × Nat) :=
  selected.foldl
    (fun st rule => (utils.StructToMap rule.Spec).foldl (MergeRuleEntry e) st)
    ([], [(constant.Component, 1)])

/-- `MergeRule` of `rules.go`: the merged map, and the receiver with `ruleTotal`
set. -/
def MergeRule (e : ExecuteRule) (allRule : List InspectRule) :
    List (String × List Item) × ExecuteRule :=
  let st := MergeRuleLoop e (SetPrometheusEndpoint (SetRuleSchedule e allRule))
  (st.1, { e with ruleTotal := st.2 })

/-- The body of the loop of `GenerateJob` for one entry `key, v` of `rulesSpec`; the
state is `jobs` and the suffix counter. -/
def GenerateJobEntry (rnd : Nat → String) (e : ExecuteRule) (nodes : List Node)
    (st : List JobRule × Nat) (kv : String × List Item) : List JobRule × Nat :=
  match e.clusterInspectRuleMap.lookup kv.1 with
  | some mapV =>
    if utils.ArrayFind mapV e.clusterInspectRuleNames then
      match Allocation rnd st.2 (some kv.2) e.Task.Name mapV with
      | (.ok allocation, c) => (st.1 ++ [allocation], c)
      | (.error _, c) => (st.1, c)
    else
      match AllocationRule rnd st.2 kv.2 e.Task.Name nodes mapV with
      | (.ok allocationRule, c) => (st.1 ++ allocationRule, c)
      | (.error _, c) => (st.1, c)
  | none => st

/-- `GenerateJob` of `rules.go`; `nodes` is the result of `kube.GetNodes`. -/
def GenerateJob (rnd : Nat → String) (c : Nat) (e : ExecuteRule) (nodes : List Node)
    (rulesSpec : List (String × List Item)) : List JobRule × Nat :=
  let st := rulesSpec.foldl (GenerateJobEntry rnd e nodes) ([], c)
  match Allocation rnd st.2 (some (mapGet rulesSpec "componentExclude")) e.Task.Name
      constant.Component with
  | (.ok component, c2) => (st.1 ++ [component], c2)
  | (.error _, c2) => (st.1, c2)

/-- `GetRuleTotal` of `rules.go`. -/
def GetRuleTotal (e : ExecuteRule) : List (String × Nat) :=
  e.ruleTotal

/-! ## The task controller of `pkg/controllers` -/

/-- `GetStatus` of `pkg/controllers/inspecttask_controller.go`. -/
def GetStatus (task : InspectTask) : Phase :=
  match task.JobPhase with
  | none => Phase.Failed
  | some jobPhase =>
    match utils.ArrayFinds jobPhase (fun m => decide (m.Phase = Phase.Failed)) with
    | some _ => Phase.Failed
    | none => Phase.Succeeded

/-- The Go function `math.Round`: the nearest integer, halves rounded away from zero.
The `float64` values of the source are taken as exact rationals; for the counts
that occur (far below 2^50) the floating-point result of the expression in
`createJobsInspect` is the same integer. -/
def mathRound (x : ℚ) : ℤ :=
  if 0 ≤ x then ⌊x + 1 / 2⌋ else -⌊-x + 1 / 2⌋

/-- The concurrency budget computed at the start of `createJobsInspect`: the capacity
of the semaphore. -/
def concurrency (nodes : List Node) (inspectRule : List JobRule) : ℤ :=
  let runNumber := mathRound ((nodes.length : ℚ) + (inspectRule.length : ℚ) * (1 / 10))
  if runNumber > 5 then runNumber else 5

/-- Modelled from the spec: the parts of the dispatcher's surroundings that are declared
outside `src/`: `time.ParseDuration` (`none` is a parse error),
`constant.DefaultTimeout`, and the categories registered in
`inspect.RuleOperatorMap`.  Durations and times are integers (seconds). -/
structure Externals where
  ParseDuration : String → Option Int
  DefaultTimeout : Int
  RuleOperatorMap : List String

/-- `isTimeout` of `pkg/controllers/inspecttask_controller.go`; `now` is the value of
`time.Now()`. -/
def isTimeout (x : Externals) (startTime : Int) (t : String) (now : Int) : Bool :=
  let duration := match x.ParseDuration t with
    | some d => d
    | none => x.DefaultTimeout
  decide (startTime + duration < now)

/-- A config artifact (ConfigMap) of the default namespace: its name and labels. -/
structure ConfigMap where
  Name : String
  Labels : List (String × String)
deriving DecidableEq, Repr

/-- The state of the cluster the dispatcher acts on through the cluster client: the
config artifacts and the names of the backing jobs. -/
structure Cluster where
  ConfigMaps : List ConfigMap
  Jobs : List String
deriving DecidableEq, Repr

/-- The requests the dispatcher sends through the cluster client. -/
inductive Call where
  | GetConfigMap (name : String)
  | CreateJobTask (name : String)
  | GetJob (name : String)
  | DeleteJob (name : String)
  | DeleteRuleGroup
deriving DecidableEq, Repr

/-- The outcome of `ConfigMaps(...).Get`. -/
inductive GetOutcome where
  | Found
  | NotFound
  | Failed
deriving DecidableEq, Repr

/-- What the surroundings answer while one job spec is processed: the clock reading
of the deadline check, whether the artifact lookup or the job creation fails with
a transport or permission error, the creation time of the backing job, the time
of the first poll, and, as functions of the poll time, whether reading the job
fails, whether the job is complete (completion time set, no active pods), and
the delay beyond the 10 seconds of sleep until the next poll. -/
structure JobEnv where
  now : Int
  getFails : Bool
  createFails : Bool
  jobCreation : Int
  pollStart : Int
  jobGetFails : Int → Bool
  completed : Int → Bool
  latency : Int → Nat

/-- The request `ConfigMaps(constant.DefaultNamespace).Get(ctx, jobName, ...)`: an
error other than NotFound when the request fails, otherwise found or NotFound
according to the cluster state. -/
def getConfigMap (w : Cluster) (getFails : Bool) (jobName : String) : GetOutcome :=
  if getFails then GetOutcome.Failed
  else if w.ConfigMaps.any (fun cm => cm.Name == jobName) then GetOutcome.Found
  else GetOutcome.NotFound

/-- `isExistsJob` of `pkg/controllers/inspecttask_controller.go`: `none` is the nil
error, `some msg` the error "job already exists". -/
def isExistsJob (w : Cluster) (getFails : Bool) (jobName : String) : Option String :=
  match getConfigMap w getFails jobName with
  | GetOutcome.NotFound => none
  | _ => some ("job already exists for name:" ++ jobName)

/-- Modelled from the spec: `CreateJobTask` of the operators in `inspect.RuleOperatorMap` is
declared outside `src/`.  It does "create the backing job via ClusterClient" and
returns the outcome record of the job spec ("JobSpec name + terminal phase"),
not yet terminal; on an error nothing is created. -/
def CreateJobTask (w : Cluster) (createFails : Bool) (v : JobRule) :
    Except String JobPhase × Cluster :=
  if createFails then (.error "create job error", w)
  else (.ok { JobName := v.JobName, Phase := Phase.Running },
        { w with Jobs := w.Jobs ++ [v.JobName] })

/-- The loop of `waitForJobCompletionGetResult`; `now` is the time of the current
poll, the first argument bounds the number of polls. -/
def waitLoop (x : Externals) (env : JobEnv) (jobName timeout : String) :
    Nat → Int → Cluster → List Call → JobPhase → JobPhase × Cluster × List Call
  | 0, _, w, calls, jobPhase => (jobPhase, w, calls)
  | fuel + 1, now, w, calls, jobPhase =>
    if env.jobGetFails now then
      ({ jobPhase with Phase := Phase.Failed }, w, calls ++ [Call.GetJob jobName])
    else if isTimeout x env.jobCreation timeout now then
      ({ jobPhase with Phase := Phase.Failed },
        { w with Jobs := w.Jobs.filter (fun j => j != jobName) },
        calls ++ [Call.GetJob jobName, Call.DeleteJob jobName])
    else if env.completed now then
      ({ jobPhase with Phase := Phase.Succeeded }, w, calls ++ [Call.GetJob jobName])
    else
      waitLoop x env jobName timeout fuel (now + 10 + env.latency now) w
        (calls ++ [Call.GetJob jobName]) jobPhase

/-- A number of polls after which the deadline of the backing job has passed: every
poll is at least 10 seconds after the one before. -/
def waitFuel (x : Externals) (env : JobEnv) (timeout : String) : Nat :=
  let duration := match x.ParseDuration timeout with
    | some d => d
    | none => x.DefaultTimeout
  ((env.jobCreation + duration - env.pollStart).toNat / 10) + 2

/-- `waitForJobCompletionGetResult` of `pkg/controllers/inspecttask_controller.go`. -/
def waitForJobCompletionGetResult (x : Externals) (env : JobEnv) (w : Cluster)
    (calls : List Call) (jobName : String) (jobPhase : JobPhase) (timeout : String) :
    JobPhase × Cluster × List Call :=
  waitLoop x env jobName timeout (waitFuel x env timeout) env.pollStart w calls jobPhase

/-- The state of `createJobsInspect`: the outcome list `jobNames`, the cluster, and
the requests sent so far. -/
structure DispatchState where
  jobNames : List JobPhase
  cluster : Cluster
  calls : List Call
deriving DecidableEq, Repr

/-- The unit of work `createJobsInspect` starts for the job spec `v`, taken as a whole:
no step of another unit falls between its start and its append to `jobNames`. -/
def inspectJob (x : Externals) (inspectTask : InspectTask) (env : JobEnv)
    (st : DispatchState) (v : JobRule) : DispatchState :=
  if isTimeout x inspectTask.CreationTimestamp inspectTask.Timeout env.now then
    { st with jobNames := st.jobNames ++ [{ JobName := v.JobName, Phase := Phase.Failed }] }
  else
    match isExistsJob st.cluster env.getFails v.JobName with
    | some _ =>
      { st with
        jobNames := st.jobNames ++ [{ JobName := v.JobName, Phase := Phase.Succeeded }]
        calls := st.calls ++ [Call.GetConfigMap v.JobName] }
    | none =>
      if x.RuleOperatorMap.contains v.RuleType then
        match CreateJobTask st.cluster env.createFails v with
        | (.error _, w) =>
          { jobNames := st.jobNames ++ [{ JobName := v.JobName, Phase := Phase.Failed }]
            cluster := w
            calls := st.calls ++ [Call.GetConfigMap v.JobName, Call.CreateJobTask v.JobName] }
        | (.ok jobTask, w) =>
          let r := waitForJobCompletionGetResult x env w
            (st.calls ++ [Call.GetConfigMap v.JobName, Call.CreateJobTask v.JobName])
            v.JobName jobTask inspectTask.Timeout
          { jobNames := st.jobNames ++ [r.1], cluster := r.2.1, calls := r.2.2 }
      else
        { st with calls := st.calls ++ [Call.GetConfigMap v.JobName] }

/-- The body of the unit of work for the job spec `v` up to its append to `jobNames`,
on the cluster `w` with the request log `calls`: the outcome it is about to
append, if any, and whether that append is made holding the mutex.  The appends
of lines 303 (past the deadline) and 319 (creation failed) are made without the
mutex, those of lines 308 (artifact exists) and 324 (job waited for) with it. -/
def inspectUnit (x : Externals) (inspectTask : InspectTask) (env : JobEnv)
    (w : Cluster) (calls : List Call) (v : JobRule) :
    Option (JobPhase × Bool) × Cluster × List Call :=
  if isTimeout x inspectTask.CreationTimestamp inspectTask.Timeout env.now then
    (some ({ JobName := v.JobName, Phase := Phase.Failed }, false), w, calls)
  else
    match isExistsJob w env.getFails v.JobName with
    | some _ =>
      (some ({ JobName := v.JobName, Phase := Phase.Succeeded }, true), w,
        calls ++ [Call.GetConfigMap v.JobName])
    | none =>
      if x.RuleOperatorMap.contains v.RuleType then
        match CreateJobTask w env.createFails v with
        | (.error _, w1) =>
          (some ({ JobName := v.JobName, Phase := Phase.Failed }, false), w1,
            calls ++ [Call.GetConfigMap v.JobName, Call.CreateJobTask v.JobName])
        | (.ok jobTask, w1) =>
          let r := waitForJobCompletionGetResult x env w1
            (calls ++ [Call.GetConfigMap v.JobName, Call.CreateJobTask v.JobName])
            v.JobName jobTask inspectTask.Timeout
          (some (r.1, true), r.2.1, r.2.2)
      else
        (none, w, calls ++ [Call.GetConfigMap v.JobName])

/-- Where the unit of work (goroutine) of a job spec stands: not started; body done
and about to append `outcome`; in the middle of the statement
`jobNames = append(jobNames, outcome)`, having read the slice `read` (and, when
`locked`, holding the mutex); finished, its place in the semaphore given back. -/
inductive UnitState where
  | waiting
  | ready (outcome : JobPhase) (locked : Bool)
  | holding (outcome : JobPhase) (locked : Bool) (read : List JobPhase)
  | done
deriving DecidableEq, Repr

/-- The state of a run of `createJobsInspect`: the shared slice `jobNames`, the
cluster, the requests sent so far, the state of the unit of each job spec, and
whether the mutex is held. -/
structure RunState where
  jobNames : List JobPhase
  cluster : Cluster
  calls : List Call
  units : List UnitState
  mutex : Bool
deriving DecidableEq, Repr

/-- One step of the unit of the `i`-th job spec in a run of `createJobsInspect`;
`budget` is the capacity of the semaphore.  A unit starts only when fewer than
`budget` of the units before it and itself are unfinished, and then runs its body
(the requests of one body are logged together).  The statement
`jobNames = append(jobNames, outcome)` takes two steps, the read of the slice and
the store of the extended slice; with the mutex the read waits until the mutex is
free and the store releases it, without the mutex nothing keeps steps of other
units from falling between the two.  A step that is not possible leaves the state
as it is. -/
def stepUnit (x : Externals) (inspectTask : InspectTask) (envs : Nat → JobEnv)
    (budget : ℤ) (inspectRule : List JobRule) (s : RunState) (i : Nat) : RunState :=
  match s.units[i]? with
  | some UnitState.waiting =>
    match inspectRule[i]? with
    | some v =>
      if (i : ℤ) < (s.units.count UnitState.done : ℤ) + budget then
        match inspectUnit x inspectTask (envs i) s.cluster s.calls v with
        | (some (outcome, locked), w, calls) =>
          { s with cluster := w, calls := calls,
                   units := s.units.set i (UnitState.ready outcome locked) }
        | (none, w, calls) =>
          { s with cluster := w, calls := calls, units := s.units.set i UnitState.done }
      else s
    | none => s
  | some (UnitState.ready outcome false) =>
    { s with units := s.units.set i (UnitState.holding outcome false s.jobNames) }
  | some (UnitState.ready outcome true) =>
    if s.mutex then s
    else
      { s with mutex := true,
               units := s.units.set i (UnitState.holding outcome true s.jobNames) }
  | some (UnitState.holding outcome locked read) =>
    { s with jobNames := read ++ [outcome],
             mutex := if locked then false else s.mutex,
             units := s.units.set i UnitState.done }
  | _ => s

/-- The state in which `createJobsInspect` starts its units. -/
def startRun (w : Cluster) (inspectRule : List JobRule) : RunState :=
  { jobNames := [], cluster := w, calls := [],
    units := inspectRule.map (fun _ => UnitState.waiting), mutex := false }

/-- The units of `createJobsInspect` run under the schedule `schedule`, the list of
the indices of the units in the order in which they take their steps. -/
def runUnits (x : Externals) (inspectTask : InspectTask) (envs : Nat → JobEnv)
    (budget : ℤ) (schedule : List Nat) (w : Cluster) (inspectRule : List JobRule) :
    RunState :=
  schedule.foldl (stepUnit x inspectTask envs budget inspectRule) (startRun w inspectRule)

/-- The label selector of `clearRule`: the temporary rule group.  The label key
`constant.LabelInspectRuleGroup` is declared outside `src/`; the string below
stands for it. -/
def isRuleGroupTemp (cm : ConfigMap) : Bool :=
  cm.Labels.contains ("kubeeye.kubesphere.io/rule-group", "inspect-rule-temp")

/-- `createJobsInspect` of `pkg/controllers/inspecttask_controller.go` under the
schedule `schedule` of its goroutines; `nodes` is the result of `kube.GetNodes`,
`envs i` describes the surroundings of the `i`-th unit and `clearFails` tells
whether the request of `clearRule` fails.  The result is `none` when the
schedule ends before every unit is finished: `wg.Wait()` has not returned. -/
def createJobsInspect (x : Externals) (inspectTask : InspectTask) (envs : Nat → JobEnv)
    (clearFails : Bool) (schedule : List Nat) (w : Cluster) (nodes : List Node)
    (inspectRule : List JobRule) :
    Option (Except String (List JobPhase) × Cluster × List Call) :=
  let st := runUnits x inspectTask envs (concurrency nodes inspectRule) schedule w inspectRule
  if st.units.all (fun u => u == UnitState.done) then
    if clearFails then
      some (.error "clearRule failed", st.cluster, st.calls ++ [Call.DeleteRuleGroup])
    else
      some (.ok st.jobNames,
        { st.cluster with
          ConfigMaps := st.cluster.ConfigMaps.filter (fun cm => !isRuleGroupTemp cm) },
        st.calls ++ [Call.DeleteRuleGroup])
  else none

/-! ## The task controller of `controllers` -/

/-- Modelled from the spec: the package variable `Finalizers`, the "finalizer token", is
declared outside `src/`; the string below stands for it. -/
def Finalizers : String := "kubeeye.kubesphere.io/finalizer"

/-- Modelled from the spec: `utils.SliceRemove` is declared outside `src/`; it returns the
slice without the entries equal to the given value. -/
def utils.SliceRemove (s : String) (list : List String) : List String :=
  list.filter (fun v => v != s)

/-- The Go statement `delete(m, k)`. -/
def mapDelete {K V : Type} [DecidableEq K] (m : List (K × V)) (k : K) : List (K × V) :=
  m.filter (fun kv => decide (kv.1 ≠ k))

/-- Modelled from the spec: `inspect.Audit` is declared outside `src/`.  It holds the
"once-only task set" `TaskOnceMap`, keyed by namespace and name, and the "pending
result map" `TaskResults`, keyed by task name and then by auditor; `Queue` records
the calls of `AddTaskToQueue`, the "per-task work queue entry". -/
structure Audit where
  TaskOnceMap : List ((String × String) × Unit)
  TaskResults : List (String × List (String × AuditResult))
  Queue : List (String × String)
deriving DecidableEq, Repr

/-- Modelled from the spec: `Audit.AddTaskToQueue`, declared outside `src/`. -/
def Audit.AddTaskToQueue (a : Audit) (key : String × String) : Audit :=
  { a with Queue := a.Queue ++ [key] }

/-- The outcome of reading the task with `r.Get`. -/
inductive GetTask where
  | Found (task : InspectTask)
  | NotFound
  | Failed
deriving DecidableEq, Repr

/-- The outcome of a write through the client. -/
inductive WriteOutcome where
  | Ok
  | NotFound
  | Failed
deriving DecidableEq, Repr

/-- What the surroundings answer during one reconcile pass: the read of the task, the
clock, and the outcomes of `r.Client.Update` and `r.Status().Update`. -/
structure PassEnv where
  get : GetTask
  now : Int
  update : WriteOutcome
  statusUpdate : WriteOutcome
deriving DecidableEq, Repr

/-- A write of the task object through the client. -/
inductive Write where
  | Update (task : InspectTask)
  | StatusUpdate (task : InspectTask)
deriving DecidableEq, Repr

/-- The result of a reconcile pass: the requeue delay in seconds (0 is none), the
error, the in-memory caches, the task object as the pass left it (`none` when it
was not read) and the writes that were sent. -/
structure PassResult where
  RequeueAfter : Nat
  err : Option String
  audit : Audit
  task : Option InspectTask
  writes : List Write
deriving DecidableEq, Repr

namespace controllers

/-- The loop of `Reconcile` over the requested auditors: the collected results and the
number of those with phase `Succeeded`. -/
def collectResults (resultMap : List (String × AuditResult)) :
    List String → List AuditResult × Nat → List AuditResult × Nat
  | [], acc => acc
  | auditor :: rest, (results, completed) =>
    match resultMap.lookup auditor with
    | some result =>
      collectResults resultMap rest
        (results ++ [result],
          if result.Phase = Phase.Succeeded then completed + 1 else completed)
    | none => collectResults resultMap rest (results, completed)

/-- The end of `Reconcile`: `r.Status().Update` and the returned result. -/
def finish (env : PassEnv) (audit : Audit) (inspectTask : InspectTask)
    (writes : List Write) : PassResult :=
  match env.statusUpdate with
  | WriteOutcome.Failed =>
    { RequeueAfter := 60, err := some "failed to update inspect task", audit := audit,
      task := some inspectTask, writes := writes ++ [Write.StatusUpdate inspectTask] }
  | _ =>
    { RequeueAfter := 3, err := none, audit := audit, task := some inspectTask,
      writes := writes ++ [Write.StatusUpdate inspectTask] }

/-- `Reconcile` of `controllers/inspecttask_controller.go`; `req` is the namespace and
the name of the request.  `getClusterInfo` never returns an error, so the start of
a task cannot fail. -/
def Reconcile (x : Externals) (env : PassEnv) (audit : Audit) (req : String × String) :
    PassResult :=
  match env.get with
  | GetTask.NotFound =>
    { RequeueAfter := 0, err := none,
      audit := { audit with
        TaskOnceMap := mapDelete audit.TaskOnceMap req
        TaskResults := mapDelete audit.TaskResults "" },
      task := none, writes := [] }
  | GetTask.Failed =>
    { RequeueAfter := 0, err := some "failed to get inspect task", audit := audit,
      task := none, writes := [] }
  | GetTask.Found inspectTask =>
    if inspectTask.DeletionTimestamp.isNone
        && !utils.ArrayFind Finalizers inspectTask.Finalizers then
      let t := { inspectTask with Finalizers := inspectTask.Finalizers ++ [Finalizers] }
      { RequeueAfter := 0
        err := if env.update = WriteOutcome.Ok then none else some "update failed"
        audit := audit, task := some t, writes := [Write.Update t] }
    else if !inspectTask.DeletionTimestamp.isNone then
      let t := { inspectTask with
        Finalizers := utils.SliceRemove Finalizers inspectTask.Finalizers }
      if env.update = WriteOutcome.Ok then
        { RequeueAfter := 0, err := none,
          audit := { audit with
            TaskOnceMap := mapDelete audit.TaskOnceMap req
            TaskResults := mapDelete audit.TaskResults inspectTask.Name },
          task := some t, writes := [Write.Update t] }
      else
        { RequeueAfter := 0, err := some "update failed", audit := audit, task := some t,
          writes := [Write.Update t] }
    else
      match inspectTask.StartTimestamp with
      | none =>
        finish env (audit.AddTaskToQueue req)
          { inspectTask with StartTimestamp := some env.now, Phase := Phase.Running } []
      | some start =>
        if inspectTask.Phase = Phase.Succeeded ∨ inspectTask.Phase = Phase.Failed then
          { RequeueAfter := 0, err := none,
            audit := { audit with
              TaskResults := mapDelete audit.TaskResults inspectTask.Name },
            task := some inspectTask, writes := [] }
        else
          match audit.TaskResults.lookup inspectTask.Name with
          | none =>
            { RequeueAfter := 0, err := none, audit := audit.AddTaskToQueue req,
              task := some inspectTask, writes := [] }
          | some resultMap =>
            let collected := collectResults resultMap inspectTask.Auditors ([], 0)
            let t1 := { inspectTask with
              AuditResults := collected.1, CompleteItemCount := collected.2 }
            let timeout := match x.ParseDuration inspectTask.Timeout with
              | some d => d
              | none => x.DefaultTimeout
            if t1.CompleteItemCount = t1.Auditors.length then
              finish env audit
                { t1 with Phase := Phase.Succeeded, EndTimestamp := some env.now } []
            else if start + timeout < env.now then
              finish env audit { t1 with Phase := Phase.Failed } []
            else
              finish env audit t1 []

end controllers

/-! ## The result controller of `pkg/controllers` -/

/-- Modelled from the spec: `kubeeyev1alpha2.DangerLevel` is declared outside `src/`; the
severity levels are "Danger / Warning / Ignore" and only the fact that the three
constants are pairwise distinct is used. -/
def DangerLevel : String := "danger"

/-- Modelled from the spec: `kubeeyev1alpha2.WarningLevel` (see `DangerLevel`). -/
def WarningLevel : String := "warning"

/-- Modelled from the spec: `kubeeyev1alpha2.IgnoreLevel` (see `DangerLevel`). -/
def IgnoreLevel : String := "ignore"

/-- Modelled from the spec: the result item types of `apis/kubeeye/v1alpha2` are declared
outside `src/`.  A "leaf result", in the `map[string]interface{}` form
`totalResultLevel` works on, may carry "an assertion field" and "an explicit
level"; a field is `none` exactly when its key is absent from the map. -/
structure ResultEntry where
  name : String
  assert : Option Bool
  level : Option String
deriving DecidableEq, Repr

/-- Modelled from the spec: `kubeeyev1alpha2.KubeeyeOpaResult`, of which `CountLevelNum`
reads the "pre-computed dangerous/warning/ignore counters". -/
structure KubeeyeOpaResult where
  Dangerous : Int
  Warning : Int
  Ignore : Int
deriving DecidableEq, Repr

/-- Modelled from the spec: `kubeeyev1alpha2.InspectResultSpec`, the stored report: the
pre-computed counters and "the raw per-category result fragments". -/
structure InspectResultSpec where
  OpaResult : KubeeyeOpaResult
  FileChangeResult : List ResultEntry
  FileFilterResult : List ResultEntry
  SysctlResult : List ResultEntry
  SystemdResult : List ResultEntry
  NodeInfo : List ResultEntry
  PrometheusResult : List ResultEntry
  ComponentResult : List ResultEntry
  CommandResult : List ResultEntry
deriving DecidableEq, Repr

/-- Modelled from the spec: `utils.StructToMap` as `inspectresult_controller.go` uses it,
with a slice of maps and an error as results; it is declared outside `src/`.  A
fragment list converts to the list of its entries. -/
def utils.StructToMapSlice (data : List ResultEntry) : Except String (List ResultEntry) :=
  .ok data

/-- The closure `Autoincrement` of `totalResultLevel` followed by the assignment of
its result: the counter of `level` (created as 0 when the map has none) is
incremented. -/
def Autoincrement (mapLevel : List (String × Int)) (level : String) : List (String × Int) :=
  mapSet mapLevel level ((mapLevel.lookup level).getD 0 + 1)

/-- The body of the loop of `totalResultLevel` for one entry `m`. -/
def totalResultLevelStep (mapLevel : List (String × Int)) (m : ResultEntry) :
    List (String × Int) :=
  if m.assert.isNone then mapLevel
  else
    match m.level with
    | none => Autoincrement mapLevel DangerLevel
    | some l => Autoincrement mapLevel l

/-- `totalResultLevel` of `inspectresult_controller.go`; the map is passed by reference
in the source and returned here. -/
def totalResultLevel (data : List ResultEntry) (mapLevel : List (String × Int)) :
    List (String × Int) :=
  match utils.StructToMapSlice data with
  | .error _ => mapLevel
  | .ok maps => maps.foldl totalResultLevelStep mapLevel

/-- `CountLevelNum` of `inspectresult_controller.go`.  The argument is the outcome of
reading and decoding the stored report. -/
def CountLevelNum (stored : Except String InspectResultSpec) :
    Except String (List (String × Int)) :=
  match stored with
  | .error err => .error err
  | .ok result =>
    let levelTotal : List (String × Int) := []
    let levelTotal := mapSet levelTotal DangerLevel result.OpaResult.Dangerous
    let levelTotal := mapSet levelTotal WarningLevel result.OpaResult.Warning
    let levelTotal := mapSet levelTotal IgnoreLevel result.OpaResult.Ignore
    let levelTotal := totalResultLevel result.FileChangeResult levelTotal
    let levelTotal := totalResultLevel result.FileFilterResult levelTotal
    let levelTotal := totalResultLevel result.SysctlResult levelTotal
    let levelTotal := totalResultLevel result.SystemdResult levelTotal
    let levelTotal := totalResultLevel result.NodeInfo levelTotal
    let levelTotal := totalResultLevel result.PrometheusResult levelTotal
    let levelTotal := totalResultLevel result.ComponentResult levelTotal
    let levelTotal := totalResultLevel result.CommandResult levelTotal
    .ok levelTotal

/-! ## `Reconcile` of `pkg/controllers` -/

/-- The cluster client a pipeline runs against: the coordinator's own client
`r.K8sClients`, or the client `kube.GetMultiClusterClient` returns for a named
cluster. -/
inductive ClusterClient where
  | Own
  | Remote (name : String)
deriving DecidableEq, Repr

/-- What the surroundings answer during one pass of `Reconcile` of `pkg/controllers`:
the read of the task, the clock, the outcomes of the writes, whether reading the
configuration, the first plan-status update or the rule list fails, per cluster
name whether obtaining the client or the bootstrap `initClusterInspect` fails, and
what a run of `CreateInspect` does: the task as it leaves it and whether it
returns an error. -/
structure StartEnv where
  get : GetTask
  now : Int
  update : WriteOutcome
  kubeEyeConfigFails : Bool
  planStatusFails : Bool
  getRulesFails : Bool
  multiClusterClientFails : String → Bool
  initClusterInspectFails : String → Bool
  createInspect : String → ClusterClient → InspectTask → InspectTask × Bool
  statusUpdate : WriteOutcome

/-- The result of one pass of `Reconcile` of `pkg/controllers`: the error, the task
object as the pass left it, the runs of `CreateInspect` (cluster name and client)
in the order in which they were started, the phases sent to the plan, and the
writes of the task. -/
structure StartResult where
  err : Option String
  task : Option InspectTask
  created : List (String × ClusterClient)
  planPhases : List Phase
  writes : List Write
deriving DecidableEq, Repr

/-- The units of work `Reconcile` starts for the named clusters, taken one after the
other: the state is the task and the runs of `CreateInspect` so far. -/
def inspectClusters (env : StartEnv) :
    List String → InspectTask × List (String × ClusterClient) →
      InspectTask × List (String × ClusterClient)
  | [], st => st
  | v :: rest, (task, created) =>
    if env.multiClusterClientFails v then inspectClusters env rest (task, created)
    else if env.initClusterInspectFails v then inspectClusters env rest (task, created)
    else
      inspectClusters env rest
        ((env.createInspect v (ClusterClient.Remote v) task).1,
          created ++ [(v, ClusterClient.Remote v)])

/-- The last steps of the pass that starts a task: the status update, `GetStatus` and
the second plan-status update. -/
def finishStart (env : StartEnv) (task : InspectTask)
    (created : List (String × ClusterClient)) : StartResult :=
  if env.statusUpdate = WriteOutcome.Ok then
    { err := none, task := some task, created := created,
      planPhases := [Phase.Running, GetStatus task],
      writes := [Write.StatusUpdate task] }
  else
    { err := some "failed to update inspect task", task := some task, created := created,
      planPhases := [Phase.Running], writes := [Write.StatusUpdate task] }

/-- `Reconcile` of `pkg/controllers/inspecttask_controller.go`.  `getClusterInfo` never
returns an error. -/
def Reconcile (env : StartEnv) : StartResult :=
  match env.get with
  | GetTask.NotFound =>
    { err := none, task := none, created := [], planPhases := [], writes := [] }
  | GetTask.Failed =>
    { err := some "failed to get inspect task", task := none, created := [],
      planPhases := [], writes := [] }
  | GetTask.Found inspectTask =>
    if inspectTask.DeletionTimestamp.isNone
        && !utils.ArrayFind Finalizers inspectTask.Finalizers then
      let t := { inspectTask with Finalizers := inspectTask.Finalizers ++ [Finalizers] }
      { err := if env.update = WriteOutcome.Ok then none else some "update failed"
        task := some t, created := [], planPhases := [], writes := [Write.Update t] }
    else if !inspectTask.DeletionTimestamp.isNone then
      let t := { inspectTask with
        Finalizers := utils.SliceRemove Finalizers inspectTask.Finalizers }
      { err := if env.update = WriteOutcome.Ok then none else some "update failed"
        task := some t, created := [], planPhases := [], writes := [Write.Update t] }
    else if inspectTask.StartTimestamp.isNone then
      let t := { inspectTask with StartTimestamp := some env.now }
      if env.kubeEyeConfigFails then
        { err := some "Unable to get jobConfig", task := some t, created := [],
          planPhases := [], writes := [] }
      else if env.planStatusFails then
        { err := some "Failed to update inspect plan status", task := some t, created := [],
          planPhases := [], writes := [] }
      else if env.getRulesFails then
        { err := some "failed get to inspectrules", task := some t, created := [],
          planPhases := [Phase.Running], writes := [] }
      else
        match t.ClusterName with
        | some names =>
          let r := inspectClusters env names (t, [])
          finishStart env r.1 r.2
        | none =>
          let r := env.createInspect "default" ClusterClient.Own t
          if r.2 then
            { err := some "failed to create inspect", task := some r.1,
              created := [("default", ClusterClient.Own)], planPhases := [Phase.Running],
              writes := [] }
          else finishStart env r.1 [("default", ClusterClient.Own)]
    else
      { err := none, task := some inspectTask, created := [], planPhases := [],
        writes := [] }

/-! ## Ordering of the job specs -/

/-- `sortRuleOpaToAtLast` of `rules.go`.  The two `append` calls of the source work in
the backing array of `rule`; their result is the list without the entry at index
`finds`, followed by that entry. -/
def sortRuleOpaToAtLast (rule : List JobRule) : List JobRule :=
  match utils.ArrayFinds rule (fun i => i.RuleType == constant.Opa) with
  | some (finds, OpaRule) => (rule.take finds ++ rule.drop (finds + 1)) ++ [OpaRule]
  | none => rule

/-- `sortRuleOpaToAlter` of `pkg/controllers/inspecttask_controller.go`, a copy of
`sortRuleOpaToAtLast`. -/
def sortRuleOpaToAlter (rule : List JobRule) : List JobRule :=
  match utils.ArrayFinds rule (fun i => i.RuleType == constant.Opa) with
  | some (finds, OpaRule) => (rule.take finds ++ rule.drop (finds + 1)) ++ [OpaRule]
  | none => rule

/-! ## Persisting the report -/

/-- Modelled from the spec: `constant.ResultPath`, the "configured storage location" of the
reports, is declared outside `src/`; the string below stands for it. -/
def constant.ResultPath : String := "/kubeeye/inspect-result"

/-- Modelled from the spec: `constant.LabelTaskName` is declared outside `src/`; the string
below stands for the label key. -/
def constant.LabelTaskName : String := "kubeeye.kubesphere.io/task-name"

/-- Modelled from the spec: `constant.LabelRuleType` is declared outside `src/`; the string
below stands for the label key. -/
def constant.LabelRuleType : String := "kubeeye.kubesphere.io/rule-type"

/-- Modelled from the spec: `constant.LabelNodeName` is declared outside `src/`; the string
below stands for the label key. -/
def constant.LabelNodeName : String := "kubeeye.kubesphere.io/node-name"

/-- Modelled from the spec: `kubeeyev1alpha2.InspectResult`, the report: its generated name
and its content. -/
structure InspectResult where
  Name : String
  Spec : InspectResultSpec
deriving DecidableEq, Repr

/-- What the surroundings answer while a report is saved: whether opening the file
fails, what `json.Marshal` returns for a report, and whether writing fails. -/
structure SaveEnv where
  openFails : Bool
  marshal : InspectResult → Except String String
  writeFails : Bool

/-- The Go expression `path.Join(constant.ResultPath, name)`. -/
def resultFilePath (name : String) : String :=
  constant.ResultPath ++ "/" ++ name

/-- `saveResultFile` of `pkg/controllers/inspecttask_controller.go`.  The files are a map
from paths to contents.  `os.OpenFile` with `O_CREATE|O_WRONLY` creates an empty
file when there is none and keeps the content of an existing one; `file.Write`
writes the bytes at the start of the file.  After a failed `json.Marshal` the
variable `marshal` is nil and the error is only logged. -/
def saveResultFile (env : SaveEnv) (files : List (String × String))
    (resultData : InspectResult) : Option String × List (String × String) :=
  if env.openFails then (some "open file error", files)
  else
    let file := resultFilePath resultData.Name
    let opened := match files.lookup file with
      | some _ => files
      | none => mapSet files file ""
    let marshal := match env.marshal resultData with
      | .ok bytes => bytes
      | .error _ => ""
    if env.writeFails then (some "write file error", opened)
    else
      (none, mapSet opened file
        (marshal ++ ((opened.lookup file).getD "").drop marshal.length))

/-- What the surroundings answer during `GetInspectResultData`: whether listing the
artifacts fails, what the result extractor of a category adds to the report
(`GetResult` of the operators in `inspect.RuleOperatorMap`, declared outside
`src/`), the answers for `saveResultFile`, and whether creating the result record
or deleting the artifacts fails. -/
structure ReportEnv where
  listFails : Bool
  getResult : String → ConfigMap → InspectResult → InspectResult
  save : SaveEnv
  createFails : Bool
  deleteFails : Bool

/-- The state `GetInspectResultData` acts on: the cluster, the files of the result
storage and the result records that exist. -/
structure ReportState where
  cluster : Cluster
  files : List (String × String)
  results : List InspectResult
deriving DecidableEq, Repr

/-- The Go expression `configMap.GetLabels()[key]`. -/
def ConfigMap.label (cm : ConfigMap) (key : String) : String :=
  (cm.Labels.lookup key).getD ""

/-- The body of the loop of `GetInspectResultData` for one job outcome `phase`. -/
def collectResultStep (x : Externals) (env : ReportEnv) (configs : List ConfigMap)
    (resultData : InspectResult) (phase : JobPhase) : InspectResult :=
  if phase.Phase = Phase.Succeeded then
    match utils.ArrayFinds configs (fun m => m.Name == phase.JobName) with
    | some (_, configMap) =>
      if x.RuleOperatorMap.contains (configMap.label constant.LabelRuleType) then
        env.getResult (configMap.label constant.LabelNodeName) configMap resultData
      else resultData
    | none => resultData
  else resultData

/-- `GetInspectResultData` of `pkg/controllers/inspecttask_controller.go`; the report
carries no rule totals or annotations here, only its name and content. -/
def GetInspectResultData (x : Externals) (env : ReportEnv) (st : ReportState)
    (task : InspectTask) (clusterName : String) (empty : InspectResultSpec) :
    Option String × ReportState :=
  if env.listFails then (some "list failed", st)
  else
    let configs := st.cluster.ConfigMaps.filter
      (fun cm => cm.Labels.contains (constant.LabelTaskName, task.Name))
    let inspectResult : InspectResult :=
      { Name := clusterName ++ "-" ++ task.Name ++ "-result", Spec := empty }
    let resultData := (task.JobPhase.getD []).foldl (collectResultStep x env configs)
      inspectResult
    match saveResultFile env.save st.files resultData with
    | (some err, files) => (some err, { st with files := files })
    | (none, files) =>
      if env.createFails then (some "create failed", { st with files := files })
      else
        let st1 : ReportState :=
          { st with files := files, results := st.results ++ [inspectResult] }
        if env.deleteFails then (some "delete failed", st1)
        else
          (none,
            { st1 with cluster := { st1.cluster with
                ConfigMaps := st1.cluster.ConfigMaps.filter
                  (fun cm => !cm.Labels.contains (constant.LabelTaskName, task.Name)) } })

/-! ## Auxiliary definitions for the proofs -/

/-- First occurrences by name, written as a recursion over the input: `seen` holds
the names already taken.  Used to reason about `dedupLoop`. -/
def keepFirst : List (Option String) → List Item → List Item
  | _, [] => []
  | seen, m :: rest =>
    if m.key ∈ seen then keepFirst seen rest
    else m :: keepFirst (seen ++ [m.key]) rest

/-- All items stored under key `k` in an association list, every entry with that key
taken in order.  On a well-formed map this is `mapGet`. -/
def entriesOf (k : String) (lists : List (String × List Item)) : List Item :=
  (lists.filter (fun kv => decide (kv.1 = k))).flatMap Prod.snd

/-- The item `p` lies in some bucket of the merge map `mm`. -/
def inSomeBucket (mm : List (String × List Item)) (p : Item) : Prop :=
  ∃ kv ∈ mm, p ∈ kv.2

/-- What `mergeNodeRuleStep` adds for the item `i`: the item itself under its
non-empty node name, or else, for a selector item, a copy for every node the
selector filter accepts. -/
def placedBy (allNode : List Node) (i p : Item) : Prop :=
  ((i.nodeName.isSome && !utils.IsEmptyValue i.nodeName) = true ∧ p = i) ∨
  ((i.nodeName.isSome && !utils.IsEmptyValue i.nodeName) = false ∧
    ∃ sel, i.nodeSelector = some sel ∧
      ∃ n ∈ allNode, selectorFilter sel n = true ∧ p = { i with nodeName := some n.Name })

/-- The jobs of the list are named, one after the other, with the suffixes
`rnd c`, `rnd (c + 1)`, … and the given task name, each with its own category. -/
def NamedFrom (rnd : Nat → String) (taskName : String) : Nat → List JobRule → Prop
  | _, [] => True
  | c, j :: rest =>
    j.JobName = jobName taskName j.RuleType (rnd c) ∧ NamedFrom rnd taskName (c + 1) rest

/-- All leaf results of a stored report, in the order in which `CountLevelNum` scans
the fragment lists. -/
def InspectResultSpec.leaves (result : InspectResultSpec) : List ResultEntry :=
  result.FileChangeResult ++ result.FileFilterResult ++ result.SysctlResult
    ++ result.SystemdResult ++ result.NodeInfo ++ result.PrometheusResult
    ++ result.ComponentResult ++ result.CommandResult

/-- The number of leaf results of the list that carry an assertion field and count
towards the level `L`: those whose level is `L`, and for `L` the danger level also
those without a level field. -/
def countLevel (L : String) (leaves : List ResultEntry) : Nat :=
  leaves.countP (fun m => m.assert.isSome && decide (m.level.getD DangerLevel = L))

/-- The seeded counter of the level `L`. -/
def seedLevel (result : InspectResultSpec) (L : String) : Int :=
  if L = DangerLevel then result.OpaResult.Dangerous
  else if L = WarningLevel then result.OpaResult.Warning
  else if L = IgnoreLevel then result.OpaResult.Ignore
  else 0

/-- The units of work taken as wholes, one after the other in the order of the job
specs; `envs i` describes the surroundings of the `i`-th unit.  This is what a
run of `createJobsInspect` amounts to when no two units overlap. -/
def serialJobs (x : Externals) (inspectTask : InspectTask) (envs : Nat → JobEnv) :
    Nat → DispatchState → List JobRule → DispatchState
  | _, st, [] => st
  | i, st, v :: rest =>
    serialJobs x inspectTask envs (i + 1) (inspectJob x inspectTask (envs i) st v) rest

/-- The schedule in which the units `i`, ..., `i + n - 1` run one after the other, each
taking its three steps in a row. -/
def serialFrom : Nat → Nat → List Nat
  | _, 0 => []
  | i, n + 1 => i :: i :: i :: serialFrom (i + 1) n

/-- The schedule in which `n` units run one after the other. -/
def serialSchedule (n : Nat) : List Nat :=
  serialFrom 0 n

/-! ## Sample data -/

/-- A rule item with the given name, node name and selector and no further payload. -/
def sampleItem (n : String) (nn : Option String) (ns : Option (List (String × String))) :
    Item :=
  { name := some n, nodeName := nn, nodeSelector := ns, endpoint := "", payload := [] }

/-- A task requesting two rules, the second with a node-name override. -/
def sampleTask : InspectTask :=
  { Name := "task"
    RuleNames := [⟨"r1", none, none⟩, ⟨"missing", none, none⟩, ⟨"r2", some "n1", none⟩] }

/-- Three available rules; `r1` and `r2` share the sysctl item named `b`. -/
def sampleRules : List InspectRule :=
  [ ⟨"r2", ⟨"", [("sysctl", [sampleItem "b" none none, sampleItem "c" (some "n2") none])]⟩⟩,
    ⟨"r0", ⟨"", [("opas", [sampleItem "p" none none])]⟩⟩,
    ⟨"r1", ⟨"", [("sysctl", [sampleItem "a" none none, sampleItem "b" (some "n2") none]),
                  ("opas", [sampleItem "p" none none])]⟩⟩ ]

/-- Two nodes, each carrying one of the two labels `a=1` and `b=2`. -/
def sampleNodes : List Node :=
  [⟨"n1", [("a", "1")]⟩, ⟨"n2", [("b", "2")]⟩]

/-- A merged rule map with a policy list, a sysctl list and an exclusion list. -/
def sampleSpec : List (String × List Item) :=
  [ ("sysctl", [sampleItem "a" none none, sampleItem "b" (some "n2") none]),
    ("opas", [sampleItem "p" none none]),
    ("componentExclude", [sampleItem "kube-proxy" none none]) ]

/-- Six pairwise distinct suffixes of five characters, then a fixed one. -/
def sampleRnd (n : Nat) : String :=
  ["aaaaa", "aaaab", "aaaac", "aaaad", "aaaae", "aaaaf"].getD n "zzzzz"

/-- Five nodes without labels. -/
def sampleFiveNodes : List Node :=
  [⟨"n1", []⟩, ⟨"n2", []⟩, ⟨"n3", []⟩, ⟨"n4", []⟩, ⟨"n5", []⟩]

/-- The job specs of a run with two categories: one sysctl job per node of
`sampleFiveNodes` and the component job. -/
def sampleSixJobs : List JobRule :=
  [ ⟨"task-sysctl-aaaaa", constant.Sysctl, []⟩, ⟨"task-sysctl-aaaab", constant.Sysctl, []⟩,
    ⟨"task-sysctl-aaaac", constant.Sysctl, []⟩, ⟨"task-sysctl-aaaad", constant.Sysctl, []⟩,
    ⟨"task-sysctl-aaaae", constant.Sysctl, []⟩,
    ⟨"task-component-aaaaf", constant.Component, []⟩ ]

/-- Externals with the duration `10m` of 600 seconds, a default of one hour and
operators for the policy, sysctl and component categories. -/
def sampleExternals : Externals :=
  { ParseDuration := fun t => if t = "10m" then some 600 else none
    DefaultTimeout := 3600
    RuleOperatorMap := [constant.Opa, constant.Sysctl, constant.Component] }

/-- A task created at time 1000 with the timeout `10m`. -/
def sampleDispatchTask : InspectTask :=
  { Name := "task", RuleNames := [], CreationTimestamp := 1000, Timeout := "10m" }

/-- Surroundings of a unit of work that starts at time `now`: no request fails, the
backing job is created at that time and is complete from time `done` on. -/
def sampleJobEnv (now done : Int) : JobEnv :=
  { now := now, getFails := false, createFails := false, jobCreation := now,
    pollStart := now, jobGetFails := fun _ => false,
    completed := fun t => decide (done ≤ t), latency := fun _ => 0 }

/-- A cluster that holds the result artifact of the job `task-sysctl-aaaaa`. -/
def sampleCluster : Cluster :=
  { ConfigMaps := [⟨"task-sysctl-aaaaa", [("kubeeye.kubesphere.io/task-name", "task")]⟩]
    Jobs := [] }

/-- A state of the dispatcher on `sampleCluster` with nothing recorded yet. -/
def sampleDispatchState : DispatchState :=
  { jobNames := [], cluster := sampleCluster, calls := [] }

/-- A started task with the auditors `kubeeye` and `kubebench` and the finalizer set. -/
def sampleAuditTask : InspectTask :=
  { Name := "audit", RuleNames := [], Finalizers := [Finalizers], Timeout := "10m",
    Auditors := ["kubeeye", "kubebench"], StartTimestamp := some 1000,
    Phase := Phase.Running }

/-- Caches in which one of the two auditors of `sampleAuditTask` has succeeded. -/
def sampleAudit : Audit :=
  { TaskOnceMap := [(("default", "audit"), ())]
    TaskResults := [("audit", [("kubeeye", ⟨"kubeeye", Phase.Succeeded⟩)])]
    Queue := [] }

/-- A stored report with a seeded danger count of 1, three sysctl leaf results of level
warning, two file-change leaf results without a level, and one leaf result without
an assertion field. -/
def sampleReport : InspectResultSpec :=
  { OpaResult := ⟨1, 0, 0⟩
    FileChangeResult := [⟨"f1", some true, none⟩, ⟨"f2", some true, none⟩]
    FileFilterResult := []
    SysctlResult := [⟨"s1", some true, some WarningLevel⟩, ⟨"s2", some true, some WarningLevel⟩,
      ⟨"s3", some true, some WarningLevel⟩]
    SystemdResult := [⟨"d1", none, some WarningLevel⟩]
    NodeInfo := []
    PrometheusResult := []
    ComponentResult := []
    CommandResult := [] }

/-- Surroundings of a pass in which every request succeeds and `CreateInspect` records
one succeeded job per run. -/
def sampleStartEnv (task : InspectTask) : StartEnv :=
  { get := GetTask.Found task, now := 1000, update := WriteOutcome.Ok,
    kubeEyeConfigFails := false, planStatusFails := false, getRulesFails := false,
    multiClusterClientFails := fun _ => false, initClusterInspectFails := fun _ => false,
    createInspect := fun name _ t =>
      ({ t with JobPhase := some ((t.JobPhase.getD []) ++ [⟨name, Phase.Succeeded⟩]) }, false),
    statusUpdate := WriteOutcome.Ok }

/-- A task that has not started, carries the finalizer and has the given cluster
list. -/
def sampleClusterTask (clusterName : Option (List String)) : InspectTask :=
  { Name := "task", RuleNames := [], Finalizers := [Finalizers], Timeout := "10m",
    ClusterName := clusterName }

/-- A stored-report content without results. -/
def emptyReport : InspectResultSpec :=
  { OpaResult := ⟨0, 0, 0⟩, FileChangeResult := [], FileFilterResult := [],
    SysctlResult := [], SystemdResult := [], NodeInfo := [], PrometheusResult := [],
    ComponentResult := [], CommandResult := [] }

/-- Surroundings of `GetInspectResultData` in which only the serialization of the
report fails. -/
def sampleReportEnv : ReportEnv :=
  { listFails := false, getResult := fun _ _ r => r,
    save := { openFails := false, marshal := fun _ => .error "unsupported value",
              writeFails := false },
    createFails := false, deleteFails := false }

/-- A state without files and result records on the sample cluster. -/
def sampleReportState : ReportState :=
  { cluster := sampleCluster, files := [], results := [] }

/-- Surroundings of a unit of work in which the artifact lookup fails with an error
other than NotFound. -/
def sampleFailingLookupEnv : JobEnv :=
  { sampleJobEnv 1200 1300 with getFails := true }

/-- Two sysctl job specs of the sample task whose artifacts do not exist. -/
def sampleTwoJobs : List JobRule :=
  [⟨"task-sysctl-aaaab", constant.Sysctl, []⟩, ⟨"task-sysctl-aaaac", constant.Sysctl, []⟩]

/-- A sysctl job spec whose artifact exists in `sampleCluster`, followed by one whose
artifact does not exist. -/
def sampleResumedJobs : List JobRule :=
  [⟨"task-sysctl-aaaaa", constant.Sysctl, []⟩, ⟨"task-sysctl-aaaab", constant.Sysctl, []⟩]

/-- Surroundings of a unit of work that starts at time 1200 and whose job creation
fails. -/
def sampleFailingCreateEnv : JobEnv :=
  { sampleJobEnv 1200 1300 with createFails := true }

/-- A started task in phase `Running` with the single auditor `kubeeye` and a deletion
marker. -/
def sampleDeletedAuditTask : InspectTask :=
  { sampleAuditTask with Auditors := ["kubeeye"], DeletionTimestamp := some 1100 }

/-- A started task in phase `Running` with the single auditor `kubeeye` and without the
finalizer. -/
def sampleFreshAuditTask : InspectTask :=
  { sampleAuditTask with Auditors := ["kubeeye"], Finalizers := [] }

/-! ## Properties -/

theorem utils.ArrayFindsFrom_eq_none {α : Type} (f : α → Bool) (s : List α) (i : Nat) :
    utils.ArrayFindsFrom f i s = none ↔ ∀ v ∈ s, f v = false := by
  induction s generalizing i with
  | nil => simp [utils.ArrayFindsFrom]
  | cons v vs ih =>
    by_cases h : f v = true
    · simp [utils.ArrayFindsFrom, h]
    · simp [utils.ArrayFindsFrom, h, ih]

theorem utils.ArrayFinds_eq_none {α : Type} (f : α → Bool) (s : List α) :
    utils.ArrayFinds s f = none ↔ ∀ v ∈ s, f v = false :=
  utils.ArrayFindsFrom_eq_none f s 0

theorem dedupLoop_cons_of_mem (newMaps rest : List Item) (m : Item)
    (h : m.key ∈ newMaps.map Item.key) :
    dedupLoop newMaps (m :: rest) = dedupLoop newMaps rest := by
  have hne : utils.ArrayFinds newMaps (fun m1 => decide (m.key = m1.key)) ≠ none := by
    rw [Ne, utils.ArrayFinds_eq_none]
    obtain ⟨m1, hm1, hk⟩ := List.mem_map.1 h
    intro hall
    have := hall m1 hm1
    simp [hk] at this
  cases hf : utils.ArrayFinds newMaps (fun m1 => decide (m.key = m1.key)) with
  | none => exact absurd hf hne
  | some p => simp [dedupLoop, hf]

theorem dedupLoop_cons_of_not_mem (newMaps rest : List Item) (m : Item)
    (h : m.key ∉ newMaps.map Item.key) :
    dedupLoop newMaps (m :: rest) = dedupLoop (newMaps ++ [m]) rest := by
  have hf : utils.ArrayFinds newMaps (fun m1 => decide (m.key = m1.key)) = none := by
    rw [utils.ArrayFinds_eq_none]
    intro m1 hm1
    simp only [decide_eq_false_iff_not]
    intro hk
    exact h (List.mem_map.2 ⟨m1, hm1, hk.symm⟩)
  simp [dedupLoop, hf]

theorem dedupLoop_eq_keepFirst (newMaps rest : List Item) :
    dedupLoop newMaps rest = newMaps ++ keepFirst (newMaps.map Item.key) rest := by
  induction rest generalizing newMaps with
  | nil => simp [dedupLoop, keepFirst]
  | cons m rest ih =>
    by_cases h : m.key ∈ newMaps.map Item.key
    · rw [dedupLoop_cons_of_mem _ _ _ h, ih]
      simp [keepFirst, h]
    · rw [dedupLoop_cons_of_not_mem _ _ _ h, ih]
      simp only [keepFirst, h, if_false, List.map_append, List.map_cons, List.map_nil,
        List.append_assoc, List.singleton_append]

theorem keepFirst_key_mem (seen : List (Option String)) (xs : List Item) (n : Option String) :
    n ∈ (keepFirst seen xs).map Item.key ↔ n ∈ xs.map Item.key ∧ n ∉ seen := by
  induction xs generalizing seen with
  | nil => simp [keepFirst]
  | cons m rest ih =>
    by_cases h : m.key ∈ seen
    · simp only [keepFirst, h, if_true, ih, List.map_cons, List.mem_cons]
      constructor
      · rintro ⟨h1, h2⟩; exact ⟨Or.inr h1, h2⟩
      · rintro ⟨h1 | h1, h2⟩
        · subst h1; exact absurd h h2
        · exact ⟨h1, h2⟩
    · simp only [keepFirst, h, if_false, List.map_cons, List.mem_cons, ih, List.mem_append,
        List.mem_singleton, not_or, List.not_mem_nil, or_false]
      constructor
      · rintro (h1 | ⟨h1, h2, _⟩)
        · subst h1; exact ⟨Or.inl rfl, h⟩
        · exact ⟨Or.inr h1, h2⟩
      · rintro ⟨h1 | h1, h2⟩
        · exact Or.inl h1
        · by_cases hn : n = m.key
          · exact Or.inl hn
          · exact Or.inr ⟨h1, h2, hn⟩

theorem keepFirst_key_nodup (seen : List (Option String)) (xs : List Item) :
    ((keepFirst seen xs).map Item.key).Nodup := by
  induction xs generalizing seen with
  | nil => simp [keepFirst]
  | cons m rest ih =>
    by_cases h : m.key ∈ seen
    · simp only [keepFirst, h, if_true]; exact ih seen
    · simp only [keepFirst, h, if_false, List.map_cons, List.nodup_cons]
      refine ⟨?_, ih _⟩
      rw [keepFirst_key_mem]
      simp

theorem keepFirst_key_not_seen (seen : List (Option String)) (xs : List Item) (e : Item)
    (he : e ∈ keepFirst seen xs) : e.key ∉ seen :=
  ((keepFirst_key_mem seen xs e.key).1 (List.mem_map.2 ⟨e, he, rfl⟩)).2

theorem keepFirst_find (seen : List (Option String)) (xs : List Item) (e : Item)
    (he : e ∈ keepFirst seen xs) :
    xs.find? (fun m => decide (m.key = e.key)) = some e := by
  induction xs generalizing seen with
  | nil => simp [keepFirst] at he
  | cons m rest ih =>
    by_cases h : m.key ∈ seen
    · simp only [keepFirst, h, if_true] at he
      have hne : m.key ≠ e.key := fun hk => keepFirst_key_not_seen _ _ _ he (hk ▸ h)
      simp [List.find?_cons, hne, ih seen he]
    · simp only [keepFirst, h, if_false, List.mem_cons] at he
      rcases he with he | he
      · subst he; simp [List.find?_cons]
      · have hns := keepFirst_key_not_seen _ _ _ he
        have hne : m.key ≠ e.key := fun hk => hns (by simp [hk])
        simp [List.find?_cons, hne, ih _ he]

theorem keepFirst_order (seen : List (Option String)) (xs : List Item) :
    (keepFirst seen xs).Pairwise (fun a b =>
      xs.findIdx (fun m => decide (m.key = a.key))
        < xs.findIdx (fun m => decide (m.key = b.key))) := by
  induction xs generalizing seen with
  | nil => simp [keepFirst]
  | cons m rest ih =>
    by_cases h : m.key ∈ seen
    · simp only [keepFirst, h, if_true]
      refine (ih seen).imp_of_mem ?_
      intro a b ha hb hlt
      have hna : m.key ≠ a.key := fun hk => keepFirst_key_not_seen _ _ _ ha (hk ▸ h)
      have hnb : m.key ≠ b.key := fun hk => keepFirst_key_not_seen _ _ _ hb (hk ▸ h)
      simp [List.findIdx_cons, hna, hnb, hlt]
    · simp only [keepFirst, h, if_false, List.pairwise_cons]
      constructor
      · intro b hb
        have hnb : m.key ≠ b.key := fun hk => keepFirst_key_not_seen _ _ _ hb (by simp [hk])
        simp [List.findIdx_cons, hnb]
      · refine (ih _).imp_of_mem ?_
        intro a b ha hb hlt
        have hna : m.key ≠ a.key := fun hk => keepFirst_key_not_seen _ _ _ ha (by simp [hk])
        have hnb : m.key ≠ b.key := fun hk => keepFirst_key_not_seen _ _ _ hb (by simp [hk])
        simp [List.findIdx_cons, hna, hnb, hlt]

theorem RuleArrayDeduplication_eq (obj : List Item) :
    RuleArrayDeduplication obj = some (keepFirst [] obj) := by
  simp [RuleArrayDeduplication, utils.ArrayStructToArrayMap, utils.MapToStruct,
    dedupLoop_eq_keepFirst]

/-- C1: for every list of rule items, `RuleArrayDeduplication` returns a list that has
exactly one entry for each item name of the input (the names of the result are
pairwise distinct and are the names of the input), every entry is the first input
item carrying its name, and the entries stand in the order of the first occurrence
of their names in the input. -/
theorem RuleArrayDeduplication_first_occurrence (obj : List Item) :
    ∃ out, RuleArrayDeduplication obj = some out ∧
      (out.map Item.key).Nodup ∧
      (∀ n, n ∈ out.map Item.key ↔ n ∈ obj.map Item.key) ∧
      (∀ e ∈ out, obj.find? (fun m => decide (m.key = e.key)) = some e) ∧
      out.Pairwise (fun a b =>
        obj.findIdx (fun m => decide (m.key = a.key))
          < obj.findIdx (fun m => decide (m.key = b.key))) := by
  refine ⟨keepFirst [] obj, RuleArrayDeduplication_eq obj, keepFirst_key_nodup [] obj, ?_,
    fun e he => keepFirst_find [] obj e he, keepFirst_order [] obj⟩
  intro n
  rw [keepFirst_key_mem]
  simp

/-! ### Association lists -/

theorem mapGet_mapSet {V : Type} (m : List (String × List V)) (k k1 : String) (v : List V) :
    mapGet (mapSet m k v) k1 = if k = k1 then v else mapGet m k1 := by
  induction m with
  | nil =>
    by_cases h : k = k1
    · subst h; simp [mapSet, mapGet, List.lookup]
    · have h1 : (k1 == k) = false := by simpa using fun h2 => h h2.symm
      simp [mapSet, mapGet, List.lookup, h, h1]
  | cons p rest ih =>
    obtain ⟨k2, v2⟩ := p
    unfold mapGet at ih ⊢
    by_cases h2 : k2 = k
    · subst h2
      by_cases h : k2 = k1
      · subst h; simp [mapSet, List.lookup]
      · have h1 : (k1 == k2) = false := by simpa using fun h3 => h h3.symm
        simp [mapSet, List.lookup, h, h1]
    · by_cases h3 : k1 = k2
      · subst h3
        have h4 : ¬ k = k1 := fun h5 => h2 h5.symm
        simp [mapSet, List.lookup, h2, h4]
      · have h1 : (k1 == k2) = false := by simpa using h3
        simp only [mapSet, h2, if_false, List.lookup, h1]
        exact ih

theorem entriesOf_eq_mapGet (k : String) (lists : List (String × List Item))
    (hnd : (lists.map Prod.fst).Nodup) : entriesOf k lists = mapGet lists k := by
  induction lists with
  | nil => simp [entriesOf, mapGet]
  | cons p rest ih =>
    obtain ⟨k2, v2⟩ := p
    simp only [List.map_cons, List.nodup_cons] at hnd
    have ih1 := ih hnd.2
    unfold entriesOf mapGet at ih1 ⊢
    by_cases h : k2 = k
    · subst h
      have hnone : rest.filter (fun kv => decide (kv.1 = k2)) = [] := by
        rw [List.filter_eq_nil_iff]
        intro kv hkv
        simp only [decide_eq_true_eq]
        intro hk
        exact hnd.1 (List.mem_map.2 ⟨kv, hkv, hk⟩)
      simp [List.filter_cons, hnone, List.lookup]
    · have h1 : (k == k2) = false := by simpa using fun h3 => h h3.symm
      simp only [List.filter_cons, h, decide_False, Bool.false_eq_true, if_false,
        List.lookup, h1]
      exact ih1

/-! ### Incremental deduplication -/

theorem keepFirst_congr (s1 s2 : List (Option String)) (xs : List Item)
    (h : ∀ n, n ∈ s1 ↔ n ∈ s2) : keepFirst s1 xs = keepFirst s2 xs := by
  induction xs generalizing s1 s2 with
  | nil => simp [keepFirst]
  | cons m rest ih =>
    by_cases hm : m.key ∈ s1
    · have hm2 : m.key ∈ s2 := (h _).1 hm
      simp only [keepFirst, hm, hm2, if_true]
      exact ih s1 s2 h
    · have hm2 : m.key ∉ s2 := fun h2 => hm ((h _).2 h2)
      simp only [keepFirst, hm, hm2, if_false]
      rw [ih (s1 ++ [m.key]) (s2 ++ [m.key])]
      intro n
      simp [h n]

theorem keepFirst_cons_of_mem (seen : List (Option String)) (m : Item) (rest : List Item)
    (h : m.key ∈ seen) : keepFirst seen (m :: rest) = keepFirst seen rest := by
  simp [keepFirst, h]

theorem keepFirst_cons_of_not_mem (seen : List (Option String)) (m : Item)
    (rest : List Item) (h : m.key ∉ seen) :
    keepFirst seen (m :: rest) = m :: keepFirst (seen ++ [m.key]) rest := by
  simp [keepFirst, h]

theorem keepFirst_append (seen : List (Option String)) (xs ys : List Item) :
    keepFirst seen (xs ++ ys)
      = keepFirst seen xs ++ keepFirst (seen ++ xs.map Item.key) ys := by
  induction xs generalizing seen with
  | nil => simp [keepFirst]
  | cons m rest ih =>
    by_cases hm : m.key ∈ seen
    · rw [List.cons_append, keepFirst_cons_of_mem _ _ _ hm, keepFirst_cons_of_mem _ _ _ hm, ih]
      congr 1
      apply keepFirst_congr
      intro n
      simp only [List.mem_append, List.mem_cons, List.map_cons]
      constructor
      · rintro (h | h)
        · exact Or.inl h
        · exact Or.inr (Or.inr h)
      · rintro (h | h | h)
        · exact Or.inl h
        · subst h; exact Or.inl hm
        · exact Or.inr h
    · rw [List.cons_append, keepFirst_cons_of_not_mem _ _ _ hm,
        keepFirst_cons_of_not_mem _ _ _ hm, ih]
      simp only [List.map_cons, List.append_assoc, List.singleton_append, List.cons_append,
        List.nil_append]

theorem keepFirst_idem (seen : List (Option String)) (xs : List Item) :
    keepFirst seen (keepFirst seen xs) = keepFirst seen xs := by
  induction xs generalizing seen with
  | nil => simp [keepFirst]
  | cons m rest ih =>
    by_cases hm : m.key ∈ seen
    · simp only [keepFirst, hm, if_true]
      exact ih seen
    · simp only [keepFirst, hm, if_false]
      rw [ih]

theorem keepFirst_absorb (xs ys : List Item) :
    keepFirst [] (keepFirst [] xs ++ ys) = keepFirst [] (xs ++ ys) := by
  rw [keepFirst_append, keepFirst_append, keepFirst_idem]
  congr 1
  apply keepFirst_congr
  intro n
  simp only [List.nil_append]
  rw [keepFirst_key_mem]
  simp

/-! ### `MergeRule` -/

theorem entriesOf_cons (k : String) (kv : String × List Item)
    (rest : List (String × List Item)) :
    entriesOf k (kv :: rest)
      = if kv.1 = k then kv.2 ++ entriesOf k rest else entriesOf k rest := by
  by_cases h : kv.1 = k <;> simp [entriesOf, List.filter_cons, h]

theorem MergeRuleEntry_get (e : ExecuteRule)
    (st : List (String × List Item) × List (String × Nat)) (kv : String × List Item)
    (k : String) :
    mapGet (MergeRuleEntry e st kv).1 k
      = if kv.1 = k then keepFirst [] (mapGet st.1 kv.1 ++ kv.2) else mapGet st.1 k := by
  simp [MergeRuleEntry, RuleArrayDeduplication_eq, mapGet_mapSet]

theorem MergeRule_inner (e : ExecuteRule) (k : String) (lists : List (String × List Item))
    (st : List (String × List Item) × List (String × Nat)) (X : List Item)
    (h : mapGet st.1 k = keepFirst [] X) :
    mapGet (lists.foldl (MergeRuleEntry e) st).1 k = keepFirst [] (X ++ entriesOf k lists) := by
  induction lists generalizing st X with
  | nil => simpa [entriesOf] using h
  | cons kv rest ih =>
    rw [List.foldl_cons, entriesOf_cons]
    by_cases hk : kv.1 = k
    · rw [if_pos hk, ← List.append_assoc]
      apply ih
      rw [MergeRuleEntry_get, if_pos hk, hk, h, keepFirst_absorb]
    · rw [if_neg hk]
      apply ih
      rw [MergeRuleEntry_get, if_neg hk, h]

theorem MergeRule_outer (e : ExecuteRule) (k : String) (selected : List InspectRule)
    (st : List (String × List Item) × List (String × Nat)) (X : List Item)
    (h : mapGet st.1 k = keepFirst [] X) :
    mapGet (selected.foldl
        (fun st rule => (utils.StructToMap rule.Spec).foldl (MergeRuleEntry e) st) st).1 k
      = keepFirst [] (X ++ selected.flatMap (fun r => entriesOf k (utils.StructToMap r.Spec))) := by
  induction selected generalizing st X with
  | nil => simpa using h
  | cons r rest ih =>
    rw [List.foldl_cons, List.flatMap_cons, ← List.append_assoc]
    apply ih
    exact MergeRule_inner e k _ st X h

theorem MergeRuleLoop_get (e : ExecuteRule) (k : String) (selected : List InspectRule) :
    mapGet (MergeRuleLoop e selected).1 k
      = keepFirst [] (selected.flatMap (fun r => entriesOf k (utils.StructToMap r.Spec))) := by
  have h := MergeRule_outer e k selected ([], [(constant.Component, 1)]) []
    (by simp [mapGet, keepFirst])
  simpa [MergeRuleLoop] using h

/-! ### Rule selection -/

theorem utils.ArrayFindsFrom_some {α : Type} (f : α → Bool) (s : List α) (i j : Nat) (v : α)
    (h : utils.ArrayFindsFrom f i s = some (j, v)) : v ∈ s ∧ f v = true := by
  induction s generalizing i with
  | nil => simp [utils.ArrayFindsFrom] at h
  | cons w ws ih =>
    by_cases hw : f w = true
    · simp only [utils.ArrayFindsFrom, hw, if_true, Option.some.injEq, Prod.mk.injEq] at h
      obtain ⟨_, rfl⟩ := h
      exact ⟨List.mem_cons_self _ _, hw⟩
    · simp only [utils.ArrayFindsFrom, hw, Bool.false_eq_true, if_false] at h
      exact ⟨List.mem_cons_of_mem _ (ih _ h).1, (ih _ h).2⟩

theorem utils.ArrayFinds_some {α : Type} (f : α → Bool) (s : List α) (j : Nat) (v : α)
    (h : utils.ArrayFinds s f = some (j, v)) : v ∈ s ∧ f v = true :=
  utils.ArrayFindsFrom_some f s 0 j v h

theorem SetRuleScheduleStep_append (rules newRules : List InspectRule)
    (r : InspectRuleNames) :
    SetRuleScheduleStep rules newRules r = newRules ++ SetRuleScheduleStep rules [] r := by
  unfold SetRuleScheduleStep
  cases utils.ArrayFinds rules (fun m => r.Name == m.Name) with
  | none => simp
  | some p =>
    obtain ⟨i, rule⟩ := p
    by_cases h : (!utils.IsEmptyValue r.NodeName || r.NodeSelector.isSome) = true
    · simp [h]
    · simp [h]

theorem SetRuleSchedule_foldl (rules newRules : List InspectRule)
    (names : List InspectRuleNames) :
    names.foldl (SetRuleScheduleStep rules) newRules
      = newRules ++ names.flatMap (SetRuleScheduleStep rules []) := by
  induction names generalizing newRules with
  | nil => simp
  | cons r rest ih =>
    rw [List.foldl_cons, ih, SetRuleScheduleStep_append, List.flatMap_cons,
      List.append_assoc]

theorem SetRuleSchedule_eq_flatMap (e : ExecuteRule) (rules : List InspectRule) :
    SetRuleSchedule e rules = e.Task.RuleNames.flatMap (SetRuleScheduleStep rules []) := by
  simp [SetRuleSchedule, SetRuleSchedule_foldl]

theorem SetRuleScheduleStep_keys (rules : List InspectRule) (r : InspectRuleNames)
    (r1 : InspectRule) (h : r1 ∈ SetRuleScheduleStep rules [] r) :
    ∃ r0 ∈ rules, r1.Spec.Lists.map Prod.fst = r0.Spec.Lists.map Prod.fst := by
  unfold SetRuleScheduleStep at h
  cases hf : utils.ArrayFinds rules (fun m => r.Name == m.Name) with
  | none => simp [hf] at h
  | some p =>
    obtain ⟨i, rule⟩ := p
    have hmem := (utils.ArrayFinds_some _ _ _ _ hf).1
    rw [hf] at h
    by_cases hg : (!utils.IsEmptyValue r.NodeName || r.NodeSelector.isSome) = true
    · simp only [hg, if_true, List.nil_append, List.mem_singleton] at h
      exact ⟨rule, hmem, by rw [h]; simp [utils.StructToMap, List.map_map, Function.comp_def]⟩
    · simp only [hg, Bool.false_eq_true, if_false, List.nil_append, List.mem_singleton] at h
      exact ⟨rule, hmem, by rw [h]⟩

theorem SetRuleSchedule_keys (e : ExecuteRule) (rules : List InspectRule) (r1 : InspectRule)
    (h : r1 ∈ SetRuleSchedule e rules) :
    ∃ r0 ∈ rules, r1.Spec.Lists.map Prod.fst = r0.Spec.Lists.map Prod.fst := by
  rw [SetRuleSchedule_eq_flatMap, List.mem_flatMap] at h
  obtain ⟨r, _, hr⟩ := h
  exact SetRuleScheduleStep_keys rules r r1 hr

theorem SetPrometheusEndpoint_keys (allRule : List InspectRule) (r1 : InspectRule)
    (h : r1 ∈ SetPrometheusEndpoint allRule) :
    ∃ r0 ∈ allRule, r1.Spec.Lists.map Prod.fst = r0.Spec.Lists.map Prod.fst := by
  unfold SetPrometheusEndpoint at h
  obtain ⟨r0, hr0, rfl⟩ := List.mem_map.1 h
  refine ⟨r0, hr0, ?_⟩
  split
  · simp only [List.map_map]
    apply List.map_congr_left
    intro kv _
    by_cases hk : kv.1 = "prometheus" <;> simp [hk]
  · rfl

/-- C2: for every list of available rules whose specs are well-formed maps, and every
category key `k`, the item list `MergeRule` returns under `k` is the deduplication
by name (first occurrence kept) of the concatenation, in selection order, of the
selected rules' item lists under `k`: deduplicating after each rule gives the same
list as one deduplication of the whole concatenation. -/
theorem MergeRule_eq_dedup_of_concat (e : ExecuteRule) (allRule : List InspectRule)
    (k : String) (hwf : ∀ r ∈ allRule, (r.Spec.Lists.map Prod.fst).Nodup) :
    RuleArrayDeduplication
        ((SetPrometheusEndpoint (SetRuleSchedule e allRule)).flatMap
          (fun r => mapGet (utils.StructToMap r.Spec) k))
      = some (mapGet (MergeRule e allRule).1 k) := by
  have hsel : ∀ r ∈ SetPrometheusEndpoint (SetRuleSchedule e allRule),
      entriesOf k (utils.StructToMap r.Spec) = mapGet (utils.StructToMap r.Spec) k := by
    intro r hr
    apply entriesOf_eq_mapGet
    obtain ⟨r1, hr1, h1⟩ := SetPrometheusEndpoint_keys _ r hr
    obtain ⟨r0, hr0, h0⟩ := SetRuleSchedule_keys e allRule r1 hr1
    simp only [utils.StructToMap]
    rw [h1, h0]
    exact hwf r0 hr0
  rw [RuleArrayDeduplication_eq]
  simp only [MergeRule]
  rw [MergeRuleLoop_get]
  congr 2
  apply List.flatMap_congr
  intro r hr
  exact (hsel r hr).symm

/-- Witness of C2 on the sample task and rules, category key `sysctl`. -/
theorem MergeRule_eq_dedup_of_concat_witness :
    (∀ r ∈ sampleRules, (r.Spec.Lists.map Prod.fst).Nodup) ∧
    RuleArrayDeduplication
        ((SetPrometheusEndpoint
            (SetRuleSchedule (NewExecuteRuleOptions sampleTask) sampleRules)).flatMap
          (fun r => mapGet (utils.StructToMap r.Spec) "sysctl"))
      = some (mapGet (MergeRule (NewExecuteRuleOptions sampleTask) sampleRules).1 "sysctl") :=
  ⟨by decide, MergeRule_eq_dedup_of_concat _ _ _ (by decide)⟩

/-! ### `mergeNodeRule` -/

/-- C3, evaluation at the failing input: an item whose selector is `a=1, b=2` is placed
in the bucket of a node that matches only the pair visited last.  With the nodes
`n1` (label `a=1`) and `n2` (label `b=2`) neither node matches both pairs, yet under
either iteration order of the selector one of them receives a copy. -/
theorem mergeNodeRule_selector_last_pair_decides :
    mergeNodeRule [sampleItem "x" none (some [("a", "1"), ("b", "2")])] sampleNodes
      = [("n2", [sampleItem "x" (some "n2") (some [("a", "1"), ("b", "2")])])] ∧
    mergeNodeRule [sampleItem "x" none (some [("b", "2"), ("a", "1")])] sampleNodes
      = [("n1", [sampleItem "x" (some "n1") (some [("b", "2"), ("a", "1")])])] ∧
    (∀ n ∈ sampleNodes, ¬ (n.label "a" = "1" ∧ n.label "b" = "2")) := by
  decide

theorem mergeMapAppend_nil (k : String) (m : Item) :
    mergeMapAppend [] k m = [(k, [m])] := by
  simp [mergeMapAppend, mapSet, mapGet]

theorem mergeMapAppend_cons (k1 : String) (v1 : List Item)
    (rest : List (String × List Item)) (k : String) (m : Item) :
    mergeMapAppend ((k1, v1) :: rest) k m
      = if k1 = k then (k1, v1 ++ [m]) :: rest else (k1, v1) :: mergeMapAppend rest k m := by
  by_cases h : k1 = k
  · subst h; simp [mergeMapAppend, mapSet, mapGet, List.lookup]
  · have h1 : (k == k1) = false := by simpa using fun h2 => h h2.symm
    simp [mergeMapAppend, mapSet, mapGet, List.lookup, h, h1]

theorem inSomeBucket_nil (p : Item) : ¬ inSomeBucket [] p := by
  simp [inSomeBucket]

theorem inSomeBucket_cons (kv : String × List Item) (rest : List (String × List Item))
    (p : Item) : inSomeBucket (kv :: rest) p ↔ p ∈ kv.2 ∨ inSomeBucket rest p := by
  simp [inSomeBucket]

theorem inSomeBucket_mergeMapAppend (mm : List (String × List Item)) (k : String)
    (m p : Item) :
    inSomeBucket (mergeMapAppend mm k m) p ↔ inSomeBucket mm p ∨ p = m := by
  induction mm with
  | nil =>
    rw [mergeMapAppend_nil, inSomeBucket_cons]
    simp [inSomeBucket_nil]
  | cons kv rest ih =>
    obtain ⟨k1, v1⟩ := kv
    rw [mergeMapAppend_cons]
    by_cases h : k1 = k
    · rw [if_pos h, inSomeBucket_cons, inSomeBucket_cons]
      simp only [List.mem_append, List.mem_singleton]
      constructor
      · rintro ((h1 | h1) | h1)
        · exact Or.inl (Or.inl h1)
        · exact Or.inr h1
        · exact Or.inl (Or.inr h1)
      · rintro ((h1 | h1) | h1)
        · exact Or.inl (Or.inl h1)
        · exact Or.inr h1
        · exact Or.inl (Or.inr h1)
    · rw [if_neg h, inSomeBucket_cons, inSomeBucket_cons, ih]
      constructor
      · rintro (h1 | h1 | h1)
        · exact Or.inl (Or.inl h1)
        · exact Or.inl (Or.inr h1)
        · exact Or.inr h1
      · rintro ((h1 | h1) | h1)
        · exact Or.inl h1
        · exact Or.inr (Or.inl h1)
        · exact Or.inr (Or.inr h1)

theorem inSomeBucket_copies (g : Node → Item) (p : Item) (nodes : List Node)
    (mm : List (String × List Item)) :
    inSomeBucket (nodes.foldl (fun acc data => mergeMapAppend acc data.Name (g data)) mm) p
      ↔ inSomeBucket mm p ∨ ∃ n ∈ nodes, p = g n := by
  induction nodes generalizing mm with
  | nil => simp
  | cons n rest ih =>
    rw [List.foldl_cons, ih, inSomeBucket_mergeMapAppend]
    simp only [List.mem_cons, exists_eq_or_imp]
    constructor
    · rintro ((h1 | h1) | h1)
      · exact Or.inl h1
      · exact Or.inr (Or.inl h1)
      · exact Or.inr (Or.inr h1)
    · rintro (h1 | h1 | h1)
      · exact Or.inl (Or.inl h1)
      · exact Or.inl (Or.inr h1)
      · exact Or.inr h1

theorem mergeNodeRuleStep_named (allNode : List Node) (mm : List (String × List Item))
    (m : Item) (h : (m.nodeName.isSome && !utils.IsEmptyValue m.nodeName) = true) :
    mergeNodeRuleStep allNode mm m = mergeMapAppend mm (m.nodeName.getD "") m := by
  simp [mergeNodeRuleStep, h]

theorem mergeNodeRuleStep_selector (allNode : List Node) (mm : List (String × List Item))
    (m : Item) (sel : List (String × String))
    (h : (m.nodeName.isSome && !utils.IsEmptyValue m.nodeName) = false)
    (hs : m.nodeSelector = some sel) :
    mergeNodeRuleStep allNode mm m
      = (allNode.filter (selectorFilter sel)).foldl
          (fun acc data => mergeMapAppend acc data.Name { m with nodeName := some data.Name })
          mm := by
  simp only [mergeNodeRuleStep, h, Bool.false_eq_true, if_false, utils.ArrayFilter]
  rw [hs]

theorem mergeNodeRuleStep_none (allNode : List Node) (mm : List (String × List Item))
    (m : Item) (h : (m.nodeName.isSome && !utils.IsEmptyValue m.nodeName) = false)
    (hs : m.nodeSelector = none) :
    mergeNodeRuleStep allNode mm m = mm := by
  simp only [mergeNodeRuleStep, h, Bool.false_eq_true, if_false]
  rw [hs]

theorem inSomeBucket_step (allNode : List Node) (mm : List (String × List Item))
    (m p : Item) :
    inSomeBucket (mergeNodeRuleStep allNode mm m) p ↔ inSomeBucket mm p ∨ placedBy allNode m p := by
  by_cases h : (m.nodeName.isSome && !utils.IsEmptyValue m.nodeName) = true
  · rw [mergeNodeRuleStep_named _ _ _ h, inSomeBucket_mergeMapAppend]
    constructor
    · rintro (h1 | h1)
      · exact Or.inl h1
      · exact Or.inr (Or.inl ⟨h, h1⟩)
    · rintro (h1 | ⟨_, h1⟩ | ⟨h2, _⟩)
      · exact Or.inl h1
      · exact Or.inr h1
      · rw [h] at h2; exact absurd h2 (by decide)
  · have h1 : (m.nodeName.isSome && !utils.IsEmptyValue m.nodeName) = false := by
      simpa using h
    cases hs : m.nodeSelector with
    | none =>
      rw [mergeNodeRuleStep_none _ _ _ h1 hs]
      constructor
      · exact fun h2 => Or.inl h2
      · rintro (h2 | ⟨h3, _⟩ | ⟨_, sel, h3, _⟩)
        · exact h2
        · exact absurd h3 h
        · rw [hs] at h3; exact absurd h3 (by simp)
    | some sel =>
      rw [mergeNodeRuleStep_selector _ _ _ sel h1 hs, inSomeBucket_copies]
      constructor
      · rintro (h2 | ⟨n, hn, hp⟩)
        · exact Or.inl h2
        · rw [List.mem_filter] at hn
          exact Or.inr (Or.inr ⟨h1, sel, hs, n, hn.1, hn.2, hp⟩)
      · rintro (h2 | ⟨h3, _⟩ | ⟨_, sel1, h3, n, hn, hf, hp⟩)
        · exact Or.inl h2
        · exact absurd h3 h
        · rw [hs] at h3
          cases h3
          exact Or.inr ⟨n, List.mem_filter.2 ⟨hn, hf⟩, hp⟩

theorem inSomeBucket_foldl (allNode : List Node) (rule : List Item)
    (mm : List (String × List Item)) (p : Item) :
    inSomeBucket (rule.foldl (mergeNodeRuleStep allNode) mm) p
      ↔ inSomeBucket mm p ∨ ∃ i ∈ rule, placedBy allNode i p := by
  induction rule generalizing mm with
  | nil => simp
  | cons m rest ih =>
    rw [List.foldl_cons, ih, inSomeBucket_step]
    simp only [List.mem_cons, exists_eq_or_imp]
    constructor
    · rintro ((h1 | h1) | h1)
      · exact Or.inl h1
      · exact Or.inr (Or.inl h1)
      · exact Or.inr (Or.inr h1)
    · rintro (h1 | h1 | h1)
      · exact Or.inl (Or.inl h1)
      · exact Or.inl (Or.inr h1)
      · exact Or.inr h1

theorem inSomeBucket_mergeNodeRule (allNode : List Node) (rule : List Item) (p : Item) :
    inSomeBucket (mergeNodeRule rule allNode) p ↔ ∃ i ∈ rule, placedBy allNode i p := by
  unfold mergeNodeRule
  rw [inSomeBucket_foldl]
  simp [inSomeBucket_nil]

/-! ### `AllocationRule` -/

theorem emitJobs_RunRule (rnd : Nat → String) (taskName ctlOrTem : String) (c : Nat)
    (ps : List (List Item)) :
    (emitJobs rnd taskName ctlOrTem c ps).map (fun j => j.RunRule) = ps := by
  induction ps generalizing c with
  | nil => simp [emitJobs]
  | cons v rest ih => simp [emitJobs, ih]

theorem emitJobs_RuleType (rnd : Nat → String) (taskName ctlOrTem : String) (c : Nat)
    (ps : List (List Item)) :
    ∀ j ∈ emitJobs rnd taskName ctlOrTem c ps, j.RuleType = ctlOrTem := by
  induction ps generalizing c with
  | nil => simp [emitJobs]
  | cons v rest ih =>
    intro j hj
    simp only [emitJobs, List.mem_cons] at hj
    rcases hj with hj | hj
    · rw [hj]
    · exact ih _ j hj

theorem emitJobs_payload_mem (rnd : Nat → String) (taskName ctlOrTem : String) (c : Nat)
    (ps : List (List Item)) (j : JobRule) (hj : j ∈ emitJobs rnd taskName ctlOrTem c ps) :
    j.RunRule ∈ ps := by
  have h : j.RunRule ∈ (emitJobs rnd taskName ctlOrTem c ps).map (fun j => j.RunRule) :=
    List.mem_map.2 ⟨j, hj, rfl⟩
  rwa [emitJobs_RunRule] at h

theorem emitJobs_exists (rnd : Nat → String) (taskName ctlOrTem : String) (c : Nat)
    (ps : List (List Item)) (v : List Item) (hv : v ∈ ps) :
    ∃ j ∈ emitJobs rnd taskName ctlOrTem c ps, j.RunRule = v := by
  rw [← emitJobs_RunRule rnd taskName ctlOrTem c ps] at hv
  obtain ⟨j, hj, rfl⟩ := List.mem_map.1 hv
  exact ⟨j, hj, rfl⟩

theorem AllocationRule_eq (rnd : Nat → String) (c : Nat) (rule : List Item)
    (taskName : String) (allNode : List Node) (ctlOrTem : String) :
    (AllocationRule rnd c rule taskName allNode ctlOrTem).1
      = .ok (emitJobs rnd taskName ctlOrTem c
              ((mergeNodeRule
                (rule.filter (fun v => v.nodeName.isSome || v.nodeSelector.isSome))
                allNode).map Prod.snd)
            ++ (if 0 < (rule.filter
                    (fun v => !(v.nodeName.isSome || v.nodeSelector.isSome))).length then
                  emitJobs rnd taskName ctlOrTem
                    (c + (mergeNodeRule
                      (rule.filter (fun v => v.nodeName.isSome || v.nodeSelector.isSome))
                      allNode).length)
                    (allNode.map (broadcastPayload
                      (rule.filter (fun v => !(v.nodeName.isSome || v.nodeSelector.isSome)))))
                else [])) := by
  unfold AllocationRule
  simp only [utils.ArrayFilter, gt_iff_lt]
  split <;> simp

theorem selectorFilter_of_all (sel : List (String × String)) (n : Node) (hne : sel ≠ [])
    (h : ∀ kv ∈ sel, n.label kv.1 = kv.2) : selectorFilter sel n = true := by
  have aux : ∀ (l : List (String × String)) (b : Bool), l ≠ [] →
      (∀ kv ∈ l, n.label kv.1 = kv.2) →
      l.foldl (fun _ kv => n.label kv.1 == kv.2) b = true := by
    intro l
    induction l with
    | nil => intro b h0; exact absurd rfl h0
    | cons x xs ih =>
      intro b _ hall
      rw [List.foldl_cons]
      by_cases hxs : xs = []
      · subst hxs
        simpa using hall x (List.mem_cons_self _ _)
      · exact ih _ hxs (fun kv hkv => hall kv (List.mem_cons_of_mem _ hkv))
  exact aux sel false hne h

/-- C4, counterexample: an item whose selector no node satisfies is in no payload; for
the selector `zone=z` and the two sample nodes `AllocationRule` emits no job at
all, so the claim that no input item is lost fails. -/
theorem AllocationRule_drops_unmatched_selector_item :
    ¬ (∀ i ∈ [sampleItem "x" none (some [("zone", "z")])],
        ∃ jobs, (AllocationRule (fun _ => "aaaaa") 0
            [sampleItem "x" none (some [("zone", "z")])] "task" sampleNodes
            constant.Sysctl).1 = .ok jobs ∧
          ∃ job ∈ jobs, ∃ p ∈ job.RunRule,
            p = i ∨ ∃ n ∈ sampleNodes, p = { i with nodeName := some n.Name }) := by
  intro h
  obtain ⟨jobs, hjobs, job, hjob, _⟩ := h _ (List.mem_singleton.2 rfl)
  have hcode : (AllocationRule (fun _ => "aaaaa") 0
      [sampleItem "x" none (some [("zone", "z")])] "task" sampleNodes
      constant.Sysctl).1 = .ok [] := by rfl
  rw [hcode] at hjobs
  cases hjobs
  exact absurd hjob (List.not_mem_nil _)

theorem placedBy_origin (allNode : List Node) (i p : Item) (h : placedBy allNode i p) :
    p = i ∨ ∃ n ∈ allNode, p = { i with nodeName := some n.Name } := by
  rcases h with ⟨_, hp⟩ | ⟨_, sel, _, n, hn, _, hp⟩
  · exact Or.inl hp
  · exact Or.inr ⟨n, hn, hp⟩

/-- C4 (amended): `AllocationRule` always succeeds; every item of every payload is an
input item, either unchanged or with its node name set to the name of a node of
the list; and an input item is in at least one payload whenever it has a non-empty
node name, or it has neither node name nor selector and the node list is not
empty, or it has no non-empty node name and a non-empty selector all of whose
pairs some node of the list matches. -/
theorem AllocationRule_payload_items (rnd : Nat → String) (c : Nat) (rule : List Item)
    (taskName : String) (allNode : List Node) (ctlOrTem : String) :
    ∃ jobs, (AllocationRule rnd c rule taskName allNode ctlOrTem).1 = .ok jobs ∧
      (∀ job ∈ jobs, ∀ p ∈ job.RunRule, ∃ i ∈ rule,
          p = i ∨ ∃ n ∈ allNode, p = { i with nodeName := some n.Name }) ∧
      (∀ i ∈ rule,
          ((∃ s, i.nodeName = some s ∧ s ≠ "") ∨
            (i.nodeName = none ∧ i.nodeSelector = none ∧ allNode ≠ []) ∨
            ((i.nodeName = none ∨ i.nodeName = some "") ∧
              ∃ sel, i.nodeSelector = some sel ∧ sel ≠ [] ∧
                ∃ n ∈ allNode, ∀ kv ∈ sel, n.label kv.1 = kv.2)) →
          ∃ job ∈ jobs, ∃ p ∈ job.RunRule,
            p = i ∨ ∃ n ∈ allNode, p = { i with nodeName := some n.Name }) := by
  refine ⟨_, AllocationRule_eq rnd c rule taskName allNode ctlOrTem, ?_, ?_⟩
  · intro job hjob p hp
    rw [List.mem_append] at hjob
    rcases hjob with hjob | hjob
    · have hv := emitJobs_payload_mem _ _ _ _ _ _ hjob
      obtain ⟨kv, hkv, hkv2⟩ := List.mem_map.1 hv
      have hb : inSomeBucket (mergeNodeRule
          (rule.filter (fun v => v.nodeName.isSome || v.nodeSelector.isSome)) allNode) p :=
        ⟨kv, hkv, by rw [hkv2]; exact hp⟩
      obtain ⟨i, hi, hpl⟩ := (inSomeBucket_mergeNodeRule _ _ _).1 hb
      exact ⟨i, (List.mem_filter.1 hi).1, placedBy_origin _ _ _ hpl⟩
    · split at hjob
      · have hv := emitJobs_payload_mem _ _ _ _ _ _ hjob
        obtain ⟨n, hn, hn2⟩ := List.mem_map.1 hv
        rw [← hn2] at hp
        obtain ⟨f, hf, hf2⟩ := List.mem_map.1 hp
        exact ⟨f, (List.mem_filter.1 hf).1, Or.inr ⟨n, hn, hf2.symm⟩⟩
      · exact absurd hjob (List.not_mem_nil _)
  · intro i hi hcond
    have bucket : ∀ p, (i.nodeName.isSome || i.nodeSelector.isSome) = true →
        placedBy allNode i p →
        ∃ job ∈ emitJobs rnd taskName ctlOrTem c
            ((mergeNodeRule
              (rule.filter (fun v => v.nodeName.isSome || v.nodeSelector.isSome))
              allNode).map Prod.snd), p ∈ job.RunRule := by
      intro p htar hpl
      have hb := (inSomeBucket_mergeNodeRule allNode
        (rule.filter (fun v => v.nodeName.isSome || v.nodeSelector.isSome)) p).2
        ⟨i, List.mem_filter.2 ⟨hi, htar⟩, hpl⟩
      obtain ⟨kv, hkv, hpkv⟩ := hb
      obtain ⟨job, hjob, hrun⟩ := emitJobs_exists rnd taskName ctlOrTem c _ kv.2
        (List.mem_map.2 ⟨kv, hkv, rfl⟩)
      exact ⟨job, hjob, by rw [hrun]; exact hpkv⟩
    rcases hcond with ⟨s, hs, hne⟩ | ⟨hnn, hns, hnodes⟩ | ⟨hnn, sel, hsel, hselne, n, hn, hall⟩
    · have hg : (i.nodeName.isSome && !utils.IsEmptyValue i.nodeName) = true := by
        simp [hs, utils.IsEmptyValue, hne]
      obtain ⟨job, hjob, hp⟩ := bucket i (by simp [hs]) (Or.inl ⟨hg, rfl⟩)
      exact ⟨job, List.mem_append.2 (Or.inl hjob), i, hp, Or.inl rfl⟩
    · obtain ⟨n, hn⟩ := List.exists_mem_of_ne_nil allNode hnodes
      have hf : i ∈ rule.filter (fun v => !(v.nodeName.isSome || v.nodeSelector.isSome)) :=
        List.mem_filter.2 ⟨hi, by simp [hnn, hns]⟩
      have hlen : 0 < (rule.filter
          (fun v => !(v.nodeName.isSome || v.nodeSelector.isSome))).length :=
        List.length_pos_of_mem hf
      obtain ⟨job, hjob, hrun⟩ := emitJobs_exists rnd taskName ctlOrTem
        (c + (mergeNodeRule
          (rule.filter (fun v => v.nodeName.isSome || v.nodeSelector.isSome))
          allNode).length)
        (allNode.map (broadcastPayload
          (rule.filter (fun v => !(v.nodeName.isSome || v.nodeSelector.isSome)))))
        _ (List.mem_map.2 ⟨n, hn, rfl⟩)
      refine ⟨job, List.mem_append.2 (Or.inr ?_), { i with nodeName := some n.Name }, ?_,
        Or.inr ⟨n, hn, rfl⟩⟩
      · rw [if_pos hlen]; exact hjob
      · rw [hrun]
        exact List.mem_map.2 ⟨i, hf, rfl⟩
    · have hg : (i.nodeName.isSome && !utils.IsEmptyValue i.nodeName) = false := by
        rcases hnn with hnn | hnn <;> simp [hnn, utils.IsEmptyValue]
      have hpl : placedBy allNode i { i with nodeName := some n.Name } :=
        Or.inr ⟨hg, sel, hsel, n, hn, selectorFilter_of_all sel n hselne hall, rfl⟩
      obtain ⟨job, hjob, hp⟩ := bucket _ (by simp [hsel]) hpl
      exact ⟨job, List.mem_append.2 (Or.inl hjob), _, hp, Or.inr ⟨n, hn, rfl⟩⟩

/-- C5: the jobs `AllocationRule` returns are the bucket jobs, one per entry of the
merge map, followed by the broadcast jobs.  When some item has neither a node name
nor a node selector there is exactly one broadcast job per node of the node list,
in list order, of the given category, whose payload is the whole list of those
untargeted items, each with its node name set to that node's name; when there is
no such item there is no broadcast job. -/
theorem AllocationRule_broadcast (rnd : Nat → String) (c : Nat) (rule : List Item)
    (taskName : String) (allNode : List Node) (ctlOrTem : String) :
    ∃ bucketJobs bcast,
      (AllocationRule rnd c rule taskName allNode ctlOrTem).1 = .ok (bucketJobs ++ bcast) ∧
      bucketJobs.map (fun j => j.RunRule)
        = (mergeNodeRule
            (rule.filter (fun v => decide (¬ (v.nodeName = none ∧ v.nodeSelector = none))))
            allNode).map Prod.snd ∧
      (∀ j ∈ bcast, j.RuleType = ctlOrTem) ∧
      ((∃ i ∈ rule, i.nodeName = none ∧ i.nodeSelector = none) →
        bcast.map (fun j => j.RunRule)
          = allNode.map (fun n =>
              (rule.filter (fun v => decide (v.nodeName = none ∧ v.nodeSelector = none))).map
                (fun f => { f with nodeName := some n.Name }))) ∧
      ((¬ ∃ i ∈ rule, i.nodeName = none ∧ i.nodeSelector = none) → bcast = []) := by
  have hf1 : rule.filter (fun v => decide (¬ (v.nodeName = none ∧ v.nodeSelector = none)))
      = rule.filter (fun v => v.nodeName.isSome || v.nodeSelector.isSome) := by
    apply List.filter_congr
    intro v _
    cases v.nodeName <;> cases v.nodeSelector <;> simp
  have hf2 : rule.filter (fun v => decide (v.nodeName = none ∧ v.nodeSelector = none))
      = rule.filter (fun v => !(v.nodeName.isSome || v.nodeSelector.isSome)) := by
    apply List.filter_congr
    intro v _
    cases v.nodeName <;> cases v.nodeSelector <;> simp
  refine ⟨_, _, AllocationRule_eq rnd c rule taskName allNode ctlOrTem, ?_, ?_, ?_, ?_⟩
  · rw [emitJobs_RunRule, hf1]
  · intro j hj
    split at hj
    · exact emitJobs_RuleType _ _ _ _ _ j hj
    · exact absurd hj (List.not_mem_nil _)
  · rintro ⟨i, hi, hnn, hns⟩
    have hmem : i ∈ rule.filter (fun v => !(v.nodeName.isSome || v.nodeSelector.isSome)) :=
      List.mem_filter.2 ⟨hi, by simp [hnn, hns]⟩
    rw [if_pos (List.length_pos_of_mem hmem), emitJobs_RunRule, hf2]
    rfl
  · intro hno
    have hnil : rule.filter (fun v => !(v.nodeName.isSome || v.nodeSelector.isSome)) = [] := by
      rw [List.filter_eq_nil_iff]
      intro v hv hv2
      apply hno
      refine ⟨v, hv, ?_⟩
      cases h1 : v.nodeName <;> cases h2 : v.nodeSelector <;> simp [h1, h2] at hv2 ⊢
    rw [hnil]
    simp

/-! ### `GenerateJob` -/

theorem lookup_mem {V : Type} (l : List (String × V)) (k : String) (v : V)
    (h : l.lookup k = some v) : (k, v) ∈ l := by
  induction l with
  | nil => simp [List.lookup] at h
  | cons p rest ih =>
    obtain ⟨k1, v1⟩ := p
    by_cases hk : k = k1
    · subst hk
      simp only [List.lookup, beq_self_eq_true, Option.some.injEq] at h
      subst h
      exact List.mem_cons_self _ _
    · have h1 : (k == k1) = false := by simpa using hk
      simp only [List.lookup, h1] at h
      exact List.mem_cons_of_mem _ (ih h)

theorem filter_key_of_nodup {V : Type} (l : List (String × V)) (key : String) (v : V)
    (hnd : (l.map Prod.fst).Nodup) (hv : l.lookup key = some v) :
    l.filter (fun kv => decide (kv.1 = key)) = [(key, v)] := by
  induction l with
  | nil => simp [List.lookup] at hv
  | cons p rest ih =>
    obtain ⟨k1, v1⟩ := p
    simp only [List.map_cons, List.nodup_cons] at hnd
    by_cases hk : key = k1
    · subst hk
      simp only [List.lookup, beq_self_eq_true, Option.some.injEq] at hv
      subst hv
      have hnone : rest.filter (fun kv => decide (kv.1 = key)) = [] := by
        rw [List.filter_eq_nil_iff]
        intro kv hkv
        simp only [decide_eq_true_eq]
        intro hk
        exact hnd.1 (List.mem_map.2 ⟨kv, hkv, hk⟩)
      simp [List.filter_cons, hnone]
    · have h1 : (key == k1) = false := by simpa using hk
      have h2 : ¬ k1 = key := fun h3 => hk h3.symm
      simp only [List.lookup, h1] at hv
      simp only [List.filter_cons, h2, decide_False, Bool.false_eq_true, if_false]
      exact ih hnd.2 hv

theorem Allocation_some (rnd : Nat → String) (c : Nat) (v : List Item)
    (taskName ruleType : String) :
    Allocation rnd c (some v) taskName ruleType
      = (.ok { JobName := jobName taskName ruleType (rnd c), RuleType := ruleType,
               RunRule := v }, c + 1) := by
  simp [Allocation]

theorem AllocationRule_ok_types (rnd : Nat → String) (c : Nat) (rule : List Item)
    (taskName : String) (allNode : List Node) (ctlOrTem : String) :
    ∃ jobs c1, AllocationRule rnd c rule taskName allNode ctlOrTem = (.ok jobs, c1) ∧
      ∀ j ∈ jobs, j.RuleType = ctlOrTem := by
  have heq := AllocationRule_eq rnd c rule taskName allNode ctlOrTem
  rcases hres : AllocationRule rnd c rule taskName allNode ctlOrTem with ⟨res, c1⟩
  rw [hres] at heq
  simp only at heq
  refine ⟨_, c1, by rw [heq], ?_⟩
  intro j hj
  rw [List.mem_append] at hj
  rcases hj with hj | hj
  · exact emitJobs_RuleType _ _ _ _ _ j hj
  · split at hj
    · exact emitJobs_RuleType _ _ _ _ _ j hj
    · exact absurd hj (List.not_mem_nil _)

/-- What one pass of the loop of `GenerateJob` appends: jobs whose category is the
one the entry's key maps to, and exactly one job carrying the whole list when that
category is cluster-scoped. -/
theorem GenerateJobEntry_new (rnd : Nat → String) (e : ExecuteRule) (nodes : List Node)
    (st : List JobRule × Nat) (kv : String × List Item) :
    ∃ new, (GenerateJobEntry rnd e nodes st kv).1 = st.1 ++ new ∧
      (∀ j ∈ new, e.clusterInspectRuleMap.lookup kv.1 = some j.RuleType) ∧
      (∀ cat, e.clusterInspectRuleMap.lookup kv.1 = some cat →
        utils.ArrayFind cat e.clusterInspectRuleNames = true →
        new.map (fun j => j.RunRule) = [kv.2]) := by
  unfold GenerateJobEntry
  cases hl : e.clusterInspectRuleMap.lookup kv.1 with
  | none => exact ⟨[], by simp, by simp, by simp⟩
  | some mapV =>
    by_cases hc : utils.ArrayFind mapV e.clusterInspectRuleNames = true
    · refine ⟨[{ JobName := jobName e.Task.Name mapV (rnd st.2), RuleType := mapV,
                 RunRule := kv.2 }], ?_, ?_, ?_⟩
      · simp [hc, Allocation_some]
      · simp
      · simp
    · have hc1 : utils.ArrayFind mapV e.clusterInspectRuleNames = false := by simpa using hc
      obtain ⟨jobs, c1, hres, htypes⟩ :=
        AllocationRule_ok_types rnd st.2 kv.2 e.Task.Name nodes mapV
      refine ⟨jobs, ?_, ?_, ?_⟩
      · simp only [hc1, Bool.false_eq_true, if_false, hres]
      · intro j hj
        rw [htypes j hj]
      · intro cat hcat hfind
        simp only [Option.some.injEq] at hcat
        subst hcat
        rw [hfind] at hc1
        exact absurd hc1 (by decide)

theorem GenerateJob_loop_cluster (rnd : Nat → String) (e : ExecuteRule) (nodes : List Node)
    (key cat : String)
    (h2 : utils.ArrayFind cat e.clusterInspectRuleNames = true)
    (h3 : ∀ k, e.clusterInspectRuleMap.lookup k = some cat ↔ k = key)
    (l : List (String × List Item)) (st : List JobRule × Nat) :
    (((l.foldl (GenerateJobEntry rnd e nodes) st).1.filter
        (fun j => decide (j.RuleType = cat))).map (fun j => j.RunRule))
      = ((st.1.filter (fun j => decide (j.RuleType = cat))).map (fun j => j.RunRule))
        ++ (l.filter (fun kv => decide (kv.1 = key))).map Prod.snd := by
  induction l generalizing st with
  | nil => simp
  | cons kv rest ih =>
    rw [List.foldl_cons, ih]
    obtain ⟨new, hnew, htypes, hcluster⟩ := GenerateJobEntry_new rnd e nodes st kv
    rw [hnew, List.filter_append, List.map_append, List.append_assoc]
    congr 1
    by_cases hk : kv.1 = key
    · have hlook := (h3 kv.1).2 hk
      have hall : new.filter (fun j => decide (j.RuleType = cat)) = new := by
        rw [List.filter_eq_self]
        intro j hj
        have := htypes j hj
        rw [hlook] at this
        simp only [Option.some.injEq] at this
        simp [this]
      rw [hall, hcluster cat hlook h2]
      simp [List.filter_cons, hk]
    · have hnone : new.filter (fun j => decide (j.RuleType = cat)) = [] := by
        rw [List.filter_eq_nil_iff]
        intro j hj
        simp only [decide_eq_true_eq]
        intro hcat
        have := htypes j hj
        rw [hcat] at this
        exact hk ((h3 kv.1).1 this)
      rw [hnone]
      simp [List.filter_cons, hk]

theorem GenerateJob_loop_other (rnd : Nat → String) (e : ExecuteRule) (nodes : List Node)
    (cat : String) (h : ∀ k, e.clusterInspectRuleMap.lookup k ≠ some cat)
    (l : List (String × List Item)) (st : List JobRule × Nat) :
    (l.foldl (GenerateJobEntry rnd e nodes) st).1.filter (fun j => decide (j.RuleType = cat))
      = st.1.filter (fun j => decide (j.RuleType = cat)) := by
  induction l generalizing st with
  | nil => simp
  | cons kv rest ih =>
    rw [List.foldl_cons, ih]
    obtain ⟨new, hnew, htypes, _⟩ := GenerateJobEntry_new rnd e nodes st kv
    have hnone : new.filter (fun j => decide (j.RuleType = cat)) = [] := by
      rw [List.filter_eq_nil_iff]
      intro j hj
      simp only [decide_eq_true_eq]
      intro hcat
      have := htypes j hj
      rw [hcat] at this
      exact h kv.1 this
    rw [hnew, List.filter_append, hnone, List.append_nil]

theorem GenerateJob_eq (rnd : Nat → String) (c : Nat) (e : ExecuteRule) (nodes : List Node)
    (rulesSpec : List (String × List Item)) :
    (GenerateJob rnd c e nodes rulesSpec).1
      = (rulesSpec.foldl (GenerateJobEntry rnd e nodes) ([], c)).1
        ++ [{ JobName := jobName e.Task.Name constant.Component
                (rnd (rulesSpec.foldl (GenerateJobEntry rnd e nodes) ([], c)).2),
              RuleType := constant.Component,
              RunRule := mapGet rulesSpec "componentExclude" }] := by
  simp [GenerateJob, Allocation_some]

theorem clusterInspectRuleMap_eq (task : InspectTask) :
    (NewExecuteRuleOptions task).clusterInspectRuleMap
      = [("opas", constant.Opa), ("prometheus", constant.Prometheus),
         ("serviceConnect", constant.ServiceConnect), ("fileChange", constant.FileChange),
         ("sysctl", constant.Sysctl), ("systemd", constant.Systemd),
         ("fileFilter", constant.FileFilter), ("customCommand", constant.CustomCommand),
         ("nodeInfo", constant.NodeInfo)] := rfl

theorem clusterInspectRuleNames_eq (task : InspectTask) :
    (NewExecuteRuleOptions task).clusterInspectRuleNames
      = [constant.Opa, constant.Prometheus, constant.ServiceConnect] := rfl

theorem clusterInspectRuleMap_lookup (task : InspectTask) (key cat k : String)
    (hpair : (key, cat) ∈ [("opas", constant.Opa), ("prometheus", constant.Prometheus),
      ("serviceConnect", constant.ServiceConnect)]) :
    (NewExecuteRuleOptions task).clusterInspectRuleMap.lookup k = some cat ↔ k = key := by
  rw [clusterInspectRuleMap_eq]
  have hinj : ∀ p ∈ [("opas", constant.Opa), ("prometheus", constant.Prometheus),
      ("serviceConnect", constant.ServiceConnect), ("fileChange", constant.FileChange),
      ("sysctl", constant.Sysctl), ("systemd", constant.Systemd),
      ("fileFilter", constant.FileFilter), ("customCommand", constant.CustomCommand),
      ("nodeInfo", constant.NodeInfo)],
      ∀ q ∈ [("opas", constant.Opa), ("prometheus", constant.Prometheus),
        ("serviceConnect", constant.ServiceConnect)], p.2 = q.2 → p.1 = q.1 := by decide
  have hfwd : ∀ q ∈ [("opas", constant.Opa), ("prometheus", constant.Prometheus),
      ("serviceConnect", constant.ServiceConnect)],
      [("opas", constant.Opa), ("prometheus", constant.Prometheus),
      ("serviceConnect", constant.ServiceConnect), ("fileChange", constant.FileChange),
      ("sysctl", constant.Sysctl), ("systemd", constant.Systemd),
      ("fileFilter", constant.FileFilter), ("customCommand", constant.CustomCommand),
      ("nodeInfo", constant.NodeInfo)].lookup q.1 = some q.2 := by decide
  constructor
  · intro h
    exact hinj (k, cat) (lookup_mem _ _ _ h) (key, cat) hpair rfl
  · intro h
    subst h
    exact hfwd (k, cat) hpair

theorem clusterInspectRuleMap_no_component (task : InspectTask) (k : String) :
    (NewExecuteRuleOptions task).clusterInspectRuleMap.lookup k ≠ some constant.Component := by
  rw [clusterInspectRuleMap_eq]
  have hne : ∀ p ∈ [("opas", constant.Opa), ("prometheus", constant.Prometheus),
      ("serviceConnect", constant.ServiceConnect), ("fileChange", constant.FileChange),
      ("sysctl", constant.Sysctl), ("systemd", constant.Systemd),
      ("fileFilter", constant.FileFilter), ("customCommand", constant.CustomCommand),
      ("nodeInfo", constant.NodeInfo)], p.2 ≠ constant.Component := by decide
  intro h
  exact hne (k, constant.Component) (lookup_mem _ _ _ h) rfl

/-- C6: for every merged rule map that is a well-formed map, every node list, and every
cluster-scoped category (`opas`, `prometheus`, `serviceConnect`) present in the map
with item list `v`, the jobs of that category returned by `GenerateJob` are exactly
one, and its payload is the whole list `v`. -/
theorem GenerateJob_cluster_scoped (rnd : Nat → String) (c : Nat) (task : InspectTask)
    (nodes : List Node) (rulesSpec : List (String × List Item)) (key cat : String)
    (v : List Item)
    (hpair : (key, cat) ∈ [("opas", constant.Opa), ("prometheus", constant.Prometheus),
      ("serviceConnect", constant.ServiceConnect)])
    (hnd : (rulesSpec.map Prod.fst).Nodup)
    (hv : rulesSpec.lookup key = some v) (_hne : v ≠ []) :
    ((GenerateJob rnd c (NewExecuteRuleOptions task) nodes rulesSpec).1.filter
        (fun j => decide (j.RuleType = cat))).map (fun j => j.RunRule) = [v] := by
  have h2 : utils.ArrayFind cat (NewExecuteRuleOptions task).clusterInspectRuleNames = true := by
    rw [clusterInspectRuleNames_eq]
    have hall : ∀ q ∈ [("opas", constant.Opa), ("prometheus", constant.Prometheus),
        ("serviceConnect", constant.ServiceConnect)],
        utils.ArrayFind q.2 [constant.Opa, constant.Prometheus, constant.ServiceConnect]
          = true := by decide
    exact hall (key, cat) hpair
  have hcomp : ¬ constant.Component = cat := by
    have hall : ∀ q ∈ [("opas", constant.Opa), ("prometheus", constant.Prometheus),
        ("serviceConnect", constant.ServiceConnect)], ¬ constant.Component = q.2 := by decide
    exact hall (key, cat) hpair
  rw [GenerateJob_eq, List.filter_append, List.map_append,
    GenerateJob_loop_cluster rnd _ nodes key cat h2
      (fun k => clusterInspectRuleMap_lookup task key cat k hpair),
    filter_key_of_nodup rulesSpec key v hnd hv]
  simp [List.filter_cons, hcomp]

/-- C7, evaluation at the failing input: for the merged map that holds the key `opas`
with an empty item list, `GenerateJob` returns a job of the policy category with an
empty payload, followed by the component job. -/
theorem GenerateJob_emits_job_for_empty_list :
    (GenerateJob (fun _ => "aaaaa") 0 (NewExecuteRuleOptions sampleTask) sampleNodes
        [("opas", [])]).1
      = [ { JobName := "task-opa-aaaaa", RuleType := constant.Opa, RunRule := [] },
          { JobName := "task-component-aaaaa", RuleType := constant.Component,
            RunRule := [] } ] := by
  decide

/-- C8: for every merged rule map, with or without a `componentExclude` entry, the list
returned by `GenerateJob` holds exactly one job whose category is component, and
its payload is the exclusion list of the map. -/
theorem GenerateJob_one_component_job (rnd : Nat → String) (c : Nat) (task : InspectTask)
    (nodes : List Node) (rulesSpec : List (String × List Item)) :
    ((GenerateJob rnd c (NewExecuteRuleOptions task) nodes rulesSpec).1.filter
        (fun j => decide (j.RuleType = constant.Component))).map (fun j => j.RunRule)
      = [mapGet rulesSpec "componentExclude"] := by
  rw [GenerateJob_eq, List.filter_append,
    GenerateJob_loop_other rnd _ nodes constant.Component
      (clusterInspectRuleMap_no_component task)]
  simp [List.filter_cons]

/-- Witness of C6 on the sample map, key `opas`. -/
theorem GenerateJob_cluster_scoped_witness :
    ((GenerateJob (fun _ => "aaaaa") 0 (NewExecuteRuleOptions sampleTask) sampleNodes
        sampleSpec).1.filter
        (fun j => decide (j.RuleType = constant.Opa))).map (fun j => j.RunRule)
      = [[sampleItem "p" none none]] :=
  GenerateJob_cluster_scoped (fun _ => "aaaaa") 0 sampleTask sampleNodes sampleSpec
    "opas" constant.Opa [sampleItem "p" none none]
    (by decide) (by decide) (by decide) (by decide)

/-! ### `SetRuleSchedule` -/

theorem SetRuleScheduleStep_found (rules : List InspectRule) (r : InspectRuleNames)
    (idx : Nat) (rule : InspectRule)
    (hfind : utils.ArrayFinds rules (fun m => r.Name == m.Name) = some (idx, rule)) :
    SetRuleScheduleStep rules [] r
      = [if (!utils.IsEmptyValue r.NodeName || r.NodeSelector.isSome) = true then
          { rule with Spec := { rule.Spec with Lists :=
              ((utils.StructToMap rule.Spec).map
                (fun kv => (kv.1, kv.2.map (setItemSchedule r)))) } }
         else rule] := by
  unfold SetRuleScheduleStep
  rw [hfind]
  by_cases h : (!utils.IsEmptyValue r.NodeName || r.NodeSelector.isSome) = true
  · simp [h]
  · simp [h]

theorem SetRuleScheduleStep_not_found (rules : List InspectRule) (r : InspectRuleNames)
    (hfind : utils.ArrayFinds rules (fun m => r.Name == m.Name) = none) :
    SetRuleScheduleStep rules [] r = [] := by
  unfold SetRuleScheduleStep
  rw [hfind]

theorem SetRuleScheduleStep_names (rules : List InspectRule) (r : InspectRuleNames) :
    (SetRuleScheduleStep rules [] r).map (fun m => m.Name)
      = if rules.any (fun m => r.Name == m.Name) then [r.Name] else [] := by
  cases hfind : utils.ArrayFinds rules (fun m => r.Name == m.Name) with
  | none =>
    rw [SetRuleScheduleStep_not_found rules r hfind]
    have hall := (utils.ArrayFinds_eq_none _ _).1 hfind
    have hany : rules.any (fun m => r.Name == m.Name) = false := by
      rw [List.any_eq_false]
      intro m hm
      simpa using hall m hm
    simp [hany]
  | some p =>
    obtain ⟨idx, rule⟩ := p
    rw [SetRuleScheduleStep_found rules r idx rule hfind]
    obtain ⟨hmem, hname⟩ := utils.ArrayFinds_some _ _ _ _ hfind
    have hany : rules.any (fun m => r.Name == m.Name) = true :=
      List.any_eq_true.2 ⟨rule, hmem, hname⟩
    have hn : rule.Name = r.Name := by
      have h0 : r.Name = rule.Name := by simpa using hname
      exact h0.symm
    rw [hany]
    by_cases h : (!utils.IsEmptyValue r.NodeName || r.NodeSelector.isSome) = true
    · simp [h, hn]
    · simp [h, hn]

/-- C9: let a requested rule name `r` carry a node-name or node-selector override and let
`rule` be the available rule selected for it.  Then `SetRuleSchedule` returns, at
the position of `r`, a rule with the same name, endpoint and category keys in
which every item that has neither a node name nor a node selector carries the
node name and the node selector of `r` verbatim, and every item that already has
a node name or a node selector is unchanged. -/
theorem SetRuleSchedule_override (e : ExecuteRule) (rules : List InspectRule)
    (pre post : List InspectRuleNames) (r : InspectRuleNames) (idx : Nat)
    (rule : InspectRule)
    (hnames : e.Task.RuleNames = pre ++ r :: post)
    (hfind : utils.ArrayFinds rules (fun m => r.Name == m.Name) = some (idx, rule))
    (hover : (!utils.IsEmptyValue r.NodeName || r.NodeSelector.isSome) = true) :
    ∃ out,
      SetRuleSchedule e rules
        = SetRuleSchedule { e with Task := { e.Task with RuleNames := pre } } rules
          ++ out
          :: SetRuleSchedule { e with Task := { e.Task with RuleNames := post } } rules ∧
      out.Name = rule.Name ∧
      out.Spec.PrometheusEndpoint = rule.Spec.PrometheusEndpoint ∧
      List.Forall₂
        (fun kv1 kv => kv1.1 = kv.1 ∧
          List.Forall₂
            (fun m1 m =>
              (m.nodeName = none ∧ m.nodeSelector = none →
                m1 = { m with nodeName := r.NodeName, nodeSelector := r.NodeSelector }) ∧
              (¬ (m.nodeName = none ∧ m.nodeSelector = none) → m1 = m))
            kv1.2 kv.2)
        out.Spec.Lists rule.Spec.Lists := by
  refine ⟨{ rule with Spec := { rule.Spec with Lists :=
      ((utils.StructToMap rule.Spec).map
        (fun kv => (kv.1, kv.2.map (setItemSchedule r)))) } }, ?_, rfl, rfl, ?_⟩
  · rw [SetRuleSchedule_eq_flatMap, SetRuleSchedule_eq_flatMap, SetRuleSchedule_eq_flatMap,
      hnames, List.flatMap_append, List.flatMap_cons,
      SetRuleScheduleStep_found rules r idx rule hfind, if_pos hover]
    rfl
  · simp only [utils.StructToMap]
    rw [List.forall₂_map_left_iff, List.forall₂_same]
    intro kv _
    refine ⟨rfl, ?_⟩
    rw [List.forall₂_map_left_iff, List.forall₂_same]
    intro m _
    constructor
    · rintro ⟨h1, h2⟩
      simp [setItemSchedule, h1, h2]
    · intro h
      have hg : (!m.nodeName.isSome && !m.nodeSelector.isSome) = false := by
        cases h1 : m.nodeName <;> cases h2 : m.nodeSelector <;> simp [h1, h2] at h ⊢
      unfold setItemSchedule
      rw [hg]
      rfl

/-- Witness of C9 on the sample task: the request `r2` carries the node name `n1`. -/
theorem SetRuleSchedule_override_witness :
    ∃ out,
      SetRuleSchedule (NewExecuteRuleOptions sampleTask) sampleRules
        = SetRuleSchedule { NewExecuteRuleOptions sampleTask with
              Task := { sampleTask with
                RuleNames := [⟨"r1", none, none⟩, ⟨"missing", none, none⟩] } } sampleRules
          ++ out
          :: SetRuleSchedule { NewExecuteRuleOptions sampleTask with
              Task := { sampleTask with RuleNames := [] } } sampleRules ∧
      out.Name = "r2" ∧
      out.Spec.PrometheusEndpoint = "" ∧
      List.Forall₂
        (fun kv1 kv => kv1.1 = kv.1 ∧
          List.Forall₂
            (fun m1 m =>
              (m.nodeName = none ∧ m.nodeSelector = none →
                m1 = { m with nodeName := some "n1", nodeSelector := none }) ∧
              (¬ (m.nodeName = none ∧ m.nodeSelector = none) → m1 = m))
            kv1.2 kv.2)
        out.Spec.Lists
        [("sysctl", [sampleItem "b" none none, sampleItem "c" (some "n2") none])] :=
  SetRuleSchedule_override (NewExecuteRuleOptions sampleTask) sampleRules
    [⟨"r1", none, none⟩, ⟨"missing", none, none⟩] [] ⟨"r2", some "n1", none⟩ 0
    ⟨"r2", ⟨"", [("sysctl", [sampleItem "b" none none, sampleItem "c" (some "n2") none])]⟩⟩
    (by decide) (by decide) (by decide)

/-- C10: for every list of available rules and every task, the names of the rules
`SetRuleSchedule` returns are, in the order of the request, exactly the requested
names that match some available rule; a requested name without a match contributes
nothing. -/
theorem SetRuleSchedule_names (e : ExecuteRule) (rules : List InspectRule) :
    (SetRuleSchedule e rules).map (fun m => m.Name)
      = (e.Task.RuleNames.map (fun r => r.Name)).filter
          (fun n => rules.any (fun m => n == m.Name)) := by
  rw [SetRuleSchedule_eq_flatMap]
  induction e.Task.RuleNames with
  | nil => simp
  | cons r rest ih =>
    rw [List.flatMap_cons, List.map_append, ih, SetRuleScheduleStep_names, List.map_cons,
      List.filter_cons]
    by_cases h : rules.any (fun m => r.Name == m.Name) = true
    · simp [h]
    · simp [h]

/-! ### `GetRuleTotal` -/

theorem lookup_mapSet {V : Type} (m : List (String × V)) (k k1 : String) (v : V) :
    (mapSet m k v).lookup k1 = if k = k1 then some v else m.lookup k1 := by
  induction m with
  | nil =>
    by_cases h : k = k1
    · subst h; simp [mapSet, List.lookup]
    · have h1 : (k1 == k) = false := by simpa using fun h2 => h h2.symm
      simp [mapSet, List.lookup, h, h1]
  | cons p rest ih =>
    obtain ⟨k2, v2⟩ := p
    by_cases h2 : k2 = k
    · subst h2
      by_cases h : k2 = k1
      · subst h; simp [mapSet, List.lookup]
      · have h1 : (k1 == k2) = false := by simpa using fun h3 => h h3.symm
        simp [mapSet, List.lookup, h, h1]
    · by_cases h3 : k1 = k2
      · subst h3
        have h4 : ¬ k = k1 := fun h5 => h2 h5.symm
        simp [mapSet, List.lookup, h2, h4]
      · have h1 : (k1 == k2) = false := by simpa using h3
        simp only [mapSet, h2, if_false, List.lookup, h1]
        exact ih

theorem MergeRuleEntry_eq (e : ExecuteRule)
    (st : List (String × List Item) × List (String × Nat)) (kv : String × List Item) :
    MergeRuleEntry e st kv
      = (mapSet st.1 kv.1 (keepFirst [] (mapGet st.1 kv.1 ++ kv.2)),
          mapSet st.2 ((e.clusterInspectRuleMap.lookup kv.1).getD "")
            (keepFirst [] (mapGet st.1 kv.1 ++ kv.2)).length) := by
  simp [MergeRuleEntry, RuleArrayDeduplication_eq]

/-- The invariant of the loops of `MergeRule` for one entry `key ↦ cat` of
`clusterInspectRuleMap`: the total of `cat` is the length of the list under
`key`, and the total of the component category is 1. -/
theorem MergeRuleEntry_total (task : InspectTask) (key cat : String)
    (hpair : (key, cat) ∈ (NewExecuteRuleOptions task).clusterInspectRuleMap)
    (st : List (String × List Item) × List (String × Nat)) (kv : String × List Item)
    (h : (st.2.lookup cat).getD 0 = (mapGet st.1 key).length ∧
      st.2.lookup constant.Component = some 1) :
    ((MergeRuleEntry (NewExecuteRuleOptions task) st kv).2.lookup cat).getD 0
        = (mapGet (MergeRuleEntry (NewExecuteRuleOptions task) st kv).1 key).length ∧
      (MergeRuleEntry (NewExecuteRuleOptions task) st kv).2.lookup constant.Component
        = some 1 := by
  rw [clusterInspectRuleMap_eq] at hpair
  have hlook : ∀ p ∈ [("opas", constant.Opa), ("prometheus", constant.Prometheus),
      ("serviceConnect", constant.ServiceConnect), ("fileChange", constant.FileChange),
      ("sysctl", constant.Sysctl), ("systemd", constant.Systemd),
      ("fileFilter", constant.FileFilter), ("customCommand", constant.CustomCommand),
      ("nodeInfo", constant.NodeInfo)],
      [("opas", constant.Opa), ("prometheus", constant.Prometheus),
      ("serviceConnect", constant.ServiceConnect), ("fileChange", constant.FileChange),
      ("sysctl", constant.Sysctl), ("systemd", constant.Systemd),
      ("fileFilter", constant.FileFilter), ("customCommand", constant.CustomCommand),
      ("nodeInfo", constant.NodeInfo)].lookup p.1 = some p.2 ∧ p.2 ≠ "" ∧
        p.2 ≠ constant.Component := by decide
  have hinj : ∀ p ∈ [("opas", constant.Opa), ("prometheus", constant.Prometheus),
      ("serviceConnect", constant.ServiceConnect), ("fileChange", constant.FileChange),
      ("sysctl", constant.Sysctl), ("systemd", constant.Systemd),
      ("fileFilter", constant.FileFilter), ("customCommand", constant.CustomCommand),
      ("nodeInfo", constant.NodeInfo)],
      ∀ q ∈ [("opas", constant.Opa), ("prometheus", constant.Prometheus),
      ("serviceConnect", constant.ServiceConnect), ("fileChange", constant.FileChange),
      ("sysctl", constant.Sysctl), ("systemd", constant.Systemd),
      ("fileFilter", constant.FileFilter), ("customCommand", constant.CustomCommand),
      ("nodeInfo", constant.NodeInfo)], p.2 = q.2 → p.1 = q.1 := by decide
  have hcomp : ¬ "" = constant.Component := by decide
  obtain ⟨hkey, hne, hnc⟩ := hlook (key, cat) hpair
  rw [MergeRuleEntry_eq, clusterInspectRuleMap_eq]
  simp only [lookup_mapSet, mapGet_mapSet]
  by_cases hk : kv.1 = key
  · rw [hk, hkey]
    simp only [Option.getD_some, if_true, Option.getD_some]
    refine ⟨trivial, ?_⟩
    rw [if_neg hnc]
    exact h.2
  · rw [if_neg hk]
    cases hl : List.lookup kv.1 [("opas", constant.Opa), ("prometheus", constant.Prometheus),
      ("serviceConnect", constant.ServiceConnect), ("fileChange", constant.FileChange),
      ("sysctl", constant.Sysctl), ("systemd", constant.Systemd),
      ("fileFilter", constant.FileFilter), ("customCommand", constant.CustomCommand),
      ("nodeInfo", constant.NodeInfo)] with
    | none =>
      simp only [Option.getD_none]
      rw [if_neg (fun h0 => hne h0.symm), if_neg hcomp]
      exact h
    | some c =>
      simp only [Option.getD_some]
      have hmem := lookup_mem _ _ _ hl
      have hc1 : ¬ c = cat := fun h0 => hk (hinj (kv.1, c) hmem (key, cat) hpair h0)
      have hc2 : ¬ c = constant.Component := (hlook (kv.1, c) hmem).2.2
      rw [if_neg hc1, if_neg hc2]
      exact h

theorem MergeRuleLoop_total (task : InspectTask) (key cat : String)
    (hpair : (key, cat) ∈ (NewExecuteRuleOptions task).clusterInspectRuleMap)
    (selected : List InspectRule) :
    (((MergeRuleLoop (NewExecuteRuleOptions task) selected).2.lookup cat).getD 0
        = (mapGet (MergeRuleLoop (NewExecuteRuleOptions task) selected).1 key).length) ∧
      (MergeRuleLoop (NewExecuteRuleOptions task) selected).2.lookup constant.Component
        = some 1 := by
  have hcat : ¬ constant.Component = cat := by
    rw [clusterInspectRuleMap_eq] at hpair
    have hall : ∀ p ∈ [("opas", constant.Opa), ("prometheus", constant.Prometheus),
      ("serviceConnect", constant.ServiceConnect), ("fileChange", constant.FileChange),
      ("sysctl", constant.Sysctl), ("systemd", constant.Systemd),
      ("fileFilter", constant.FileFilter), ("customCommand", constant.CustomCommand),
      ("nodeInfo", constant.NodeInfo)], ¬ constant.Component = p.2 := by decide
    exact hall (key, cat) hpair
  have inner : ∀ (lists : List (String × List Item))
      (st : List (String × List Item) × List (String × Nat)),
      ((st.2.lookup cat).getD 0 = (mapGet st.1 key).length ∧
        st.2.lookup constant.Component = some 1) →
      (((lists.foldl (MergeRuleEntry (NewExecuteRuleOptions task)) st).2.lookup cat).getD 0
          = (mapGet (lists.foldl (MergeRuleEntry (NewExecuteRuleOptions task)) st).1
              key).length ∧
        (lists.foldl (MergeRuleEntry (NewExecuteRuleOptions task)) st).2.lookup
          constant.Component = some 1) := by
    intro lists
    induction lists with
    | nil => intro st h; exact h
    | cons kv rest ih =>
      intro st h
      rw [List.foldl_cons]
      exact ih _ (MergeRuleEntry_total task key cat hpair st kv h)
  have outer : ∀ (rules : List InspectRule)
      (st : List (String × List Item) × List (String × Nat)),
      ((st.2.lookup cat).getD 0 = (mapGet st.1 key).length ∧
        st.2.lookup constant.Component = some 1) →
      (((rules.foldl (fun st rule => (utils.StructToMap rule.Spec).foldl
            (MergeRuleEntry (NewExecuteRuleOptions task)) st) st).2.lookup cat).getD 0
          = (mapGet (rules.foldl (fun st rule => (utils.StructToMap rule.Spec).foldl
            (MergeRuleEntry (NewExecuteRuleOptions task)) st) st).1 key).length ∧
        (rules.foldl (fun st rule => (utils.StructToMap rule.Spec).foldl
            (MergeRuleEntry (NewExecuteRuleOptions task)) st) st).2.lookup
          constant.Component = some 1) := by
    intro rules
    induction rules with
    | nil => intro st h; exact h
    | cons r rest ih =>
      intro st h
      rw [List.foldl_cons]
      exact ih _ (inner _ st h)
  apply outer
  constructor
  · have hb : (cat == constant.Component) = false := by
      simpa using fun h0 : cat = constant.Component => hcat h0.symm
    simp [List.lookup, mapGet, hb]
  · simp [List.lookup]

/-- C11: after `MergeRule`, for every category `cat` that `clusterInspectRuleMap` lists
under the key `key`, the total `GetRuleTotal` reports for `cat` (zero when the map
has no entry) is the length of the deduplicated item list `MergeRule` returned
under `key`; and the total of the component category is 1, hence at least 1,
whatever the rules contain. -/
theorem MergeRule_ruleTotal (task : InspectTask) (allRule : List InspectRule)
    (key cat : String)
    (hpair : (key, cat) ∈ (NewExecuteRuleOptions task).clusterInspectRuleMap) :
    (((GetRuleTotal (MergeRule (NewExecuteRuleOptions task) allRule).2).lookup cat).getD 0
        = (mapGet (MergeRule (NewExecuteRuleOptions task) allRule).1 key).length) ∧
      (GetRuleTotal (MergeRule (NewExecuteRuleOptions task) allRule).2).lookup
          constant.Component = some 1 ∧
      1 ≤ ((GetRuleTotal (MergeRule (NewExecuteRuleOptions task) allRule).2).lookup
          constant.Component).getD 0 := by
  have h := MergeRuleLoop_total task key cat hpair
    (SetPrometheusEndpoint (SetRuleSchedule (NewExecuteRuleOptions task) allRule))
  refine ⟨h.1, h.2, ?_⟩
  have h2 : (GetRuleTotal (MergeRule (NewExecuteRuleOptions task) allRule).2).lookup
      constant.Component = some 1 := h.2
  rw [h2]
  simp

/-- Witness of C11 on the sample task and rules, category sysctl: the merged list has
the three items `a`, `b`, `c`. -/
theorem MergeRule_ruleTotal_witness :
    (((GetRuleTotal (MergeRule (NewExecuteRuleOptions sampleTask) sampleRules).2).lookup
          constant.Sysctl).getD 0
        = (mapGet (MergeRule (NewExecuteRuleOptions sampleTask) sampleRules).1
            "sysctl").length) ∧
      (GetRuleTotal (MergeRule (NewExecuteRuleOptions sampleTask) sampleRules).2).lookup
          constant.Component = some 1 ∧
      1 ≤ ((GetRuleTotal (MergeRule (NewExecuteRuleOptions sampleTask) sampleRules).2).lookup
          constant.Component).getD 0 :=
  MergeRule_ruleTotal sampleTask sampleRules "sysctl" constant.Sysctl (by decide)

/-! ### Job names -/

theorem jobName_eq (taskName ruleType suffix : String) :
    (jobName taskName ruleType suffix).data
      = (taskName ++ "-" ++ ruleType ++ "-").data ++ suffix.data := by
  unfold jobName
  exact String.data_append _ _

theorem jobName_suffix_inj (t1 t2 c1 c2 s1 s2 : String)
    (h : jobName t1 c1 s1 = jobName t2 c2 s2) (hlen : s1.length = s2.length) : s1 = s2 := by
  have hd := congrArg String.data h
  rw [jobName_eq, jobName_eq] at hd
  have hl : s1.data.length = s2.data.length := hlen
  have := (List.append_inj' hd hl).2
  exact String.ext this

theorem emitJobs_length (rnd : Nat → String) (taskName ctlOrTem : String) (c : Nat)
    (ps : List (List Item)) : (emitJobs rnd taskName ctlOrTem c ps).length = ps.length := by
  induction ps generalizing c with
  | nil => simp [emitJobs]
  | cons v rest ih => simp [emitJobs, ih]

theorem NamedFrom_emitJobs (rnd : Nat → String) (taskName ctlOrTem : String) (c : Nat)
    (ps : List (List Item)) :
    NamedFrom rnd taskName c (emitJobs rnd taskName ctlOrTem c ps) := by
  induction ps generalizing c with
  | nil => simp [emitJobs, NamedFrom]
  | cons v rest ih => exact ⟨rfl, ih (c + 1)⟩

theorem NamedFrom_append (rnd : Nat → String) (taskName : String) (c : Nat)
    (xs ys : List JobRule) (hx : NamedFrom rnd taskName c xs)
    (hy : NamedFrom rnd taskName (c + xs.length) ys) :
    NamedFrom rnd taskName c (xs ++ ys) := by
  induction xs generalizing c with
  | nil => simpa using hy
  | cons x rest ih =>
    refine ⟨hx.1, ih (c + 1) hx.2 ?_⟩
    have : c + 1 + rest.length = c + (x :: rest).length := by
      simp only [List.length_cons]; omega
    rw [this]; exact hy

theorem NamedFrom_mem (rnd : Nat → String) (taskName : String) (c : Nat)
    (l : List JobRule) (h : NamedFrom rnd taskName c l) (j : JobRule) (hj : j ∈ l) :
    ∃ n, c ≤ n ∧ n < c + l.length ∧ j.JobName = jobName taskName j.RuleType (rnd n) := by
  induction l generalizing c with
  | nil => exact absurd hj (List.not_mem_nil _)
  | cons x rest ih =>
    rcases List.mem_cons.1 hj with hj | hj
    · subst hj
      exact ⟨c, le_refl _, by simp, h.1⟩
    · obtain ⟨n, h1, h2, h3⟩ := ih (c + 1) h.2 hj
      refine ⟨n, by omega, ?_, h3⟩
      simp only [List.length_cons]; omega

theorem NamedFrom_nodup (rnd : Nat → String) (taskName : String) (c : Nat)
    (l : List JobRule) (h : NamedFrom rnd taskName c l)
    (hlen : ∀ i, c ≤ i → i < c + l.length → (rnd i).length = 5)
    (hinj : ∀ i j, c ≤ i → i < c + l.length → c ≤ j → j < c + l.length →
      rnd i = rnd j → i = j) :
    (l.map (fun j => j.JobName)).Nodup := by
  induction l generalizing c with
  | nil => simp
  | cons x rest ih =>
    simp only [List.length_cons] at hlen hinj
    rw [List.map_cons, List.nodup_cons]
    constructor
    · intro hmem
      obtain ⟨y, hy, hxy⟩ := List.mem_map.1 hmem
      obtain ⟨n, h1, h2, h3⟩ := NamedFrom_mem rnd taskName (c + 1) rest h.2 y hy
      have hname : jobName taskName y.RuleType (rnd n) = jobName taskName x.RuleType (rnd c) := by
        rw [← h3, ← h.1]; exact hxy
      have hs := jobName_suffix_inj _ _ _ _ _ _ hname
        (by rw [hlen n (by omega) (by omega), hlen c (le_refl _) (by omega)])
      have := hinj n c (by omega) (by omega) (le_refl _) (by omega) hs
      omega
    · apply ih (c + 1) h.2
      · intro i h1 h2; exact hlen i (by omega) (by omega)
      · intro i j h1 h2 h3 h4 h5
        exact hinj i j (by omega) (by omega) (by omega) (by omega) h5

theorem AllocationRule_named (rnd : Nat → String) (c : Nat) (rule : List Item)
    (taskName : String) (allNode : List Node) (ctlOrTem : String) :
    ∃ jobs, AllocationRule rnd c rule taskName allNode ctlOrTem = (.ok jobs, c + jobs.length) ∧
      NamedFrom rnd taskName c jobs ∧ ∀ j ∈ jobs, j.RuleType = ctlOrTem := by
  by_cases hlen : 0 < (rule.filter
      (fun v => !(v.nodeName.isSome || v.nodeSelector.isSome))).length
  · refine ⟨emitJobs rnd taskName ctlOrTem c
        ((mergeNodeRule (rule.filter (fun v => v.nodeName.isSome || v.nodeSelector.isSome))
          allNode).map Prod.snd)
      ++ emitJobs rnd taskName ctlOrTem
        (c + (mergeNodeRule (rule.filter (fun v => v.nodeName.isSome || v.nodeSelector.isSome))
          allNode).length)
        (allNode.map (broadcastPayload
          (rule.filter (fun v => !(v.nodeName.isSome || v.nodeSelector.isSome))))), ?_, ?_, ?_⟩
    · simp only [AllocationRule, utils.ArrayFilter, gt_iff_lt, hlen, if_true]
      rw [List.length_append, emitJobs_length, emitJobs_length, List.length_map,
        List.length_map, Nat.add_assoc]
    · apply NamedFrom_append
      · exact NamedFrom_emitJobs _ _ _ _ _
      · rw [emitJobs_length, List.length_map]
        exact NamedFrom_emitJobs _ _ _ _ _
    · intro j hj
      rcases List.mem_append.1 hj with hj | hj
      · exact emitJobs_RuleType _ _ _ _ _ j hj
      · exact emitJobs_RuleType _ _ _ _ _ j hj
  · refine ⟨emitJobs rnd taskName ctlOrTem c
        ((mergeNodeRule (rule.filter (fun v => v.nodeName.isSome || v.nodeSelector.isSome))
          allNode).map Prod.snd), ?_, NamedFrom_emitJobs _ _ _ _ _,
        emitJobs_RuleType _ _ _ _ _⟩
    simp only [AllocationRule, utils.ArrayFilter, gt_iff_lt, hlen, if_false]
    rw [emitJobs_length, List.length_map]

theorem GenerateJobEntry_named (rnd : Nat → String) (e : ExecuteRule) (nodes : List Node)
    (st : List JobRule × Nat) (kv : String × List Item) :
    ∃ new, GenerateJobEntry rnd e nodes st kv = (st.1 ++ new, st.2 + new.length) ∧
      NamedFrom rnd e.Task.Name st.2 new := by
  unfold GenerateJobEntry
  cases e.clusterInspectRuleMap.lookup kv.1 with
  | none => exact ⟨[], by simp, trivial⟩
  | some mapV =>
    by_cases hc : utils.ArrayFind mapV e.clusterInspectRuleNames = true
    · refine ⟨[{ JobName := jobName e.Task.Name mapV (rnd st.2), RuleType := mapV,
                 RunRule := kv.2 }], ?_, ⟨rfl, trivial⟩⟩
      simp [hc, Allocation_some]
    · have hc1 : utils.ArrayFind mapV e.clusterInspectRuleNames = false := by simpa using hc
      obtain ⟨jobs, hres, hnamed, _⟩ :=
        AllocationRule_named rnd st.2 kv.2 e.Task.Name nodes mapV
      refine ⟨jobs, ?_, hnamed⟩
      simp only [hc1, Bool.false_eq_true, if_false, hres]

theorem GenerateJob_loop_named (rnd : Nat → String) (e : ExecuteRule) (nodes : List Node)
    (l : List (String × List Item)) (st : List JobRule × Nat) :
    ∃ new, l.foldl (GenerateJobEntry rnd e nodes) st = (st.1 ++ new, st.2 + new.length) ∧
      NamedFrom rnd e.Task.Name st.2 new := by
  induction l generalizing st with
  | nil => exact ⟨[], by simp, trivial⟩
  | cons kv rest ih =>
    obtain ⟨new1, h1, hn1⟩ := GenerateJobEntry_named rnd e nodes st kv
    obtain ⟨new2, h2, hn2⟩ := ih (st.1 ++ new1, st.2 + new1.length)
    refine ⟨new1 ++ new2, ?_, NamedFrom_append _ _ _ _ _ hn1 hn2⟩
    rw [List.foldl_cons, h1, h2]
    simp [List.append_assoc, Nat.add_assoc]

theorem GenerateJob_named (rnd : Nat → String) (c : Nat) (e : ExecuteRule)
    (nodes : List Node) (rulesSpec : List (String × List Item)) :
    ∃ jobs, GenerateJob rnd c e nodes rulesSpec = (jobs, c + jobs.length) ∧
      NamedFrom rnd e.Task.Name c jobs := by
  obtain ⟨new, h, hn⟩ := GenerateJob_loop_named rnd e nodes rulesSpec ([], c)
  refine ⟨new ++ [JobRule.mk (jobName e.Task.Name constant.Component (rnd (c + new.length)))
      constant.Component (mapGet rulesSpec "componentExclude")], ?_,
    NamedFrom_append _ _ _ _ _ hn ⟨rfl, trivial⟩⟩
  simp only [GenerateJob, h, Allocation_some, List.nil_append, List.length_append,
    List.length_singleton, Nat.add_assoc]

/-- C12, counterexample: when the random source returns the same suffix twice, two job
specs of one category get the same name; with the constant suffix `aaaaa` the
names `GenerateJob` produces for the sample map are not pairwise distinct. -/
theorem GenerateJob_names_collide :
    ¬ ((GenerateJob (fun _ => "aaaaa") 0 (NewExecuteRuleOptions sampleTask) sampleNodes
        sampleSpec).1.map (fun j => j.JobName)).Nodup := by
  decide

/-- C12 (amended): every job spec `Allocation` or `AllocationRule` produces has the name
`taskName-category-suffix`, the suffix being a value of the random source, and
carries that category as its type; and the names of all job specs that two
successive calls of `GenerateJob` produce for one task are pairwise distinct
provided the suffixes drawn during the two calls are pairwise distinct strings
of five characters. -/
theorem GenerateJob_names_distinct (rnd : Nat → String) (c : Nat) (e : ExecuteRule)
    (nodes1 nodes2 : List Node) (spec1 spec2 : List (String × List Item))
    (hlen : ∀ i, c ≤ i →
      i < (GenerateJob rnd (GenerateJob rnd c e nodes1 spec1).2 e nodes2 spec2).2 →
      (rnd i).length = 5)
    (hinj : ∀ i, c ≤ i →
      i < (GenerateJob rnd (GenerateJob rnd c e nodes1 spec1).2 e nodes2 spec2).2 →
      ∀ j, c ≤ j →
      j < (GenerateJob rnd (GenerateJob rnd c e nodes1 spec1).2 e nodes2 spec2).2 →
      rnd i = rnd j → i = j) :
    (∀ (rule : Option (List Item)) (taskName ruleType : String) (c1 c2 : Nat) (job : JobRule),
        Allocation rnd c1 rule taskName ruleType = (.ok job, c2) →
        job.JobName = taskName ++ "-" ++ ruleType ++ "-" ++ rnd c1 ∧
          job.RuleType = ruleType) ∧
      (∀ (rule : List Item) (taskName : String) (allNode : List Node) (ctlOrTem : String)
          (c1 : Nat),
        ∃ jobs, AllocationRule rnd c1 rule taskName allNode ctlOrTem
            = (.ok jobs, c1 + jobs.length) ∧
          ∀ j ∈ jobs, j.RuleType = ctlOrTem ∧
            ∃ n, c1 ≤ n ∧ n < c1 + jobs.length ∧
              j.JobName = taskName ++ "-" ++ ctlOrTem ++ "-" ++ rnd n) ∧
      (((GenerateJob rnd c e nodes1 spec1).1
          ++ (GenerateJob rnd (GenerateJob rnd c e nodes1 spec1).2 e nodes2 spec2).1).map
        (fun j => j.JobName)).Nodup := by
  refine ⟨?_, ?_, ?_⟩
  · intro rule taskName ruleType c1 c2 job h
    unfold Allocation at h
    split at h
    · simp at h
    · simp only [Prod.mk.injEq, Except.ok.injEq] at h
      rw [← h.1]
      exact ⟨rfl, rfl⟩
  · intro rule taskName allNode ctlOrTem c1
    obtain ⟨jobs, hres, hnamed, htypes⟩ :=
      AllocationRule_named rnd c1 rule taskName allNode ctlOrTem
    refine ⟨jobs, hres, fun j hj => ⟨htypes j hj, ?_⟩⟩
    obtain ⟨n, h1, h2, h3⟩ := NamedFrom_mem rnd taskName c1 jobs hnamed j hj
    refine ⟨n, h1, h2, ?_⟩
    rw [h3, htypes j hj]
    rfl
  · obtain ⟨jobs1, h1, hn1⟩ := GenerateJob_named rnd c e nodes1 spec1
    obtain ⟨jobs2, h2, hn2⟩ := GenerateJob_named rnd (c + jobs1.length) e nodes2 spec2
    rw [h1] at hlen hinj ⊢
    simp only at hlen hinj ⊢
    rw [h2] at hlen hinj ⊢
    simp only at hlen hinj ⊢
    have hnamed := NamedFrom_append rnd e.Task.Name c jobs1 jobs2 hn1 hn2
    apply NamedFrom_nodup rnd e.Task.Name c _ hnamed
    · intro i hi1 hi2
      rw [List.length_append, ← Nat.add_assoc] at hi2
      exact hlen i hi1 hi2
    · intro i j hi1 hi2 hj1 hj2 hij
      rw [List.length_append, ← Nat.add_assoc] at hi2 hj2
      exact hinj i hi1 hi2 j hj1 hj2 hij

/-- Witness of C12 (amended): two calls of `GenerateJob` for the sample task with six
distinct suffixes. -/
theorem GenerateJob_names_distinct_witness :
    (((GenerateJob sampleRnd 0 (NewExecuteRuleOptions sampleTask) sampleNodes sampleSpec).1
        ++ (GenerateJob sampleRnd
            (GenerateJob sampleRnd 0 (NewExecuteRuleOptions sampleTask) sampleNodes
              sampleSpec).2
            (NewExecuteRuleOptions sampleTask) sampleNodes []).1).map
      (fun j => j.JobName)).Nodup :=
  (GenerateJob_names_distinct sampleRnd 0 (NewExecuteRuleOptions sampleTask) sampleNodes
    sampleNodes sampleSpec [] (by decide) (by decide)).2.2

/-! ### `GetStatus` -/

theorem GetStatus_of_nil (task : InspectTask) (h : task.JobPhase = none) :
    GetStatus task = Phase.Failed := by
  simp [GetStatus, h]

theorem GetStatus_of_failed (task : InspectTask) (l : List JobPhase)
    (h : task.JobPhase = some l) (hf : ∃ m ∈ l, m.Phase = Phase.Failed) :
    GetStatus task = Phase.Failed := by
  obtain ⟨m, hm, hp⟩ := hf
  cases hfind : utils.ArrayFinds l (fun m => decide (m.Phase = Phase.Failed)) with
  | none =>
    have := (utils.ArrayFinds_eq_none _ _).1 hfind m hm
    simp [hp] at this
  | some p => simp [GetStatus, h, hfind]

theorem GetStatus_of_no_failed (task : InspectTask) (l : List JobPhase)
    (h : task.JobPhase = some l) (hf : ¬ ∃ m ∈ l, m.Phase = Phase.Failed) :
    GetStatus task = Phase.Succeeded := by
  cases hfind : utils.ArrayFinds l (fun m => decide (m.Phase = Phase.Failed)) with
  | none => simp [GetStatus, h, hfind]
  | some p =>
    obtain ⟨i, m⟩ := p
    obtain ⟨hm, hp⟩ := utils.ArrayFinds_some _ _ _ _ hfind
    exact absurd ⟨m, hm, by simpa using hp⟩ hf

/-- C18: for every task, `GetStatus` is `Failed` exactly when the job-outcome list of the
task is nil or holds an outcome with phase `Failed`, and it is `Succeeded` in every
other case. -/
theorem GetStatus_failed_iff (task : InspectTask) :
    (GetStatus task = Phase.Failed ↔
        (task.JobPhase = none ∨
          ∃ l, task.JobPhase = some l ∧ ∃ m ∈ l, m.Phase = Phase.Failed)) ∧
      (GetStatus task ≠ Phase.Failed → GetStatus task = Phase.Succeeded) := by
  cases hj : task.JobPhase with
  | none =>
    have h := GetStatus_of_nil task hj
    exact ⟨⟨fun _ => Or.inl rfl, fun _ => h⟩, fun hne => absurd h hne⟩
  | some l =>
    by_cases hf : ∃ m ∈ l, m.Phase = Phase.Failed
    · have h := GetStatus_of_failed task l hj hf
      exact ⟨⟨fun _ => Or.inr ⟨l, rfl, hf⟩, fun _ => h⟩, fun hne => absurd h hne⟩
    · have h := GetStatus_of_no_failed task l hj hf
      refine ⟨⟨fun h1 => ?_, fun h1 => ?_⟩, fun _ => h⟩
      · rw [h] at h1; exact absurd h1 (by decide)
      · rcases h1 with h1 | ⟨l1, h2, h3⟩
        · exact absurd h1 (by simp)
        · simp only [Option.some.injEq] at h2
          subst h2
          exact absurd h3 hf

/-! ### The concurrency budget -/

theorem mathRound_of_nonneg (x : ℚ) (h : 0 ≤ x) : mathRound x = round x := by
  rw [mathRound, if_pos h, round_eq]

theorem concurrency_eq_max (nodes : List Node) (inspectRule : List JobRule) :
    concurrency nodes inspectRule
      = max 5 (round ((nodes.length : ℚ) + 0.1 * (inspectRule.length : ℚ))) := by
  have hx : (0 : ℚ) ≤ (nodes.length : ℚ) + (inspectRule.length : ℚ) * (1 / 10) := by
    positivity
  have he : (nodes.length : ℚ) + 0.1 * (inspectRule.length : ℚ)
      = (nodes.length : ℚ) + (inspectRule.length : ℚ) * (1 / 10) := by
    norm_num
    ring
  unfold concurrency
  simp only
  rw [mathRound_of_nonneg _ hx, he]
  split
  · rw [max_eq_right]; omega
  · rw [max_eq_left]; omega

theorem concurrency_of_lengths (nodes : List Node) (inspectRule : List JobRule) (n m : ℕ)
    (r : ℤ) (hn : nodes.length = n) (hm : inspectRule.length = m)
    (h1 : (r : ℚ) ≤ (n : ℚ) + (m : ℚ) * (1 / 10) + 1 / 2)
    (h2 : (n : ℚ) + (m : ℚ) * (1 / 10) + 1 / 2 < (r : ℚ) + 1) :
    concurrency nodes inspectRule = if r > 5 then r else 5 := by
  have hx : (0 : ℚ) ≤ (n : ℚ) + (m : ℚ) * (1 / 10) := by positivity
  have hr : mathRound ((n : ℚ) + (m : ℚ) * (1 / 10)) = r := by
    rw [mathRound, if_pos hx]
    exact Int.floor_eq_iff.2 ⟨h1, h2⟩
  unfold concurrency
  simp only
  rw [hn, hm, hr]

/-- C13, counterexample: with five nodes and the six job specs of a run that has two
rule categories (five sysctl jobs and the component job) the budget is 6, while
the formula evaluated at the number of rule categories gives 5. -/
theorem concurrency_counts_job_specs :
    concurrency sampleFiveNodes sampleSixJobs = 6 ∧
      ((sampleSixJobs.map (fun j => j.RuleType)).dedup.length = 2) ∧
      ¬ (concurrency sampleFiveNodes sampleSixJobs
          = max 5 (round ((sampleFiveNodes.length : ℚ)
              + 0.1 * (((sampleSixJobs.map (fun j => j.RuleType)).dedup.length : ℕ) : ℚ)))) := by
  have hc : concurrency sampleFiveNodes sampleSixJobs = 6 := by
    rw [concurrency_of_lengths sampleFiveNodes sampleSixJobs 5 6 6 rfl rfl
      (by norm_num) (by norm_num)]
    decide
  have hd : (sampleSixJobs.map (fun j => j.RuleType)).dedup.length = 2 := by decide
  refine ⟨hc, hd, ?_⟩
  rw [hc, hd]
  have hround : round ((sampleFiveNodes.length : ℚ) + 0.1 * ((2 : ℕ) : ℚ)) = 5 := by
    rw [round_eq]
    apply Int.floor_eq_iff.2
    constructor
    · simp [sampleFiveNodes]; norm_num
    · simp [sampleFiveNodes]; norm_num
  rw [hround]
  decide

/-- C13 (amended): for every node list and every list of job specs handed to
`createJobsInspect`, the concurrency budget is
`max(5, round(nodeCount + 0.1 * jobSpecCount))`, where `jobSpecCount` is the length
of the job-spec list; it is never below 5, it is 5 for 3 nodes and 2 job specs and
51 for 50 nodes and 10 job specs. -/
theorem concurrency_budget (nodes : List Node) (inspectRule : List JobRule) :
    concurrency nodes inspectRule
        = max 5 (round ((nodes.length : ℚ) + 0.1 * (inspectRule.length : ℚ))) ∧
      5 ≤ concurrency nodes inspectRule ∧
      (nodes.length = 3 → inspectRule.length = 2 → concurrency nodes inspectRule = 5) ∧
      (nodes.length = 50 → inspectRule.length = 10 → concurrency nodes inspectRule = 51) := by
  refine ⟨concurrency_eq_max nodes inspectRule, ?_, ?_, ?_⟩
  · rw [concurrency_eq_max]; exact le_max_left _ _
  · intro hn hm
    rw [concurrency_of_lengths nodes inspectRule 3 2 3 hn hm (by norm_num) (by norm_num)]
    decide
  · intro hn hm
    rw [concurrency_of_lengths nodes inspectRule 50 10 51 hn hm (by norm_num) (by norm_num)]
    decide

/-! ### The dispatcher -/

theorem isTimeout_eq (x : Externals) (startTime : Int) (t : String) (now : Int) :
    isTimeout x startTime t now
      = decide (startTime + (x.ParseDuration t).getD x.DefaultTimeout < now) := by
  unfold isTimeout
  cases x.ParseDuration t <;> rfl

/-- A unit of work taken as a whole that starts at a time `now` later than the creation
time of the task plus the timeout (the default timeout when the timeout string
does not parse) appends the outcome `Failed` under the name of the job spec,
sends no request (neither the artifact lookup nor the job creation) and leaves
the cluster as it is. -/
theorem inspectJob_after_deadline (x : Externals) (inspectTask : InspectTask) (env : JobEnv)
    (st : DispatchState) (v : JobRule)
    (h : env.now > inspectTask.CreationTimestamp
      + (x.ParseDuration inspectTask.Timeout).getD x.DefaultTimeout) :
    (inspectJob x inspectTask env st v).jobNames
        = st.jobNames ++ [{ JobName := v.JobName, Phase := Phase.Failed }] ∧
      (inspectJob x inspectTask env st v).calls = st.calls ∧
      (inspectJob x inspectTask env st v).cluster = st.cluster := by
  have ht : isTimeout x inspectTask.CreationTimestamp inspectTask.Timeout env.now = true := by
    rw [isTimeout_eq]
    exact decide_eq_true h
  simp [inspectJob, ht]

/-- An instance: the sample task (created at 1000, timeout 600 seconds) and a unit of
work that starts at time 1601. -/
theorem inspectJob_after_deadline_witness :
    (inspectJob sampleExternals sampleDispatchTask (sampleJobEnv 1601 1700)
        sampleDispatchState ⟨"task-sysctl-aaaaa", constant.Sysctl, []⟩).jobNames
        = sampleDispatchState.jobNames
          ++ [{ JobName := "task-sysctl-aaaaa", Phase := Phase.Failed }] ∧
      (inspectJob sampleExternals sampleDispatchTask (sampleJobEnv 1601 1700)
        sampleDispatchState ⟨"task-sysctl-aaaaa", constant.Sysctl, []⟩).calls
        = sampleDispatchState.calls ∧
      (inspectJob sampleExternals sampleDispatchTask (sampleJobEnv 1601 1700)
        sampleDispatchState ⟨"task-sysctl-aaaaa", constant.Sysctl, []⟩).cluster
        = sampleDispatchState.cluster :=
  inspectJob_after_deadline sampleExternals sampleDispatchTask (sampleJobEnv 1601 1700)
    sampleDispatchState ⟨"task-sysctl-aaaaa", constant.Sysctl, []⟩ (by decide)

theorem isExistsJob_of_exists (w : Cluster) (getFails : Bool) (jobName : String)
    (h : ∃ cm ∈ w.ConfigMaps, cm.Name = jobName) :
    ∃ msg, isExistsJob w getFails jobName = some msg := by
  unfold isExistsJob getConfigMap
  by_cases hf : getFails = true
  · simp [hf]
  · have hany : w.ConfigMaps.any (fun cm => cm.Name == jobName) = true := by
      obtain ⟨cm, hcm, hn⟩ := h
      exact List.any_eq_true.2 ⟨cm, hcm, by simp [hn]⟩
    simp [hf, hany]

theorem inspectJob_of_exists (x : Externals) (inspectTask : InspectTask) (env : JobEnv)
    (st : DispatchState) (v : JobRule)
    (hnow : isTimeout x inspectTask.CreationTimestamp inspectTask.Timeout env.now = false)
    (hex : ∃ cm ∈ st.cluster.ConfigMaps, cm.Name = v.JobName) :
    inspectJob x inspectTask env st v
      = { st with
          jobNames := st.jobNames ++ [{ JobName := v.JobName, Phase := Phase.Succeeded }]
          calls := st.calls ++ [Call.GetConfigMap v.JobName] } := by
  obtain ⟨msg, hmsg⟩ := isExistsJob_of_exists st.cluster env.getFails v.JobName hex
  simp [inspectJob, hnow, hmsg]

/-- C15: for every job spec processed before the deadline whose backing artifact
exists, the dispatcher records `Succeeded` under the name of the job spec, sends
only the artifact lookup, creates no backing job and leaves the cluster (and so
the artifact) as it is; processing the same job spec a second time, again before
the deadline, records `Succeeded` once more and again creates no backing job. -/
theorem inspectJob_idempotent (x : Externals) (inspectTask : InspectTask)
    (env1 env2 : JobEnv) (st : DispatchState) (v : JobRule)
    (hnow1 : ¬ env1.now > inspectTask.CreationTimestamp
      + (x.ParseDuration inspectTask.Timeout).getD x.DefaultTimeout)
    (hnow2 : ¬ env2.now > inspectTask.CreationTimestamp
      + (x.ParseDuration inspectTask.Timeout).getD x.DefaultTimeout)
    (hex : ∃ cm ∈ st.cluster.ConfigMaps, cm.Name = v.JobName) :
    (inspectJob x inspectTask env1 st v).jobNames
        = st.jobNames ++ [{ JobName := v.JobName, Phase := Phase.Succeeded }] ∧
      (inspectJob x inspectTask env1 st v).calls
        = st.calls ++ [Call.GetConfigMap v.JobName] ∧
      (inspectJob x inspectTask env1 st v).cluster = st.cluster ∧
      (inspectJob x inspectTask env2 (inspectJob x inspectTask env1 st v) v).jobNames
        = st.jobNames ++ [{ JobName := v.JobName, Phase := Phase.Succeeded },
            { JobName := v.JobName, Phase := Phase.Succeeded }] ∧
      (inspectJob x inspectTask env2 (inspectJob x inspectTask env1 st v) v).calls
        = st.calls ++ [Call.GetConfigMap v.JobName, Call.GetConfigMap v.JobName] ∧
      (inspectJob x inspectTask env2 (inspectJob x inspectTask env1 st v) v).cluster
        = st.cluster := by
  have h1 : isTimeout x inspectTask.CreationTimestamp inspectTask.Timeout env1.now = false := by
    rw [isTimeout_eq]; exact decide_eq_false hnow1
  have h2 : isTimeout x inspectTask.CreationTimestamp inspectTask.Timeout env2.now = false := by
    rw [isTimeout_eq]; exact decide_eq_false hnow2
  rw [inspectJob_of_exists x inspectTask env1 st v h1 hex]
  rw [inspectJob_of_exists x inspectTask env2
    { st with
      jobNames := st.jobNames ++ [{ JobName := v.JobName, Phase := Phase.Succeeded }]
      calls := st.calls ++ [Call.GetConfigMap v.JobName] } v h2 hex]
  simp

/-- Witness of C15: the artifact of `task-sysctl-aaaaa` exists in the sample cluster
and both units of work start before time 1600. -/
theorem inspectJob_idempotent_witness :
    (inspectJob sampleExternals sampleDispatchTask (sampleJobEnv 1100 1200)
        sampleDispatchState ⟨"task-sysctl-aaaaa", constant.Sysctl, []⟩).cluster
        = sampleDispatchState.cluster ∧
      (inspectJob sampleExternals sampleDispatchTask (sampleJobEnv 1300 1400)
        (inspectJob sampleExternals sampleDispatchTask (sampleJobEnv 1100 1200)
          sampleDispatchState ⟨"task-sysctl-aaaaa", constant.Sysctl, []⟩)
        ⟨"task-sysctl-aaaaa", constant.Sysctl, []⟩).jobNames
        = sampleDispatchState.jobNames
          ++ [{ JobName := "task-sysctl-aaaaa", Phase := Phase.Succeeded },
              { JobName := "task-sysctl-aaaaa", Phase := Phase.Succeeded }] :=
  ⟨(inspectJob_idempotent sampleExternals sampleDispatchTask (sampleJobEnv 1100 1200)
      (sampleJobEnv 1300 1400) sampleDispatchState ⟨"task-sysctl-aaaaa", constant.Sysctl, []⟩
      (by decide) (by decide) (by decide)).2.2.1,
    (inspectJob_idempotent sampleExternals sampleDispatchTask (sampleJobEnv 1100 1200)
      (sampleJobEnv 1300 1400) sampleDispatchState ⟨"task-sysctl-aaaaa", constant.Sysctl, []⟩
      (by decide) (by decide) (by decide)).2.2.2.1⟩

theorem waitLoop_terminal (x : Externals) (env : JobEnv) (jobName timeout : String)
    (k : Nat) (now : Int) (w : Cluster) (calls : List Call) (jobPhase : JobPhase)
    (h : env.jobCreation + (x.ParseDuration timeout).getD x.DefaultTimeout - now
      < 10 * (k : Int)) :
    (waitLoop x env jobName timeout (k + 1) now w calls jobPhase).1.JobName
        = jobPhase.JobName ∧
      ((waitLoop x env jobName timeout (k + 1) now w calls jobPhase).1.Phase
          = Phase.Succeeded ∨
        (waitLoop x env jobName timeout (k + 1) now w calls jobPhase).1.Phase
          = Phase.Failed) ∧
      (waitLoop x env jobName timeout (k + 1) now w calls jobPhase).2.1.ConfigMaps
        = w.ConfigMaps := by
  induction k generalizing now calls with
  | zero =>
    unfold waitLoop
    by_cases hg : env.jobGetFails now = true
    · simp [hg]
    · have ht : isTimeout x env.jobCreation timeout now = true := by
        rw [isTimeout_eq]
        apply decide_eq_true
        simp only [Nat.cast_zero, mul_zero] at h
        omega
      simp [hg, ht]
  | succ k ih =>
    unfold waitLoop
    by_cases hg : env.jobGetFails now = true
    · simp [hg]
    · by_cases ht : isTimeout x env.jobCreation timeout now = true
      · simp [hg, ht]
      · by_cases hc : env.completed now = true
        · simp [hg, ht, hc]
        · simp only [hg, ht, hc, Bool.false_eq_true, if_false]
          apply ih
          push_cast at h ⊢
          omega

theorem waitForJobCompletionGetResult_terminal (x : Externals) (env : JobEnv) (w : Cluster)
    (calls : List Call) (jobName : String) (jobPhase : JobPhase) (timeout : String) :
    (waitForJobCompletionGetResult x env w calls jobName jobPhase timeout).1.JobName
        = jobPhase.JobName ∧
      ((waitForJobCompletionGetResult x env w calls jobName jobPhase timeout).1.Phase
          = Phase.Succeeded ∨
        (waitForJobCompletionGetResult x env w calls jobName jobPhase timeout).1.Phase
          = Phase.Failed) ∧
      (waitForJobCompletionGetResult x env w calls jobName jobPhase timeout).2.1.ConfigMaps
        = w.ConfigMaps := by
  have hfuel : waitFuel x env timeout
      = ((env.jobCreation + (x.ParseDuration timeout).getD x.DefaultTimeout
          - env.pollStart).toNat / 10 + 1) + 1 := by
    unfold waitFuel
    cases x.ParseDuration timeout <;> rfl
  unfold waitForJobCompletionGetResult
  rw [hfuel]
  apply waitLoop_terminal
  push_cast
  omega

/-- What one unit of work records when the category of the job spec has a registered
operator: one outcome with the name of the job spec and a terminal phase; the
config artifacts of the cluster are not touched. -/
theorem inspectJob_registered (x : Externals) (inspectTask : InspectTask) (env : JobEnv)
    (st : DispatchState) (v : JobRule) (hreg : v.RuleType ∈ x.RuleOperatorMap) :
    ∃ o, (inspectJob x inspectTask env st v).jobNames = st.jobNames ++ [o] ∧
      o.JobName = v.JobName ∧ (o.Phase = Phase.Succeeded ∨ o.Phase = Phase.Failed) := by
  by_cases ht : isTimeout x inspectTask.CreationTimestamp inspectTask.Timeout env.now = true
  · exact ⟨{ JobName := v.JobName, Phase := Phase.Failed }, by simp [inspectJob, ht], rfl,
      Or.inr rfl⟩
  · cases he : isExistsJob st.cluster env.getFails v.JobName with
    | some msg =>
      exact ⟨{ JobName := v.JobName, Phase := Phase.Succeeded },
        by simp [inspectJob, ht, he], rfl, Or.inl rfl⟩
    | none =>
      by_cases hf : env.createFails = true
      · exact ⟨{ JobName := v.JobName, Phase := Phase.Failed },
          by simp [inspectJob, ht, he, hreg, CreateJobTask, hf], rfl, Or.inr rfl⟩
      · have hterm := waitForJobCompletionGetResult_terminal x env
          { ConfigMaps := st.cluster.ConfigMaps, Jobs := st.cluster.Jobs ++ [v.JobName] }
          (st.calls ++ [Call.GetConfigMap v.JobName, Call.CreateJobTask v.JobName])
          v.JobName { JobName := v.JobName, Phase := Phase.Running } inspectTask.Timeout
        exact ⟨(waitForJobCompletionGetResult x env
            { ConfigMaps := st.cluster.ConfigMaps, Jobs := st.cluster.Jobs ++ [v.JobName] }
            (st.calls ++ [Call.GetConfigMap v.JobName, Call.CreateJobTask v.JobName])
            v.JobName { JobName := v.JobName, Phase := Phase.Running } inspectTask.Timeout).1,
          by simp [inspectJob, ht, he, hreg, CreateJobTask, hf], hterm.1, hterm.2.1⟩

/-! ### The units of work of `createJobsInspect` -/

theorem inspectJob_eq_inspectUnit (x : Externals) (inspectTask : InspectTask) (env : JobEnv)
    (st : DispatchState) (v : JobRule) :
    inspectJob x inspectTask env st v
      = { jobNames := st.jobNames
            ++ ((inspectUnit x inspectTask env st.cluster st.calls v).1.map Prod.fst).toList
          cluster := (inspectUnit x inspectTask env st.cluster st.calls v).2.1
          calls := (inspectUnit x inspectTask env st.cluster st.calls v).2.2 } := by
  unfold inspectJob inspectUnit
  by_cases ht : isTimeout x inspectTask.CreationTimestamp inspectTask.Timeout env.now = true
  · simp [ht]
  · cases he : isExistsJob st.cluster env.getFails v.JobName with
    | some msg => simp [ht]
    | none =>
      by_cases hreg : v.RuleType ∈ x.RuleOperatorMap
      · by_cases hf : env.createFails = true
        · simp [ht, hreg, CreateJobTask, hf]
        · simp [ht, hreg, CreateJobTask, hf]
      · simp [ht, hreg]

theorem concurrency_of_two_jobs (inspectRule : List JobRule) (h : inspectRule.length = 2) :
    concurrency sampleFiveNodes inspectRule = 5 := by
  rw [concurrency_of_lengths sampleFiveNodes inspectRule 5 2 5 rfl h (by norm_num)
    (by norm_num)]
  decide

/-- C14, evaluation at the failing input: the sample task was created at time 1000
with the timeout `10m`, and the units of two job specs both start at time 1700,
past the deadline 1600.  When both units read `jobNames` before either stores
its extended slice, `createJobsInspect` returns a list with the outcome `Failed`
of the second job spec only: no outcome is recorded for the first job spec.  No
lookup and no creation is sent.  When the units run one after the other, both
outcomes are recorded. -/
theorem createJobsInspect_loses_failed_outcome :
    createJobsInspect sampleExternals sampleDispatchTask (fun _ => sampleJobEnv 1700 1800)
        false [0, 1, 0, 1, 0, 1] sampleCluster sampleFiveNodes sampleTwoJobs
      = some (.ok [{ JobName := "task-sysctl-aaaac", Phase := Phase.Failed }],
          sampleCluster, [Call.DeleteRuleGroup]) ∧
    createJobsInspect sampleExternals sampleDispatchTask (fun _ => sampleJobEnv 1700 1800)
        false [0, 0, 0, 1, 1, 1] sampleCluster sampleFiveNodes sampleTwoJobs
      = some (.ok [{ JobName := "task-sysctl-aaaab", Phase := Phase.Failed },
            { JobName := "task-sysctl-aaaac", Phase := Phase.Failed }],
          sampleCluster, [Call.DeleteRuleGroup]) := by
  unfold createJobsInspect
  rw [concurrency_of_two_jobs sampleTwoJobs rfl]
  exact ⟨rfl, rfl⟩

/-- C16, evaluation at the failing input: two job specs of a registered category are
processed before the deadline; the artifact of the first exists, the creation of
the backing job of the second fails.  The second unit reads `jobNames` without
the mutex before the first unit appends its outcome `Succeeded` under the mutex,
and stores its extended slice after it: `createJobsInspect` returns a list with
the outcome of the second job spec only, the first job spec is left without an
outcome.  When the second unit runs first, the list holds both outcomes, in the
order in which the units finish. -/
theorem createJobsInspect_loses_outcome :
    createJobsInspect sampleExternals sampleDispatchTask (fun _ => sampleFailingCreateEnv)
        false [0, 1, 1, 0, 0, 1] sampleCluster sampleFiveNodes sampleResumedJobs
      = some (.ok [{ JobName := "task-sysctl-aaaab", Phase := Phase.Failed }],
          sampleCluster,
          [Call.GetConfigMap "task-sysctl-aaaaa", Call.GetConfigMap "task-sysctl-aaaab",
            Call.CreateJobTask "task-sysctl-aaaab", Call.DeleteRuleGroup]) ∧
    createJobsInspect sampleExternals sampleDispatchTask (fun _ => sampleFailingCreateEnv)
        false [1, 1, 1, 0, 0, 0] sampleCluster sampleFiveNodes sampleResumedJobs
      = some (.ok [{ JobName := "task-sysctl-aaaab", Phase := Phase.Failed },
            { JobName := "task-sysctl-aaaaa", Phase := Phase.Succeeded }],
          sampleCluster,
          [Call.GetConfigMap "task-sysctl-aaaab", Call.CreateJobTask "task-sysctl-aaaab",
            Call.GetConfigMap "task-sysctl-aaaaa", Call.DeleteRuleGroup]) := by
  unfold createJobsInspect
  rw [concurrency_of_two_jobs sampleResumedJobs rfl]
  exact ⟨rfl, rfl⟩

/-- A job spec whose category has no registered operator, processed before the
deadline while its artifact does not exist, gets no outcome at all: the outcome
list returned for the single node-info job spec is empty. -/
theorem createJobsInspect_skips_unknown_category :
    createJobsInspect sampleExternals sampleDispatchTask (fun _ => sampleJobEnv 1100 1200)
        false [0] sampleCluster [] [⟨"task-nodeinfo-aaaab", constant.NodeInfo, []⟩]
      = some (.ok [], sampleCluster,
          [Call.GetConfigMap "task-nodeinfo-aaaab", Call.DeleteRuleGroup]) := by
  have hb : concurrency [] [⟨"task-nodeinfo-aaaab", constant.NodeInfo, []⟩] = 5 := by
    rw [concurrency_of_lengths [] [⟨"task-nodeinfo-aaaab", constant.NodeInfo, []⟩] 0 1 0
      rfl rfl (by norm_num) (by norm_num)]
    decide
  unfold createJobsInspect
  rw [hb]
  rfl

theorem units_getElem (ds ws : List UnitState) (u : UnitState) :
    (ds ++ u :: ws)[ds.length]? = some u := by
  rw [List.getElem?_append_right (le_refl _)]
  simp

theorem units_set (ds ws : List UnitState) (u v : UnitState) :
    (ds ++ u :: ws).set ds.length v = ds ++ v :: ws := by
  simp [List.set_append]

theorem units_count_done (ds ws : List UnitState) (u : UnitState)
    (h : ∀ d ∈ ds, d = UnitState.done) :
    ds.length ≤ (ds ++ u :: ws).count UnitState.done := by
  rw [List.count_append]
  have hc : ds.count UnitState.done = ds.length :=
    List.count_eq_length.2 (fun d hd => (h d hd).symm)
  omega

theorem stepUnit_waiting (x : Externals) (inspectTask : InspectTask) (envs : Nat → JobEnv)
    (budget : ℤ) (inspectRule : List JobRule) (s : RunState) (ds ws : List UnitState)
    (v : JobRule) (hu : s.units = ds ++ UnitState.waiting :: ws)
    (hds : ∀ d ∈ ds, d = UnitState.done) (hv : inspectRule[ds.length]? = some v)
    (hb : 0 < budget) :
    stepUnit x inspectTask envs budget inspectRule s ds.length
      = match inspectUnit x inspectTask (envs ds.length) s.cluster s.calls v with
        | (some (outcome, locked), w, calls) =>
          { s with cluster := w, calls := calls,
                   units := ds ++ UnitState.ready outcome locked :: ws }
        | (none, w, calls) =>
          { s with cluster := w, calls := calls, units := ds ++ UnitState.done :: ws } := by
  have hget : s.units[ds.length]? = some UnitState.waiting := by
    rw [hu]; exact units_getElem ds ws _
  have hcount : (ds.length : ℤ)
      < ((ds ++ UnitState.waiting :: ws).count UnitState.done : ℤ) + budget := by
    have h1 := units_count_done ds ws UnitState.waiting hds
    omega
  unfold stepUnit
  rw [hget]
  simp only [hv, hu, units_set, hcount, if_true]

theorem stepUnit_ready_unlocked (x : Externals) (inspectTask : InspectTask)
    (envs : Nat → JobEnv) (budget : ℤ) (inspectRule : List JobRule) (s : RunState)
    (ds ws : List UnitState) (o : JobPhase)
    (hu : s.units = ds ++ UnitState.ready o false :: ws) :
    stepUnit x inspectTask envs budget inspectRule s ds.length
      = { s with units := ds ++ UnitState.holding o false s.jobNames :: ws } := by
  have hget : s.units[ds.length]? = some (UnitState.ready o false) := by
    rw [hu]; exact units_getElem ds ws _
  unfold stepUnit
  rw [hget]
  simp only
  rw [hu, units_set]

theorem stepUnit_ready_locked (x : Externals) (inspectTask : InspectTask)
    (envs : Nat → JobEnv) (budget : ℤ) (inspectRule : List JobRule) (s : RunState)
    (ds ws : List UnitState) (o : JobPhase)
    (hu : s.units = ds ++ UnitState.ready o true :: ws) (hm : s.mutex = false) :
    stepUnit x inspectTask envs budget inspectRule s ds.length
      = { s with mutex := true,
                 units := ds ++ UnitState.holding o true s.jobNames :: ws } := by
  have hget : s.units[ds.length]? = some (UnitState.ready o true) := by
    rw [hu]; exact units_getElem ds ws _
  unfold stepUnit
  rw [hget]
  simp only [hm, Bool.false_eq_true, if_false]
  rw [hu, units_set]

theorem stepUnit_holding (x : Externals) (inspectTask : InspectTask)
    (envs : Nat → JobEnv) (budget : ℤ) (inspectRule : List JobRule) (s : RunState)
    (ds ws : List UnitState) (o : JobPhase) (locked : Bool) (read : List JobPhase)
    (hu : s.units = ds ++ UnitState.holding o locked read :: ws) :
    stepUnit x inspectTask envs budget inspectRule s ds.length
      = { s with jobNames := read ++ [o],
                 mutex := if locked then false else s.mutex,
                 units := ds ++ UnitState.done :: ws } := by
  have hget : s.units[ds.length]? = some (UnitState.holding o locked read) := by
    rw [hu]; exact units_getElem ds ws _
  unfold stepUnit
  rw [hget]
  simp only
  rw [hu, units_set]

theorem stepUnit_done (x : Externals) (inspectTask : InspectTask)
    (envs : Nat → JobEnv) (budget : ℤ) (inspectRule : List JobRule) (s : RunState)
    (ds ws : List UnitState) (hu : s.units = ds ++ UnitState.done :: ws) :
    stepUnit x inspectTask envs budget inspectRule s ds.length = s := by
  have hget : s.units[ds.length]? = some UnitState.done := by
    rw [hu]; exact units_getElem ds ws _
  unfold stepUnit
  rw [hget]

/-- The three steps of a unit that no other unit interrupts amount to the unit taken
as a whole. -/
theorem stepUnit_thrice (x : Externals) (inspectTask : InspectTask) (envs : Nat → JobEnv)
    (budget : ℤ) (inspectRule : List JobRule) (s : RunState) (ds ws : List UnitState)
    (v : JobRule) (hu : s.units = ds ++ UnitState.waiting :: ws)
    (hds : ∀ d ∈ ds, d = UnitState.done) (hv : inspectRule[ds.length]? = some v)
    (hb : 0 < budget) (hm : s.mutex = false) :
    stepUnit x inspectTask envs budget inspectRule
        (stepUnit x inspectTask envs budget inspectRule
          (stepUnit x inspectTask envs budget inspectRule s ds.length) ds.length) ds.length
      = { jobNames := (inspectJob x inspectTask (envs ds.length)
            ⟨s.jobNames, s.cluster, s.calls⟩ v).jobNames
          cluster := (inspectJob x inspectTask (envs ds.length)
            ⟨s.jobNames, s.cluster, s.calls⟩ v).cluster
          calls := (inspectJob x inspectTask (envs ds.length)
            ⟨s.jobNames, s.cluster, s.calls⟩ v).calls
          units := ds ++ UnitState.done :: ws
          mutex := false } := by
  rw [stepUnit_waiting x inspectTask envs budget inspectRule s ds ws v hu hds hv hb,
    inspectJob_eq_inspectUnit]
  rcases hU : inspectUnit x inspectTask (envs ds.length) s.cluster s.calls v with
    ⟨_ | ⟨o, locked⟩, w, calls⟩
  · simp only
    rw [stepUnit_done x inspectTask envs budget inspectRule
        { s with cluster := w, calls := calls, units := ds ++ UnitState.done :: ws }
        ds ws rfl,
      stepUnit_done x inspectTask envs budget inspectRule
        { s with cluster := w, calls := calls, units := ds ++ UnitState.done :: ws }
        ds ws rfl]
    simp [hm]
  · cases locked
    · simp only
      rw [stepUnit_ready_unlocked x inspectTask envs budget inspectRule
          { s with cluster := w, calls := calls,
                   units := ds ++ UnitState.ready o false :: ws } ds ws o rfl,
        stepUnit_holding x inspectTask envs budget inspectRule
          { s with cluster := w, calls := calls,
                   units := ds ++ UnitState.holding o false s.jobNames :: ws }
          ds ws o false s.jobNames rfl]
      simp [hm]
    · simp only
      rw [stepUnit_ready_locked x inspectTask envs budget inspectRule
          { s with cluster := w, calls := calls,
                   units := ds ++ UnitState.ready o true :: ws } ds ws o rfl hm,
        stepUnit_holding x inspectTask envs budget inspectRule
          { s with cluster := w, calls := calls, mutex := true,
                   units := ds ++ UnitState.holding o true s.jobNames :: ws }
          ds ws o true s.jobNames rfl]
      simp

theorem runUnits_serialFrom (x : Externals) (inspectTask : InspectTask)
    (envs : Nat → JobEnv) (budget : ℤ) (hb : 0 < budget) (inspectRule : List JobRule)
    (rest pre : List JobRule) (s : RunState) (hrule : inspectRule = pre ++ rest)
    (hu : s.units = List.replicate pre.length UnitState.done
      ++ List.replicate rest.length UnitState.waiting)
    (hm : s.mutex = false) :
    (serialFrom pre.length rest.length).foldl
        (stepUnit x inspectTask envs budget inspectRule) s
      = { jobNames := (serialJobs x inspectTask envs pre.length
            ⟨s.jobNames, s.cluster, s.calls⟩ rest).jobNames
          cluster := (serialJobs x inspectTask envs pre.length
            ⟨s.jobNames, s.cluster, s.calls⟩ rest).cluster
          calls := (serialJobs x inspectTask envs pre.length
            ⟨s.jobNames, s.cluster, s.calls⟩ rest).calls
          units := List.replicate inspectRule.length UnitState.done
          mutex := false } := by
  induction rest generalizing pre s with
  | nil =>
    simp only [List.length_nil, serialFrom, List.foldl_nil, serialJobs]
    rw [hrule]
    cases s
    simp only [List.length_nil, List.replicate_zero, List.append_nil] at hu hm ⊢
    rw [hu, hm]
  | cons v rest ih =>
    have hlen : (List.replicate pre.length UnitState.done).length = pre.length :=
      List.length_replicate _ _
    have hu1 : s.units = List.replicate pre.length UnitState.done
        ++ UnitState.waiting :: List.replicate rest.length UnitState.waiting := by
      rw [hu]; rfl
    have hv : inspectRule[(List.replicate pre.length UnitState.done).length]? = some v := by
      rw [hlen, hrule, List.getElem?_append_right (le_refl _)]
      simp
    have h3 := stepUnit_thrice x inspectTask envs budget inspectRule s
      (List.replicate pre.length UnitState.done) (List.replicate rest.length UnitState.waiting)
      v hu1 (fun d hd => List.eq_of_mem_replicate hd) hv hb hm
    rw [hlen] at h3
    simp only [List.length_cons, serialFrom, List.foldl_cons]
    rw [h3]
    have hpre : (pre ++ [v]).length = pre.length + 1 := by simp
    have hih := ih (pre ++ [v])
      { jobNames := (inspectJob x inspectTask (envs pre.length)
          ⟨s.jobNames, s.cluster, s.calls⟩ v).jobNames
        cluster := (inspectJob x inspectTask (envs pre.length)
          ⟨s.jobNames, s.cluster, s.calls⟩ v).cluster
        calls := (inspectJob x inspectTask (envs pre.length)
          ⟨s.jobNames, s.cluster, s.calls⟩ v).calls
        units := List.replicate pre.length UnitState.done
          ++ UnitState.done :: List.replicate rest.length UnitState.waiting
        mutex := false }
      (by rw [hrule]; simp)
      (by rw [hpre, List.replicate_succ']; simp)
      rfl
    rw [hpre] at hih
    rw [hih]
    rfl

theorem serialJobs_registered (x : Externals) (inspectTask : InspectTask)
    (envs : Nat → JobEnv) (inspectRule : List JobRule) (i : Nat) (st : DispatchState)
    (hreg : ∀ v ∈ inspectRule, v.RuleType ∈ x.RuleOperatorMap) :
    ∃ outcomes, (serialJobs x inspectTask envs i st inspectRule).jobNames
        = st.jobNames ++ outcomes ∧
      outcomes.map (fun o => o.JobName) = inspectRule.map (fun v => v.JobName) ∧
      ∀ o ∈ outcomes, o.Phase = Phase.Succeeded ∨ o.Phase = Phase.Failed := by
  induction inspectRule generalizing i st with
  | nil => exact ⟨[], by simp [serialJobs], rfl, by simp⟩
  | cons v rest ih =>
    obtain ⟨o, ho, hname, hphase⟩ :=
      inspectJob_registered x inspectTask (envs i) st v (hreg v (List.mem_cons_self _ _))
    obtain ⟨outcomes, hout, hnames, hphases⟩ :=
      ih (i + 1) (inspectJob x inspectTask (envs i) st v)
        (fun u hu => hreg u (List.mem_cons_of_mem _ hu))
    refine ⟨o :: outcomes, ?_, ?_, ?_⟩
    · rw [serialJobs, hout, ho]
      simp
    · simp [hname, hnames]
    · intro o1 ho1
      rcases List.mem_cons.1 ho1 with h1 | h1
      · rw [h1]; exact hphase
      · exact hphases o1 h1

/-- When the units run one after the other and the clean-up succeeds,
`createJobsInspect` returns, and for job specs of registered categories the
returned list holds exactly one outcome per job spec, in the order of the job
specs, each with the name of its job spec and a terminal phase.  The lost
outcomes of the evaluations above are due to overlapping units only. -/
theorem createJobsInspect_serial (x : Externals) (inspectTask : InspectTask)
    (envs : Nat → JobEnv) (w : Cluster) (nodes : List Node) (inspectRule : List JobRule)
    (hreg : ∀ v ∈ inspectRule, v.RuleType ∈ x.RuleOperatorMap) :
    ∃ outcomes st calls,
      createJobsInspect x inspectTask envs false (serialSchedule inspectRule.length) w nodes
          inspectRule = some (.ok outcomes, st, calls) ∧
      outcomes.map (fun o => o.JobName) = inspectRule.map (fun v => v.JobName) ∧
      ∀ o ∈ outcomes, o.Phase = Phase.Succeeded ∨ o.Phase = Phase.Failed := by
  have hb : 0 < concurrency nodes inspectRule := by
    rw [concurrency_eq_max]
    exact lt_of_lt_of_le (by decide) (le_max_left _ _)
  have hrun := runUnits_serialFrom x inspectTask envs (concurrency nodes inspectRule) hb
    inspectRule inspectRule [] (startRun w inspectRule) rfl
    (by simp [startRun, List.map_const']) rfl
  obtain ⟨outcomes, hout, hnames, hphases⟩ :=
    serialJobs_registered x inspectTask envs inspectRule 0
      { jobNames := [], cluster := w, calls := [] } hreg
  refine ⟨outcomes,
    { (serialJobs x inspectTask envs 0 { jobNames := [], cluster := w, calls := [] }
        inspectRule).cluster with
      ConfigMaps := (serialJobs x inspectTask envs 0
        { jobNames := [], cluster := w, calls := [] } inspectRule).cluster.ConfigMaps.filter
          (fun cm => !isRuleGroupTemp cm) },
    (serialJobs x inspectTask envs 0 { jobNames := [], cluster := w, calls := [] }
      inspectRule).calls ++ [Call.DeleteRuleGroup], ?_, hnames, hphases⟩
  unfold createJobsInspect runUnits serialSchedule
  simp only [List.length_nil] at hrun
  rw [hrun]
  have hall : (List.replicate inspectRule.length UnitState.done).all
      (fun u => u == UnitState.done) = true := by
    rw [List.all_eq_true]
    intro u hu
    rw [List.eq_of_mem_replicate hu]
    simp
  simp only [hall, if_true, Bool.false_eq_true, if_false]
  rw [show (startRun w inspectRule).jobNames = [] from rfl,
    show (startRun w inspectRule).cluster = w from rfl,
    show (startRun w inspectRule).calls = [] from rfl, hout]
  simp

/-! ### The task controller of `controllers` -/

theorem controllers.collectResults_count (resultMap : List (String × AuditResult))
    (auditors : List String) (results : List AuditResult) (completed : Nat) :
    (controllers.collectResults resultMap auditors (results, completed)).2
      = completed + auditors.countP (fun a =>
          match resultMap.lookup a with
          | some result => decide (result.Phase = Phase.Succeeded)
          | none => false) := by
  induction auditors generalizing results completed with
  | nil => simp [controllers.collectResults]
  | cons a rest ih =>
    unfold controllers.collectResults
    cases hl : resultMap.lookup a with
    | none => simp [ih, List.countP_cons, hl]
    | some result =>
      by_cases hp : result.Phase = Phase.Succeeded
      · simp only [hp, if_true, ih, List.countP_cons, hl, decide_True]
        omega
      · simp [hp, ih, List.countP_cons, hl]

theorem controllers.finish_task (env : PassEnv) (audit : Audit) (t : InspectTask) :
    (controllers.finish env audit t []).task = some t ∧
      (controllers.finish env audit t []).writes = [Write.StatusUpdate t] := by
  unfold controllers.finish
  cases env.statusUpdate <;> simp

/-- C17, counterexample: the task has started, is in phase `Running` and its only
auditor has the recorded result `Succeeded`, so the completed count equals the
number of requested auditors.  When the task carries a deletion marker, the pass
removes the finalizer and returns: the phase stays `Running` and no status update
is sent.  When the task does not carry the finalizer yet, the pass adds it and
returns, again with the phase `Running`. -/
theorem controllers.Reconcile_phase_untouched :
    (controllers.collectResults [("kubeeye", ⟨"kubeeye", Phase.Succeeded⟩)]
        sampleDeletedAuditTask.Auditors ([], 0)).2 = sampleDeletedAuditTask.Auditors.length ∧
      sampleAudit.TaskResults.lookup sampleDeletedAuditTask.Name
        = some [("kubeeye", ⟨"kubeeye", Phase.Succeeded⟩)] ∧
      (controllers.Reconcile sampleExternals
        ⟨GetTask.Found sampleDeletedAuditTask, 1200, WriteOutcome.Ok, WriteOutcome.Ok⟩
        sampleAudit ("default", "audit")).task
        = some { sampleDeletedAuditTask with Finalizers := [] } ∧
      (controllers.Reconcile sampleExternals
        ⟨GetTask.Found sampleDeletedAuditTask, 1200, WriteOutcome.Ok, WriteOutcome.Ok⟩
        sampleAudit ("default", "audit")).writes
        = [Write.Update { sampleDeletedAuditTask with Finalizers := [] }] ∧
      sampleDeletedAuditTask.Phase = Phase.Running ∧
      (controllers.Reconcile sampleExternals
        ⟨GetTask.Found sampleFreshAuditTask, 1200, WriteOutcome.Ok, WriteOutcome.Ok⟩
        sampleAudit ("default", "audit")).task
        = some { sampleFreshAuditTask with Finalizers := [Finalizers] } ∧
      (controllers.Reconcile sampleExternals
        ⟨GetTask.Found sampleFreshAuditTask, 1200, WriteOutcome.Ok, WriteOutcome.Ok⟩
        sampleAudit ("default", "audit")).writes
        = [Write.Update { sampleFreshAuditTask with Finalizers := [Finalizers] }] ∧
      sampleFreshAuditTask.Phase = Phase.Running := by
  decide

/-- C17, amended: in a reconcile pass over a task that carries no deletion marker,
already carries the finalizer, has started, is in neither terminal phase and has an entry in the
pending result map, the task object handed to the status update has the
completed count equal to the number of requested auditors with a recorded
`Succeeded` result; its phase is `Succeeded` if and only if that count equals the
number of requested auditors; if the count falls short and start time plus
timeout is earlier than now its phase is `Failed`; and if the count falls short
and the timeout has not elapsed its phase is the one it had. -/
theorem controllers.Reconcile_phase (x : Externals) (env : PassEnv) (audit : Audit)
    (req : String × String) (task : InspectTask) (start : Int)
    (resultMap : List (String × AuditResult))
    (hget : env.get = GetTask.Found task)
    (hdel : task.DeletionTimestamp = none)
    (hfin : Finalizers ∈ task.Finalizers)
    (hstart : task.StartTimestamp = some start)
    (hphase : task.Phase ≠ Phase.Succeeded ∧ task.Phase ≠ Phase.Failed)
    (hres : audit.TaskResults.lookup task.Name = some resultMap) :
    ∃ t, (controllers.Reconcile x env audit req).task = some t ∧
      (controllers.Reconcile x env audit req).writes = [Write.StatusUpdate t] ∧
      t.CompleteItemCount = task.Auditors.countP (fun a =>
          match resultMap.lookup a with
          | some result => decide (result.Phase = Phase.Succeeded)
          | none => false) ∧
      (t.Phase = Phase.Succeeded ↔ t.CompleteItemCount = task.Auditors.length) ∧
      (t.CompleteItemCount ≠ task.Auditors.length →
        start + (x.ParseDuration task.Timeout).getD x.DefaultTimeout < env.now →
        t.Phase = Phase.Failed) ∧
      (t.CompleteItemCount ≠ task.Auditors.length →
        ¬ start + (x.ParseDuration task.Timeout).getD x.DefaultTimeout < env.now →
        t.Phase = task.Phase) := by
  have hfind : utils.ArrayFind Finalizers task.Finalizers = true := by
    unfold utils.ArrayFind
    exact List.any_eq_true.2 ⟨Finalizers, hfin, by simp⟩
  have hcount := controllers.collectResults_count resultMap task.Auditors [] 0
  rw [Nat.zero_add] at hcount
  have hdur : (match x.ParseDuration task.Timeout with
      | some d => d
      | none => x.DefaultTimeout) = (x.ParseDuration task.Timeout).getD x.DefaultTimeout := by
    cases x.ParseDuration task.Timeout <;> rfl
  have hnot : ¬ (task.Phase = Phase.Succeeded ∨ task.Phase = Phase.Failed) := by
    rintro (h | h)
    · exact hphase.1 h
    · exact hphase.2 h
  unfold controllers.Reconcile
  rw [hget]
  simp only [hdel, hfind, Option.isNone_none, Bool.not_true, Bool.and_false,
    Bool.false_eq_true, if_false, hstart, hnot, hres, hdur]
  by_cases hc : (controllers.collectResults resultMap task.Auditors ([], 0)).2
      = task.Auditors.length
  · rw [if_pos hc]
    refine ⟨_, (controllers.finish_task env audit _).1, (controllers.finish_task env audit _).2,
      hcount, ?_, ?_, ?_⟩
    · exact ⟨fun _ => hc, fun _ => rfl⟩
    · intro hne; exact absurd hc hne
    · intro hne; exact absurd hc hne
  · rw [if_neg hc]
    by_cases ht : start + (x.ParseDuration task.Timeout).getD x.DefaultTimeout < env.now
    · rw [if_pos ht]
      refine ⟨_, (controllers.finish_task env audit _).1,
        (controllers.finish_task env audit _).2, hcount, ?_, ?_, ?_⟩
      · constructor
        · intro h
          have h0 : Phase.Failed = Phase.Succeeded := h
          exact absurd h0 (by decide)
        · intro h; exact absurd h hc
      · intro _ _; rfl
      · intro _ hnt; exact absurd ht hnt
    · rw [if_neg ht]
      refine ⟨_, (controllers.finish_task env audit _).1,
        (controllers.finish_task env audit _).2, hcount, ?_, ?_, ?_⟩
      · constructor
        · intro h; exact absurd h hphase.1
        · intro h; exact absurd h hc
      · intro _ ht2; exact absurd ht2 ht
      · intro _ _; rfl

/-- Witness of C17, amended: the sample task at time 1200, one of its two auditors done. -/
theorem controllers.Reconcile_phase_witness :
    ∃ t, (controllers.Reconcile sampleExternals
          ⟨GetTask.Found sampleAuditTask, 1200, WriteOutcome.Ok, WriteOutcome.Ok⟩
          sampleAudit ("default", "audit")).task = some t ∧
      t.CompleteItemCount = 1 ∧ t.Phase = Phase.Running := by
  obtain ⟨t, h1, _, h3, _, _, h6⟩ := controllers.Reconcile_phase sampleExternals
    ⟨GetTask.Found sampleAuditTask, 1200, WriteOutcome.Ok, WriteOutcome.Ok⟩
    sampleAudit ("default", "audit") sampleAuditTask 1000
    [("kubeeye", ⟨"kubeeye", Phase.Succeeded⟩)]
    rfl rfl (by decide) rfl (by decide) (by decide)
  have hc : t.CompleteItemCount = 1 := by rw [h3]; decide
  refine ⟨t, h1, hc, ?_⟩
  exact h6 (by rw [hc]; decide) (by decide)

/-! ### Severity levels -/

theorem Autoincrement_lookup (mapLevel : List (String × Int)) (level L : String) :
    ((Autoincrement mapLevel level).lookup L).getD 0
      = (mapLevel.lookup L).getD 0 + (if level = L then 1 else 0) := by
  unfold Autoincrement
  rw [lookup_mapSet]
  by_cases h : level = L
  · subst h; simp
  · simp [h]

theorem totalResultLevelStep_lookup (mapLevel : List (String × Int)) (m : ResultEntry)
    (L : String) :
    ((totalResultLevelStep mapLevel m).lookup L).getD 0
      = (mapLevel.lookup L).getD 0 + ((countLevel L [m] : Nat) : Int) := by
  unfold totalResultLevelStep countLevel
  cases ha : m.assert with
  | none => simp [ha]
  | some b =>
    cases hl : m.level with
    | none =>
      simp only [Option.isNone_some, Bool.false_eq_true, if_false, Autoincrement_lookup,
        List.countP_cons, List.countP_nil, ha, hl, Option.isSome_some, Option.getD_none,
        Bool.true_and, Nat.zero_add]
      by_cases h : DangerLevel = L <;> simp [h]
    | some l =>
      simp only [Option.isNone_some, Bool.false_eq_true, if_false, Autoincrement_lookup,
        List.countP_cons, List.countP_nil, ha, hl, Option.isSome_some, Option.getD_some,
        Bool.true_and, Nat.zero_add]
      by_cases h : l = L <;> simp [h]

theorem totalResultLevel_lookup (data : List ResultEntry) (mapLevel : List (String × Int))
    (L : String) :
    ((totalResultLevel data mapLevel).lookup L).getD 0
      = (mapLevel.lookup L).getD 0 + ((countLevel L data : Nat) : Int) := by
  unfold totalResultLevel utils.StructToMapSlice
  simp only
  induction data generalizing mapLevel with
  | nil => simp [countLevel]
  | cons m rest ih =>
    rw [List.foldl_cons, ih, totalResultLevelStep_lookup]
    simp only [countLevel, List.countP_cons, List.countP_nil, Nat.zero_add]
    push_cast
    ring

theorem countLevel_append (L : String) (a b : List ResultEntry) :
    countLevel L (a ++ b) = countLevel L a + countLevel L b := by
  simp [countLevel, List.countP_append]

theorem seed_lookup (result : InspectResultSpec) (L : String) :
    ((mapSet (mapSet (mapSet ([] : List (String × Int)) DangerLevel
        result.OpaResult.Dangerous) WarningLevel result.OpaResult.Warning) IgnoreLevel
        result.OpaResult.Ignore).lookup L).getD 0 = seedLevel result L := by
  have h1 : ¬ DangerLevel = WarningLevel := by decide
  have h2 : ¬ DangerLevel = IgnoreLevel := by decide
  have h3 : ¬ WarningLevel = IgnoreLevel := by decide
  have h1s : ¬ WarningLevel = DangerLevel := fun h => h1 h.symm
  have h2s : ¬ IgnoreLevel = DangerLevel := fun h => h2 h.symm
  have h3s : ¬ IgnoreLevel = WarningLevel := fun h => h3 h.symm
  rw [lookup_mapSet, lookup_mapSet, lookup_mapSet]
  unfold seedLevel
  by_cases hd : L = DangerLevel
  · subst hd
    rw [if_neg h2s, if_neg h1s, if_pos rfl, if_pos rfl]
    rfl
  · by_cases hw : L = WarningLevel
    · subst hw
      rw [if_neg h3s, if_pos rfl, if_neg hd, if_pos rfl]
      rfl
    · by_cases hi : L = IgnoreLevel
      · subst hi
        rw [if_pos rfl, if_neg hd, if_neg hw, if_pos rfl]
        rfl
      · rw [if_neg (fun h => hi h.symm), if_neg (fun h => hw h.symm),
          if_neg (fun h => hd h.symm), if_neg hd, if_neg hw, if_neg hi]
        rfl

/-- C19: for every stored report and every severity level `L`, `CountLevelNum` yields for
`L` the seeded counter of `L` (the pre-computed danger, warning or ignore counter,
zero for any other level) plus the number of leaf results, over all scanned
fragment lists, that carry an assertion field and whose level is `L`, a leaf result
with an assertion field and no level field counting towards the danger level and a
leaf result without an assertion field not being counted; on the report with three
warning items, two items without a level and a seeded danger count of 1 it yields
3 for danger and 3 for warning. -/
theorem CountLevelNum_counts (result : InspectResultSpec) (L : String) :
    (∃ levelTotal, CountLevelNum (.ok result) = .ok levelTotal ∧
      (levelTotal.lookup L).getD 0
        = seedLevel result L + ((countLevel L result.leaves : Nat) : Int)) ∧
    (∃ levelTotal, CountLevelNum (.ok sampleReport) = .ok levelTotal ∧
      levelTotal.lookup DangerLevel = some 3 ∧ levelTotal.lookup WarningLevel = some 3) := by
  constructor
  · refine ⟨_, rfl, ?_⟩
    simp only [totalResultLevel_lookup, seed_lookup, InspectResultSpec.leaves,
      countLevel_append]
    push_cast
    ring
  · exact ⟨_, rfl, by decide, by decide⟩

/-! ### The task controller of `pkg/controllers` -/

theorem finishStart_created (env : StartEnv) (task : InspectTask)
    (created : List (String × ClusterClient)) :
    (finishStart env task created).created = created := by
  unfold finishStart
  split <;> rfl

theorem inspectClusters_created (env : StartEnv) (names : List String)
    (hclient : ∀ v ∈ names, env.multiClusterClientFails v = false)
    (hinit : ∀ v ∈ names, env.initClusterInspectFails v = false)
    (st : InspectTask × List (String × ClusterClient)) :
    (inspectClusters env names st).2
      = st.2 ++ names.map (fun v => (v, ClusterClient.Remote v)) := by
  induction names generalizing st with
  | nil => simp [inspectClusters]
  | cons v rest ih =>
    obtain ⟨task, created⟩ := st
    have h1 := hclient v (List.mem_cons_self _ _)
    have h2 := hinit v (List.mem_cons_self _ _)
    simp only [inspectClusters, h1, h2, Bool.false_eq_true, if_false]
    rw [ih (fun u hu => hclient u (List.mem_cons_of_mem _ hu))
      (fun u hu => hinit u (List.mem_cons_of_mem _ hu))]
    simp

/-- The pass that starts a task and gets as far as the dispatch: with a nil cluster
list `CreateInspect` runs once, under the name `default` with the own client; with
a cluster list that is not nil it runs once for each named cluster whose client
and bootstrap succeed. -/
theorem Reconcile_created (env : StartEnv) (task : InspectTask)
    (hget : env.get = GetTask.Found task) (hdel : task.DeletionTimestamp = none)
    (hfin : Finalizers ∈ task.Finalizers) (hstart : task.StartTimestamp = none)
    (hconf : env.kubeEyeConfigFails = false) (hplan : env.planStatusFails = false)
    (hrules : env.getRulesFails = false) :
    (task.ClusterName = none →
      (Reconcile env).created = [("default", ClusterClient.Own)]) ∧
    (∀ names, task.ClusterName = some names →
      (∀ v ∈ names, env.multiClusterClientFails v = false) →
      (∀ v ∈ names, env.initClusterInspectFails v = false) →
      (Reconcile env).created = names.map (fun v => (v, ClusterClient.Remote v))) := by
  have hfind : utils.ArrayFind Finalizers task.Finalizers = true := by
    unfold utils.ArrayFind
    exact List.any_eq_true.2 ⟨Finalizers, hfin, by simp⟩
  constructor
  · intro hnil
    unfold Reconcile
    rw [hget]
    simp only [hdel, hfind, hstart, hconf, hplan, hrules, hnil, Option.isNone_none,
      Bool.not_true, Bool.and_false, Bool.false_eq_true, if_false, if_true]
    split
    · rfl
    · exact finishStart_created _ _ _
  · intro names hnames hclient hinit
    unfold Reconcile
    rw [hget]
    simp only [hdel, hfind, hstart, hconf, hplan, hrules, hnames, Option.isNone_none,
      Bool.not_true, Bool.and_false, Bool.false_eq_true, if_false, if_true]
    rw [finishStart_created, inspectClusters_created env names hclient hinit]
    simp

/-- C20, evaluation at the failing input: for a task whose cluster list is present but
has no entries, the pass that starts the task runs `CreateInspect` not at all,
neither under the name `default` nor under any other, and still completes without
an error; `GetStatus` of the task is then `Failed`.  With a nil cluster list the
same pass runs it once under `default` with the own client. -/
theorem Reconcile_empty_cluster_list :
    (Reconcile (sampleStartEnv (sampleClusterTask (some [])))).created = [] ∧
      (Reconcile (sampleStartEnv (sampleClusterTask (some [])))).err = none ∧
      (Reconcile (sampleStartEnv (sampleClusterTask (some [])))).planPhases
        = [Phase.Running, Phase.Failed] ∧
      (Reconcile (sampleStartEnv (sampleClusterTask none))).created
        = [("default", ClusterClient.Own)] ∧
      (Reconcile (sampleStartEnv (sampleClusterTask (some ["c1", "c2"])))).created
        = [("c1", ClusterClient.Remote "c1"), ("c2", ClusterClient.Remote "c2")] := by
  decide

/-! ### Ordering of the job specs -/

theorem utils.ArrayFindsFrom_first {α : Type} (f : α → Bool) (l1 l2 : List α) (v : α)
    (k : Nat) (hv : f v = true) (hall : ∀ u ∈ l1, f u = false) :
    utils.ArrayFindsFrom f k (l1 ++ v :: l2) = some (k + l1.length, v) := by
  induction l1 generalizing k with
  | nil => simp [utils.ArrayFindsFrom, hv]
  | cons w ws ih =>
    have hw : f w = false := hall w (List.mem_cons_self _ _)
    have hstep : utils.ArrayFindsFrom f k (w :: (ws ++ v :: l2))
        = utils.ArrayFindsFrom f (k + 1) (ws ++ v :: l2) := by
      simp [utils.ArrayFindsFrom, hw]
    rw [List.cons_append, hstep, ih (k + 1) (fun u hu => hall u (List.mem_cons_of_mem _ hu))]
    simp only [List.length_cons]
    congr 2
    omega

theorem sortRuleOpaToAtLast_found (rule l1 l2 : List JobRule) (o : JobRule)
    (hs : rule = l1 ++ o :: l2) (ho : o.RuleType = constant.Opa)
    (hall : ∀ u ∈ l1, u.RuleType ≠ constant.Opa) :
    sortRuleOpaToAtLast rule = l1 ++ l2 ++ [o] := by
  have hf : utils.ArrayFinds rule (fun i => i.RuleType == constant.Opa)
      = some (l1.length, o) := by
    unfold utils.ArrayFinds
    rw [hs, utils.ArrayFindsFrom_first _ l1 l2 o 0 (by simp [ho])
      (fun u hu => by simpa using hall u hu), Nat.zero_add]
  simp only [sortRuleOpaToAtLast, hf]
  rw [hs]
  simp

theorem sortRuleOpaToAtLast_none (rule : List JobRule)
    (hall : ∀ u ∈ rule, u.RuleType ≠ constant.Opa) : sortRuleOpaToAtLast rule = rule := by
  have hf : utils.ArrayFinds rule (fun i => i.RuleType == constant.Opa) = none := by
    rw [utils.ArrayFinds_eq_none]
    intro u hu
    simpa using hall u hu
  simp [sortRuleOpaToAtLast, hf]

theorem exists_first_opa (rule : List JobRule)
    (h : ∃ u ∈ rule, u.RuleType = constant.Opa) :
    ∃ l1 o l2, rule = l1 ++ o :: l2 ∧ o.RuleType = constant.Opa ∧
      ∀ u ∈ l1, u.RuleType ≠ constant.Opa := by
  induction rule with
  | nil => simp at h
  | cons w ws ih =>
    by_cases hw : w.RuleType = constant.Opa
    · exact ⟨[], w, ws, rfl, hw, by simp⟩
    · obtain ⟨u, hu, hopa⟩ := h
      rcases List.mem_cons.1 hu with hu | hu
      · subst hu; exact absurd hopa hw
      · obtain ⟨l1, o, l2, hs, ho, hall⟩ := ih ⟨u, hu, hopa⟩
        refine ⟨w :: l1, o, l2, by rw [hs]; rfl, ho, ?_⟩
        intro v hv
        rcases List.mem_cons.1 hv with hv | hv
        · rw [hv]; exact hw
        · exact hall v hv

/-- C25: for every job-spec list, `sortRuleOpaToAtLast` and its copy `sortRuleOpaToAlter`
return the same list, a permutation of the input of the same length.  When the
input holds a job spec of the policy category, written as `l1 ++ o :: l2` with `o`
the first such job spec, the result is `l1 ++ l2 ++ [o]`: `o` stands last and all
other job specs keep their order; a list without a policy job spec is returned
unchanged; a list with exactly one policy job spec ends with it. -/
theorem sortRuleOpaToAtLast_spec (rule : List JobRule) :
    sortRuleOpaToAlter rule = sortRuleOpaToAtLast rule ∧
      (sortRuleOpaToAtLast rule).Perm rule ∧
      (sortRuleOpaToAtLast rule).length = rule.length ∧
      (∀ l1 o l2, rule = l1 ++ o :: l2 → o.RuleType = constant.Opa →
        (∀ u ∈ l1, u.RuleType ≠ constant.Opa) →
        sortRuleOpaToAtLast rule = l1 ++ l2 ++ [o]) ∧
      ((∀ u ∈ rule, u.RuleType ≠ constant.Opa) → sortRuleOpaToAtLast rule = rule) ∧
      (∀ o, (rule.filter (fun u => decide (u.RuleType = constant.Opa))) = [o] →
        (sortRuleOpaToAtLast rule).getLast? = some o) := by
  have hperm : (sortRuleOpaToAtLast rule).Perm rule := by
    by_cases h : ∃ u ∈ rule, u.RuleType = constant.Opa
    · obtain ⟨l1, o, l2, hs, ho, hall⟩ := exists_first_opa rule h
      rw [sortRuleOpaToAtLast_found rule l1 l2 o hs ho hall, hs, List.append_assoc]
      exact List.Perm.append_left l1 (List.perm_append_singleton o l2)
    · rw [sortRuleOpaToAtLast_none rule (fun u hu hopa => h ⟨u, hu, hopa⟩)]
  refine ⟨rfl, hperm, hperm.length_eq, ?_, sortRuleOpaToAtLast_none rule, ?_⟩
  · intro l1 o l2 hs ho hall
    exact sortRuleOpaToAtLast_found rule l1 l2 o hs ho hall
  · intro o hfilter
    have hmem : o ∈ rule.filter (fun u => decide (u.RuleType = constant.Opa)) := by
      rw [hfilter]; simp
    obtain ⟨ho1, ho2⟩ := List.mem_filter.1 hmem
    obtain ⟨l1, o1, l2, hs, ho, hall⟩ :=
      exists_first_opa rule ⟨o, ho1, by simpa using ho2⟩
    have ho1mem : o1 ∈ rule.filter (fun u => decide (u.RuleType = constant.Opa)) := by
      apply List.mem_filter.2
      exact ⟨by rw [hs]; simp, by simpa using ho⟩
    rw [hfilter, List.mem_singleton] at ho1mem
    rw [sortRuleOpaToAtLast_found rule l1 l2 o1 hs ho hall, ho1mem]
    simp

/-! ### Persisting the report -/

/-- When only the serialization fails, `saveResultFile` returns no error. -/
theorem saveResultFile_marshal_error (env : SaveEnv) (files : List (String × String))
    (resultData : InspectResult) (msg : String) (hopen : env.openFails = false)
    (hmarshal : env.marshal resultData = .error msg) (hwrite : env.writeFails = false) :
    (saveResultFile env files resultData).1 = none ∧
      ((saveResultFile env files resultData).2.lookup (resultFilePath resultData.Name)).isSome := by
  unfold saveResultFile
  simp only [hopen, hmarshal, hwrite, Bool.false_eq_true, if_false]
  refine ⟨trivial, ?_⟩
  rw [lookup_mapSet]
  simp

/-- C21, evaluation at the failing input: when the serialization of the report fails
(and nothing else does), `saveResultFile` returns no error and leaves an empty
result file behind, and `GetInspectResultData` returns no error either, creates
the result record and deletes the artifacts of the task. -/
theorem GetInspectResultData_ignores_marshal_error :
    saveResultFile sampleReportEnv.save [] ⟨"default-task-result", emptyReport⟩
        = (none, [("/kubeeye/inspect-result/default-task-result", "")]) ∧
      GetInspectResultData sampleExternals sampleReportEnv sampleReportState
          sampleDispatchTask "default" emptyReport
        = (none,
            { cluster := { ConfigMaps := [], Jobs := [] }
              files := [("/kubeeye/inspect-result/default-task-result", "")]
              results := [⟨"default-task-result", emptyReport⟩] }) := by
  decide

/-! ### One poll of the backing job, and the artifact lookup -/

theorem waitLoop_calls (x : Externals) (env : JobEnv) (jobName timeout : String)
    (fuel : Nat) (now : Int) (w : Cluster) (calls : List Call) (jobPhase : JobPhase) :
    ∃ extra, (waitLoop x env jobName timeout fuel now w calls jobPhase).2.2 = calls ++ extra ∧
      (extra = [] ∨ extra.head? = some (Call.GetJob jobName)) := by
  induction fuel generalizing now calls with
  | zero => exact ⟨[], by simp [waitLoop], Or.inl rfl⟩
  | succ k ih =>
    unfold waitLoop
    split_ifs
    · exact ⟨[Call.GetJob jobName], rfl, Or.inr rfl⟩
    · exact ⟨[Call.GetJob jobName, Call.DeleteJob jobName], rfl, Or.inr rfl⟩
    · exact ⟨[Call.GetJob jobName], rfl, Or.inr rfl⟩
    · obtain ⟨extra, he, _⟩ := ih (now + 10 + env.latency now) (calls ++ [Call.GetJob jobName])
      exact ⟨Call.GetJob jobName :: extra, by rw [he]; simp, Or.inr rfl⟩

/-- C22, counterexample: the sample task was created at time 1000 with the timeout
`10m`, so its own deadline is 1600; the backing job is created at 1590 and is
complete from 1620 on.  The poll at 1620 is later than the deadline of the task,
yet it reports `Succeeded` and deletes nothing; the whole unit of work records
`Succeeded`, sends no deletion and keeps the backing job. -/
theorem waitLoop_task_deadline_counterexample :
    sampleDispatchTask.CreationTimestamp + 600 < 1620 ∧
      sampleExternals.ParseDuration sampleDispatchTask.Timeout = some 600 ∧
      waitLoop sampleExternals (sampleJobEnv 1590 1620) "task-sysctl-bbbbb" "10m" 1 1620
          { ConfigMaps := [], Jobs := ["task-sysctl-bbbbb"] } []
          { JobName := "task-sysctl-bbbbb", Phase := Phase.Running }
        = ({ JobName := "task-sysctl-bbbbb", Phase := Phase.Succeeded },
            { ConfigMaps := [], Jobs := ["task-sysctl-bbbbb"] },
            [Call.GetJob "task-sysctl-bbbbb"]) ∧
      inspectJob sampleExternals sampleDispatchTask (sampleJobEnv 1590 1620)
          sampleDispatchState ⟨"task-sysctl-bbbbb", constant.Sysctl, []⟩
        = { jobNames := [{ JobName := "task-sysctl-bbbbb", Phase := Phase.Succeeded }]
            cluster := { sampleCluster with Jobs := ["task-sysctl-bbbbb"] }
            calls := [Call.GetConfigMap "task-sysctl-bbbbb",
              Call.CreateJobTask "task-sysctl-bbbbb", Call.GetJob "task-sysctl-bbbbb",
              Call.GetJob "task-sysctl-bbbbb", Call.GetJob "task-sysctl-bbbbb",
              Call.GetJob "task-sysctl-bbbbb"] } := by
  decide

/-- C22, amended: at every poll of `waitForJobCompletionGetResult` (an iteration of
its loop at time `now` with polls left) in which reading the job succeeds, the
job is declared timed out (phase `Failed`, backing job deleted, after the read
one deletion sent) exactly when `now` is later than the creation time of the
backing job plus the timeout (the default timeout when the string does not
parse); otherwise the job is reported `Succeeded` if it is complete, and if not,
polling continues with the next poll at least 10 seconds later. -/
theorem waitLoop_iteration (x : Externals) (env : JobEnv) (jobName timeout : String)
    (fuel : Nat) (now : Int) (w : Cluster) (calls : List Call) (jobPhase : JobPhase)
    (hget : env.jobGetFails now = false) :
    (waitLoop x env jobName timeout (fuel + 1) now w calls jobPhase
        = ({ jobPhase with Phase := Phase.Failed },
            { w with Jobs := w.Jobs.filter (fun j => j != jobName) },
            calls ++ [Call.GetJob jobName, Call.DeleteJob jobName])
        ↔ env.jobCreation + (x.ParseDuration timeout).getD x.DefaultTimeout < now) ∧
      (¬ env.jobCreation + (x.ParseDuration timeout).getD x.DefaultTimeout < now →
        env.completed now = true →
        waitLoop x env jobName timeout (fuel + 1) now w calls jobPhase
          = ({ jobPhase with Phase := Phase.Succeeded }, w,
              calls ++ [Call.GetJob jobName])) ∧
      (¬ env.jobCreation + (x.ParseDuration timeout).getD x.DefaultTimeout < now →
        env.completed now = false →
        waitLoop x env jobName timeout (fuel + 1) now w calls jobPhase
          = waitLoop x env jobName timeout fuel (now + 10 + env.latency now) w
              (calls ++ [Call.GetJob jobName]) jobPhase) := by
  have hstep : waitLoop x env jobName timeout (fuel + 1) now w calls jobPhase
      = if isTimeout x env.jobCreation timeout now then
          ({ jobPhase with Phase := Phase.Failed },
            { w with Jobs := w.Jobs.filter (fun j => j != jobName) },
            calls ++ [Call.GetJob jobName, Call.DeleteJob jobName])
        else if env.completed now then
          ({ jobPhase with Phase := Phase.Succeeded }, w, calls ++ [Call.GetJob jobName])
        else
          waitLoop x env jobName timeout fuel (now + 10 + env.latency now) w
            (calls ++ [Call.GetJob jobName]) jobPhase := by
    rw [waitLoop]
    simp [hget]
  refine ⟨⟨fun heq => ?_, fun hlt => ?_⟩, fun hge hc => ?_, fun hge hc => ?_⟩
  · by_contra hge
    have ht : isTimeout x env.jobCreation timeout now = false := by
      rw [isTimeout_eq]; exact decide_eq_false hge
    rw [hstep, ht] at heq
    simp only [Bool.false_eq_true, if_false] at heq
    by_cases hc : env.completed now = true
    · rw [if_pos hc] at heq
      have h2 := congrArg (fun r => r.2.2.length) heq
      simp at h2
    · rw [if_neg hc] at heq
      obtain ⟨extra, he, hhead⟩ := waitLoop_calls x env jobName timeout fuel
        (now + 10 + env.latency now) w (calls ++ [Call.GetJob jobName]) jobPhase
      have h2 := congrArg (fun r => r.2.2) heq
      simp only at h2
      rw [he, List.append_assoc] at h2
      have h3 := List.append_cancel_left h2
      simp only [List.singleton_append, List.cons.injEq, true_and] at h3
      rcases hhead with h | h
      · rw [h] at h3; simp at h3
      · rw [h3] at h; simp at h
  · have ht : isTimeout x env.jobCreation timeout now = true := by
      rw [isTimeout_eq]; exact decide_eq_true hlt
    rw [hstep, ht]; rfl
  · have ht : isTimeout x env.jobCreation timeout now = false := by
      rw [isTimeout_eq]; exact decide_eq_false hge
    rw [hstep, ht]; simp [hc]
  · have ht : isTimeout x env.jobCreation timeout now = false := by
      rw [isTimeout_eq]; exact decide_eq_false hge
    rw [hstep, ht]; simp [hc]

/-- Witness of C22, amended: the poll at time 1620 of the job created at 1590 reads
the job, is not past the deadline 2190 of the job and finds the job complete. -/
theorem waitLoop_iteration_witness :
    (sampleJobEnv 1590 1620).jobGetFails 1620 = false ∧
      waitLoop sampleExternals (sampleJobEnv 1590 1620) "task-sysctl-bbbbb" "10m" (0 + 1) 1620
          { ConfigMaps := [], Jobs := ["task-sysctl-bbbbb"] } []
          { JobName := "task-sysctl-bbbbb", Phase := Phase.Running }
        = ({ JobName := "task-sysctl-bbbbb", Phase := Phase.Succeeded },
            { ConfigMaps := [], Jobs := ["task-sysctl-bbbbb"] },
            [] ++ [Call.GetJob "task-sysctl-bbbbb"]) :=
  ⟨rfl, (waitLoop_iteration sampleExternals (sampleJobEnv 1590 1620) "task-sysctl-bbbbb" "10m"
      0 1620 { ConfigMaps := [], Jobs := ["task-sysctl-bbbbb"] } []
      { JobName := "task-sysctl-bbbbb", Phase := Phase.Running } rfl).2.1
      (by decide) (by decide)⟩

/-- C24: `isExistsJob` reports an error ("already exists") for every outcome of the
artifact lookup other than NotFound, in particular when the lookup fails with a
transport or permission error; so for a job spec processed before the deadline,
the dispatcher records `Succeeded` and sends no creation of a backing job if and
only if the lookup did not return NotFound, and then it sends only the lookup and
leaves the cluster as it is. -/
theorem inspectJob_succeeded_iff_lookup (x : Externals) (inspectTask : InspectTask)
    (env : JobEnv) (st : DispatchState) (v : JobRule)
    (hnow : ¬ env.now > inspectTask.CreationTimestamp
      + (x.ParseDuration inspectTask.Timeout).getD x.DefaultTimeout) :
    ((isExistsJob st.cluster env.getFails v.JobName).isSome
        ↔ getConfigMap st.cluster env.getFails v.JobName ≠ GetOutcome.NotFound) ∧
      (env.getFails = true →
        getConfigMap st.cluster env.getFails v.JobName = GetOutcome.Failed ∧
          (isExistsJob st.cluster env.getFails v.JobName).isSome) ∧
      (((inspectJob x inspectTask env st v).jobNames
            = st.jobNames ++ [{ JobName := v.JobName, Phase := Phase.Succeeded }] ∧
          ∃ extra, (inspectJob x inspectTask env st v).calls = st.calls ++ extra ∧
            Call.CreateJobTask v.JobName ∉ extra)
        ↔ getConfigMap st.cluster env.getFails v.JobName ≠ GetOutcome.NotFound) ∧
      (getConfigMap st.cluster env.getFails v.JobName ≠ GetOutcome.NotFound →
        (inspectJob x inspectTask env st v).calls
            = st.calls ++ [Call.GetConfigMap v.JobName] ∧
          (inspectJob x inspectTask env st v).cluster = st.cluster) := by
  have ht : isTimeout x inspectTask.CreationTimestamp inspectTask.Timeout env.now = false := by
    rw [isTimeout_eq]; exact decide_eq_false hnow
  have hsome : getConfigMap st.cluster env.getFails v.JobName ≠ GetOutcome.NotFound →
      isExistsJob st.cluster env.getFails v.JobName
        = some ("job already exists for name:" ++ v.JobName) := by
    intro h
    unfold isExistsJob
    cases hg : getConfigMap st.cluster env.getFails v.JobName with
    | NotFound => exact absurd hg h
    | Found => rfl
    | Failed => rfl
  have hnone : getConfigMap st.cluster env.getFails v.JobName = GetOutcome.NotFound →
      isExistsJob st.cluster env.getFails v.JobName = none := by
    intro h
    unfold isExistsJob
    rw [h]
  have hfound : getConfigMap st.cluster env.getFails v.JobName ≠ GetOutcome.NotFound →
      inspectJob x inspectTask env st v
        = { st with
            jobNames := st.jobNames ++ [{ JobName := v.JobName, Phase := Phase.Succeeded }]
            calls := st.calls ++ [Call.GetConfigMap v.JobName] } := by
    intro h
    simp [inspectJob, ht, hsome h]
  refine ⟨⟨fun h hn => ?_, fun h => ?_⟩, fun hf => ?_, ⟨fun h hn => ?_, fun h => ?_⟩,
    fun h => ?_⟩
  · rw [hnone hn] at h
    exact absurd h (by simp)
  · rw [hsome h]; rfl
  · have hg : getConfigMap st.cluster env.getFails v.JobName = GetOutcome.Failed := by
      simp [getConfigMap, hf]
    refine ⟨hg, ?_⟩
    rw [hsome (by rw [hg]; exact fun h => GetOutcome.noConfusion h)]
    rfl
  · obtain ⟨hj, extra, hc, hnot⟩ := h
    have he := hnone hn
    by_cases hreg : v.RuleType ∈ x.RuleOperatorMap
    · by_cases hcf : env.createFails = true
      · have hcalls : (inspectJob x inspectTask env st v).calls
            = st.calls ++ [Call.GetConfigMap v.JobName, Call.CreateJobTask v.JobName] := by
          simp [inspectJob, ht, he, hreg, CreateJobTask, hcf]
        rw [hcalls] at hc
        have h3 := List.append_cancel_left hc
        exact hnot (by rw [← h3]; simp)
      · obtain ⟨more, hm, _⟩ := waitLoop_calls x env v.JobName inspectTask.Timeout
          (waitFuel x env inspectTask.Timeout) env.pollStart
          { st.cluster with Jobs := st.cluster.Jobs ++ [v.JobName] }
          (st.calls ++ [Call.GetConfigMap v.JobName, Call.CreateJobTask v.JobName])
          { JobName := v.JobName, Phase := Phase.Running }
        have hcalls : (inspectJob x inspectTask env st v).calls
            = st.calls ++ ([Call.GetConfigMap v.JobName, Call.CreateJobTask v.JobName]
                ++ more) := by
          rw [← List.append_assoc, ← hm]
          simp [inspectJob, ht, he, hreg, CreateJobTask, hcf, waitForJobCompletionGetResult]
        rw [hcalls] at hc
        have h3 := List.append_cancel_left hc
        exact hnot (by rw [← h3]; simp)
    · have hjn : (inspectJob x inspectTask env st v).jobNames = st.jobNames := by
        simp [inspectJob, ht, he, hreg]
      rw [hjn] at hj
      have hl := congrArg List.length hj
      simp at hl
  · rw [hfound h]
    exact ⟨rfl, [Call.GetConfigMap v.JobName], rfl, by simp⟩
  · rw [hfound h]
    exact ⟨rfl, rfl⟩

/-- Witness of C24: the unit of work starts at 1200, before the deadline 1600 of the
sample task, and the lookup of the artifact of `task-sysctl-bbbbb`, which does not
exist, fails with an error other than NotFound. -/
theorem inspectJob_succeeded_iff_lookup_witness :
    (inspectJob sampleExternals sampleDispatchTask sampleFailingLookupEnv
        sampleDispatchState ⟨"task-sysctl-bbbbb", constant.Sysctl, []⟩).calls
        = sampleDispatchState.calls ++ [Call.GetConfigMap "task-sysctl-bbbbb"] ∧
      (inspectJob sampleExternals sampleDispatchTask sampleFailingLookupEnv
        sampleDispatchState ⟨"task-sysctl-bbbbb", constant.Sysctl, []⟩).cluster
        = sampleDispatchState.cluster :=
  (inspectJob_succeeded_iff_lookup sampleExternals sampleDispatchTask sampleFailingLookupEnv
    sampleDispatchState ⟨"task-sysctl-bbbbb", constant.Sysctl, []⟩ (by decide)).2.2.2
    (by decide)

/-! ### The caches of the legacy task controller -/

theorem mem_mapDelete {K V : Type} [DecidableEq K] (m : List (K × V)) (k : K) (kv : K × V) :
    kv ∈ mapDelete m k ↔ kv ∈ m ∧ kv.1 ≠ k := by
  unfold mapDelete
  simp [List.mem_filter]

/-- A pass for a task with a deletion marker whose finalizer update succeeds purges
both caches of the task and keeps the entries of the other tasks. -/
theorem controllers.Reconcile_deleted (x : Externals) (env : PassEnv) (audit : Audit)
    (req : String × String) (task : InspectTask) (hget : env.get = GetTask.Found task)
    (hdel : task.DeletionTimestamp.isNone = false) (hupd : env.update = WriteOutcome.Ok) :
    (controllers.Reconcile x env audit req).err = none ∧
      (∀ kv ∈ (controllers.Reconcile x env audit req).audit.TaskOnceMap, kv.1 ≠ req) ∧
      (∀ kv ∈ (controllers.Reconcile x env audit req).audit.TaskResults, kv.1 ≠ task.Name) ∧
      (∀ kv, kv.1 ≠ req →
        (kv ∈ (controllers.Reconcile x env audit req).audit.TaskOnceMap
          ↔ kv ∈ audit.TaskOnceMap)) ∧
      (∀ kv, kv.1 ≠ task.Name →
        (kv ∈ (controllers.Reconcile x env audit req).audit.TaskResults
          ↔ kv ∈ audit.TaskResults)) := by
  have h : controllers.Reconcile x env audit req
      = { RequeueAfter := 0, err := none,
          audit := { audit with
            TaskOnceMap := mapDelete audit.TaskOnceMap req
            TaskResults := mapDelete audit.TaskResults task.Name },
          task := some { task with
            Finalizers := utils.SliceRemove Finalizers task.Finalizers },
          writes := [Write.Update { task with
            Finalizers := utils.SliceRemove Finalizers task.Finalizers }] } := by
    unfold controllers.Reconcile
    simp [hget, hdel, hupd]
  rw [h]
  refine ⟨rfl, fun kv hkv => ((mem_mapDelete _ _ _).1 hkv).2,
    fun kv hkv => ((mem_mapDelete _ _ _).1 hkv).2, fun kv hk => ?_, fun kv hk => ?_⟩
  · exact ⟨fun hkv => ((mem_mapDelete _ _ _).1 hkv).1, fun hkv => (mem_mapDelete _ _ _).2 ⟨hkv, hk⟩⟩
  · exact ⟨fun hkv => ((mem_mapDelete _ _ _).1 hkv).1, fun hkv => (mem_mapDelete _ _ _).2 ⟨hkv, hk⟩⟩

/-- C23, evaluation at the failing input: the caches hold the entries of the task
`audit` of the namespace `default`, and the read of that task answers NotFound.
The pass returns no error and removes the entry of the once-only task map, but the
pending-result map still holds the entry of `audit`: the code deletes the key of
the empty task name there. -/
theorem controllers.Reconcile_not_found_keeps_results :
    (controllers.Reconcile sampleExternals ⟨GetTask.NotFound, 1200, WriteOutcome.Ok,
        WriteOutcome.Ok⟩ sampleAudit ("default", "audit")).err = none ∧
      (controllers.Reconcile sampleExternals ⟨GetTask.NotFound, 1200, WriteOutcome.Ok,
        WriteOutcome.Ok⟩ sampleAudit ("default", "audit")).audit.TaskOnceMap = [] ∧
      (controllers.Reconcile sampleExternals ⟨GetTask.NotFound, 1200, WriteOutcome.Ok,
        WriteOutcome.Ok⟩ sampleAudit ("default", "audit")).audit.TaskResults.lookup "audit"
        = some [("kubeeye", ⟨"kubeeye", Phase.Succeeded⟩)] ∧
      (controllers.Reconcile sampleExternals ⟨GetTask.NotFound, 1200, WriteOutcome.Ok,
        WriteOutcome.Ok⟩ sampleAudit ("default", "audit")).audit.TaskResults
        = sampleAudit.TaskResults := by
  decide

end KubeEye
